import Mathlib

/-!
# wechat2rss: job scheduler, article executor and session poller

A shallow embedding of `internal/models`, `internal/crawler` and
`internal/wechat`.

Conventions of the embedding

* The relational store is a record of row lists, one list per table.  The
  store is reliable: an operation fails only for a reason the data decides
  (no row found, a `bigint` column out of range, an update without a key).
* `time.Now()` is a parameter of the operation that reads the clock.
* Go `int` is `Int`; where Go computes on it the result is wrapped to 64 bits.
* Errors are the text `Error()` would give.
* The bookkeeping columns `created_at` / `updated_at`, which the ORM maintains
  by itself, and preloaded associations are not part of a row.
* The network is a record of oracles, `Env` for the executor and `AuthEnv` for
  the login client: one oracle for each request the code sends and one for
  each decoder it calls.  The part of `net/url` the client calls is the
  parameter `URLLib`.
-/

namespace Wechat2rss

/-! ## internal/models -/

/-- Instants of `time.Time`, as a number of seconds. -/
abbrev Time := Int

/-- Row of `models.WechatSession`. -/
structure WechatSession where
  ID : Nat
  SessionKey : String
  UUID : String
  QRCode : String
  Cookie : String
  Token : String
  Status : String
  ExpiresAt : Option Time
  LastPing : Option Time
deriving DecidableEq, Repr

/-- Row of `models.Account`; `SessionID` is the nullable foreign key. -/
structure Account where
  ID : Nat
  Name : String
  WechatID : String
  BizID : String
  Alias : String
  Status : String
  SessionID : Option Nat
  LastTaskID : Option Nat
deriving DecidableEq, Repr

/-- Row of `models.Task`. -/
structure Task where
  ID : Nat
  AccountID : Nat
  Status : String
  RetryCount : Int
  ErrorMsg : String
  StartedAt : Option Time
  FinishedAt : Option Time
deriving DecidableEq, Repr

/-- Row of `models.TaskLog`. -/
structure TaskLog where
  ID : Nat
  TaskID : Nat
  Level : String
  Message : String
deriving DecidableEq, Repr

/-- Row of `models.Article`. -/
structure Article where
  ID : Nat
  AccountID : Nat
  WechatArticleID : String
  Title : String
  Summary : String
  ContentHTML : String
  RawURL : String
  PublishedAt : Time
deriving DecidableEq, Repr

def TaskStatusPending : String := "pending"
def TaskStatusRunning : String := "running"
def TaskStatusSuccess : String := "success"
def TaskStatusFailed : String := "failed"
def TaskMaxRetries : Int := 3

def SessionStatusPending : String := "pending"
def SessionStatusScanning : String := "scanning"
def SessionStatusActive : String := "active"
def SessionStatusExpired : String := "expired"

/-! ## The store -/

/-- The tables the crawler reads and writes. -/
structure Store where
  tasks : List Task
  taskLogs : List TaskLog
  accounts : List Account
  sessions : List WechatSession
  articles : List Article
deriving DecidableEq, Repr

/-- Text of `gorm.ErrRecordNotFound`. -/
def ErrRecordNotFound : String := "record not found"

/-- Largest value of a Go `int` and of a `bigint` column. -/
def maxInt64 : Int := 2 ^ 63 - 1

/-- Two's complement wrap of a Go `int` result. -/
def wrapInt64 (x : Int) : Int := (x + 2 ^ 63) % 2 ^ 64 - 2 ^ 63

/-- The task row with primary key `id`. -/
def getTask (s : Store) (id : Nat) : Option Task :=
  s.tasks.find? (fun t => t.ID = id)

/-- Primary keys of the task table are unique. -/
def TaskKeysUnique (s : Store) : Prop := (s.tasks.map (fun t => t.ID)).Nodup

instance (s : Store) : Decidable (TaskKeysUnique s) := by
  unfold TaskKeysUnique; infer_instance

/-- `Model(&Task{}).Where("id = ?", id).Updates(...)`: every row whose key is
`id` gets the new column values. -/
def updateTasks (id : Nat) (f : Task → Task) (ts : List Task) : List Task :=
  ts.map (fun t => if t.ID = id then f t else t)

/-- `Order("id").First(...)`: a row of least key, `none` for no row. -/
def firstByID : List Task → Option Task
  | [] => none
  | t :: ts =>
    match firstByID ts with
    | none => some t
    | some m => if t.ID ≤ m.ID then some t else some m

/-! ## internal/crawler/manager.go -/

/-- Column values written by the claim: `status`, `started_at`, `error_msg`. -/
def claimColumns (now : Time) (t : Task) : Task :=
  { t with Status := TaskStatusRunning, StartedAt := some now, ErrorMsg := "" }

/-- Column values written by `markSuccess`: `status`, `finished_at`, `error_msg`. -/
def successColumns (finish : Time) (t : Task) : Task :=
  { t with Status := TaskStatusSuccess, FinishedAt := some finish, ErrorMsg := "" }

/-- Column values written by `handleFailure`: `status`, `retry_count` (the
expression `retry_count + 1` on the stored value), `error_msg`, `finished_at`. -/
def failureColumns (nextStatus execErr : String) (now : Time) (t : Task) : Task :=
  { t with Status := nextStatus, RetryCount := t.RetryCount + 1,
           ErrorMsg := execErr, FinishedAt := some now }

/-- `Manager.claimNextTask`: one transaction that selects the pending row of
least id, marks it running and returns the row as the caller sees it. A failed
transaction leaves the store as it was. -/
def claimNextTask (now : Time) (s : Store) : Except String Task × Store :=
  match firstByID (s.tasks.filter (fun t => t.Status = TaskStatusPending)) with
  | none => (.error ErrRecordNotFound, s)
  | some task =>
    (.ok { task with Status := TaskStatusRunning, StartedAt := some now },
     { s with tasks := updateTasks task.ID (claimColumns now) s.tasks })

/-- `Manager.markSuccess`. -/
def markSuccess (taskID : Nat) (finish : Time) (s : Store) : Store :=
  { s with tasks := updateTasks taskID (successColumns finish) s.tasks }

/-- The `nextStatus` of `handleFailure`: failed when the Go expression
`retryCount+1 >= models.TaskMaxRetries` holds, pending otherwise. -/
def nextStatusOf (retryCount : Int) : String :=
  if wrapInt64 (retryCount + 1) ≥ TaskMaxRetries then TaskStatusFailed else TaskStatusPending

/-- `Manager.handleFailure`: the next status is computed in Go from the retry
count the caller passes, the increment is computed by the database on the
stored column, where it fails when the result leaves the range of the column. -/
def handleFailure (taskID : Nat) (retryCount : Int) (execErr : String) (now : Time)
    (s : Store) : Option String × Store :=
  let nextStatus := nextStatusOf retryCount
  if s.tasks.any (fun t => t.ID = taskID ∧ t.RetryCount + 1 > maxInt64) then
    (some "bigint out of range", s)
  else
    (none, { s with tasks := updateTasks taskID (failureColumns nextStatus execErr now) s.tasks })

/-- Fresh primary key of the log table. -/
def nextLogID (s : Store) : Nat := (s.taskLogs.map (fun l => l.ID)).foldr max 0 + 1

/-- The value the ORM stores in the column `level` of a new log row: the
column has the default `info`, which replaces the empty string. -/
def storedLevel (level : String) : String := if level = "" then "info" else level

/-- `Manager.logTask`: append one log row. -/
def logTask (taskID : Nat) (level msg : String) (s : Store) : Store :=
  { s with taskLogs := s.taskLogs ++
      [{ ID := nextLogID s, TaskID := taskID, Level := storedLevel level, Message := msg }] }

/-! ## internal/wechat/api.go -/

/-- `wechat.Credentials`. -/
structure Credentials where
  Cookie : String
  Token : String
deriving DecidableEq, Repr

/-- `wechat.ArticleItem`. -/
structure ArticleItem where
  Aid : String
  AppMsgID : String
  Title : String
  Author : String
  Digest : String
  Cover : String
  Link : String
  CreateTime : Int
deriving DecidableEq, Repr

/-- The `base_resp` object of a provider payload. -/
structure BaseResp where
  Ret : Int
  ErrMsg : String
deriving DecidableEq, Repr

/-- `wechat.appmsgResponse`. -/
structure appmsgResponse where
  BaseResp : BaseResp
  AppMsgList : List ArticleItem
  TotalCount : Int
deriving DecidableEq, Repr

/-- Status code and body of a completed HTTP exchange. -/
structure HttpResponse where
  StatusCode : Int
  Body : String
deriving DecidableEq, Repr

/-- The world outside the process, as the executor observes it.
* `listDo cred fakeid offset count`: send the listing request and read the body;
* `decodeAppmsg body`: `json.Unmarshal` into `appmsgResponse`;
* `contentDo link`: build and send the GET for an article page;
* `jsContent body`: parse the page and take the inner HTML of `#js_content`;
* `ctxErr offset`: `ctx.Err()` if the context is done when the loop looks at it
  after the page that moved the offset to `offset`. -/
structure Env where
  listDo : Credentials → String → Int → Int → Except String HttpResponse
  decodeAppmsg : String → Except String appmsgResponse
  contentDo : String → Except String HttpResponse
  jsContent : String → Except String String
  ctxErr : Int → Option String

/-- `wechat.FetchArticles`. -/
def FetchArticles (env : Env) (cred : Credentials) (fakeid : String) (offset count : Int) :
    Except String appmsgResponse :=
  match env.listDo cred fakeid offset count with
  | .error e => .error e
  | .ok resp =>
    if resp.StatusCode ≠ 200 then
      .error ("appmsg status " ++ toString resp.StatusCode ++ ": " ++ resp.Body)
    else
      match env.decodeAppmsg resp.Body with
      | .error e => .error e
      | .ok parsed =>
        if parsed.BaseResp.Ret ≠ 0 then
          .error ("appmsg ret " ++ toString parsed.BaseResp.Ret ++ " err " ++ parsed.BaseResp.ErrMsg)
        else .ok parsed

/-! ## internal/crawler/executor.go -/

/-- `ArticleExecutor.fetchContent`. -/
def fetchContent (env : Env) (link : String) : Except String String :=
  match env.contentDo link with
  | .error e => .error e
  | .ok resp =>
    if resp.StatusCode ≠ 200 then
      .error ("fetch content " ++ toString resp.StatusCode ++ ": " ++ resp.Body)
    else
      match env.jsContent resp.Body with
      | .error e => .error e
      | .ok html => .ok html

/-- Fresh primary key of the article table. -/
def nextArticleID (s : Store) : Nat := (s.articles.map (fun a => a.ID)).foldr max 0 + 1

/-- `ArticleExecutor.saveArticle`: nothing is written when a row with the
external id of the item exists, else the row built from the item is inserted.
The result is the error returned and the store afterwards. -/
def saveArticle (env : Env) (accountID : Nat) (item : ArticleItem) (s : Store) :
    Option String × Store :=
  match s.articles.find? (fun a => a.WechatArticleID = item.Aid) with
  | some _ => (none, s)
  | none =>
    let content := match fetchContent env item.Link with
      | .ok html => html
      | .error _ => ""
    let published : Time := item.CreateTime
    let article : Article :=
      { ID := nextArticleID s
        AccountID := accountID
        WechatArticleID := item.Aid
        Title := item.Title
        Summary := item.Digest
        ContentHTML := content
        RawURL := item.Link
        PublishedAt := published }
    (none, { s with articles := s.articles ++ [article] })

/-- The loop `for _, item := range resp.AppMsgList` of `Execute`: items are
saved in order and the first error stops the loop. -/
def saveItems (env : Env) (accountID : Nat) : List ArticleItem → Store → Option String × Store
  | [], s => (none, s)
  | item :: rest, s =>
    match saveArticle env accountID item s with
    | (some e, s1) => (some e, s1)
    | (none, s1) => saveItems env accountID rest s1

/-- What one run of `Execute` leaves behind: the error returned, the store, and
the offsets of the listing requests it sent, in order. -/
structure ExecResult where
  err : Option String
  store : Store
  offsets : List Int
deriving DecidableEq, Repr

/-- The paging loop of `Execute` from the given offset; `none` when the loop is
still running after `fuel` listing requests. -/
def pageLoop (env : Env) (cred : Credentials) (account : Account) :
    Nat → Int → Store → Option ExecResult
  | 0, _, _ => none
  | fuel + 1, offset, s =>
    match FetchArticles env cred account.BizID offset 5 with
    | .error e => some { err := some ("fetch articles: " ++ e), store := s, offsets := [offset] }
    | .ok resp =>
      if resp.AppMsgList.length = 0 then
        some { err := none, store := s, offsets := [offset] }
      else
        match saveItems env account.ID resp.AppMsgList s with
        | (some e, s1) => some { err := some e, store := s1, offsets := [offset] }
        | (none, s1) =>
          let next : Int := offset + resp.AppMsgList.length
          if next ≥ resp.TotalCount then
            some { err := none, store := s1, offsets := [offset] }
          else
            match env.ctxErr next with
            | some e => some { err := some e, store := s1, offsets := [offset] }
            | none =>
              (pageLoop env cred account fuel next s1).map
                (fun r => { r with offsets := offset :: r.offsets })

/-- `Preload("Session").First(&account, "id = ?", id)`: the account row and the
session row its foreign key points to, if any. -/
def loadAccount (s : Store) (id : Nat) : Option (Account × Option WechatSession) :=
  match s.accounts.find? (fun a => a.ID = id) with
  | none => none
  | some a =>
    some (a, a.SessionID.bind (fun sid => s.sessions.find? (fun w => w.ID = sid)))

/-- `ArticleExecutor.Execute`. -/
def Execute (env : Env) (fuel : Nat) (task : Task) (s : Store) : Option ExecResult :=
  match loadAccount s task.AccountID with
  | none => some { err := some ("load account: " ++ ErrRecordNotFound), store := s, offsets := [] }
  | some (account, session) =>
    if account.BizID = "" then
      some { err := some "account missing biz_id", store := s, offsets := [] }
    else
      match session with
      | none => some { err := some "account session invalid", store := s, offsets := [] }
      | some sess =>
        if sess.Status ≠ SessionStatusActive then
          some { err := some "account session invalid", store := s, offsets := [] }
        else
          pageLoop env { Cookie := sess.Cookie, Token := sess.Token } account fuel 0 s

/-! ## internal/crawler/manager.go, continued -/

/-- `Manager.executeTask`, given the two clock readings it may take. The
result pairs the error of `Execute`, which the source only logs, with the
store afterwards; `none` when `Execute` has not returned within `fuel`. -/
def executeTask (env : Env) (fuel : Nat) (finish now : Time) (task : Task) (s : Store) :
    Option (Option String × Store) :=
  let s1 := logTask task.ID "info" "任务开始执行" s
  match Execute env fuel task s1 with
  | none => none
  | some r =>
    match r.err with
    | none =>
      some (none, logTask task.ID "info" "任务执行成功" (markSuccess task.ID finish r.store))
    | some e =>
      some (some e,
        (handleFailure task.ID task.RetryCount e now (logTask task.ID "error" e r.store)).2)

/-- The fields of `config.Config` the crawler reads. -/
structure Config where
  CrawlerConcurrent : Int
  TaskPollInterval : Int
deriving DecidableEq, Repr

/-- `crawler.Manager`: the configuration and the capacity of the `running`
channel. -/
structure Manager where
  cfg : Config
  runningCap : Int
deriving DecidableEq, Repr

/-- `newManagerWithTicker`. -/
def newManagerWithTicker (cfg : Config) : Manager :=
  let concurrency := if cfg.CrawlerConcurrent < 1 then 1 else cfg.CrawlerConcurrent
  { cfg := cfg, runningCap := concurrency }

/-- The loop of `pollOnce` from index `i`, with `n` iterations left at most;
`clock i` is the time of the claim of iteration `i`. The claimed tasks are
returned in the order they are handed to their goroutines. -/
def pollLoop (m : Manager) (clock : Nat → Time) : Nat → Nat → Store → List Task × Store
  | 0, _, s => ([], s)
  | n + 1, i, s =>
    if (i : Int) < m.cfg.CrawlerConcurrent then
      match claimNextTask (clock i) s with
      | (.error _, s1) => ([], s1)
      | (.ok task, s1) =>
        let r := pollLoop m clock n (i + 1) s1
        (task :: r.1, r.2)
    else ([], s)

/-- `Manager.pollOnce`: the tasks claimed in one tick and the store after the
claims; the executions it starts run later. -/
def pollOnce (m : Manager) (clock : Nat → Time) (s : Store) : List Task × Store :=
  pollLoop m clock m.cfg.CrawlerConcurrent.toNat 0 s

/-! ## The scheduler as a transition system -/

/-- Store and the claimed tasks whose execution has not settled yet. -/
structure SchedState where
  store : Store
  inflight : List Task
deriving DecidableEq, Repr

/-- Steps of the scheduler: a claim, or the run of `executeTask` for a claimed
task in some environment. -/
inductive Event where
  | claim (now : Time)
  | run (env : Env) (fuel : Nat) (finish now : Time) (id : Nat)

/-- One step; `none` when the step is not enabled. -/
def step : Event → SchedState → Option SchedState
  | .claim now, st =>
    match claimNextTask now st.store with
    | (.ok task, s1) => some { store := s1, inflight := st.inflight ++ [task] }
    | (.error _, _) => none
  | .run env fuel finish now id, st =>
    match st.inflight.find? (fun t => t.ID = id) with
    | none => none
    | some task =>
      match executeTask env fuel finish now task st.store with
      | none => none
      | some r => some { store := r.2, inflight := st.inflight.filter (fun t => t.ID ≠ id) }

/-- A sequence of steps. -/
def runEvents : List Event → SchedState → Option SchedState
  | [], st => some st
  | e :: es, st =>
    match step e st with
    | none => none
    | some st1 => runEvents es st1

/-- Successive calls of `claimNextTask` at the given times with no settle in
between: the tasks the successful calls return, in order, and the store. -/
def claimSeq : List Time → Store → List Task × Store
  | [], s => ([], s)
  | now :: rest, s =>
    match claimNextTask now s with
    | (.ok task, s1) =>
      let r := claimSeq rest s1
      (task :: r.1, r.2)
    | (.error _, s1) => claimSeq rest s1

/-- Parameters of one claim-execute-settle cycle. -/
structure Cycle where
  env : Env
  fuel : Nat
  claimAt : Time
  finish : Time
  failAt : Time

/-- One claim-execute-settle cycle run to its end: the id claimed, the error of
`Execute` and the store afterwards; `none` when nothing is claimed or the
execution does not return. -/
def runCycle (c : Cycle) (s : Store) : Option (Nat × Option String × Store) :=
  match claimNextTask c.claimAt s with
  | (.error _, _) => none
  | (.ok task, s1) =>
    match executeTask c.env c.fuel c.finish c.failAt task s1 with
    | none => none
    | some r => some (task.ID, r.1, r.2)

/-- Consecutive cycles that all claim the task `id` and all fail; `none` as soon
as a cycle claims another task, claims nothing, or succeeds. -/
def failCycles (id : Nat) : List Cycle → Store → Option Store
  | [], s => some s
  | c :: cs, s =>
    match runCycle c s with
    | some (tid, some _, s1) => if tid = id then failCycles id cs s1 else none
    | _ => none

/-- The tables other than the task table are the same in both stores. -/
def SameOtherTables (s s1 : Store) : Prop :=
  s1.taskLogs = s.taskLogs ∧ s1.accounts = s.accounts ∧ s1.sessions = s.sessions ∧
  s1.articles = s.articles

/-- The tables other than the article table are the same in both stores. -/
def SameButArticles (s s1 : Store) : Prop :=
  s1.tasks = s.tasks ∧ s1.taskLogs = s.taskLogs ∧ s1.accounts = s.accounts ∧
  s1.sessions = s.sessions

/-- The external ids stored in the article table, in row order. -/
def articleKeys (s : Store) : List String := s.articles.map (fun a => a.WechatArticleID)

/-- Number of pending rows of the task table. -/
def pendingCount (s : Store) : Nat :=
  (s.tasks.filter (fun t => t.Status = TaskStatusPending)).length

/-- The status changes the scheduler may make to a task. -/
def AllowedMove (a b : String) : Prop :=
  (a = TaskStatusPending ∧ b = TaskStatusRunning) ∨
  (a = TaskStatusRunning ∧ b = TaskStatusSuccess) ∨
  (a = TaskStatusRunning ∧ b = TaskStatusPending) ∨
  (a = TaskStatusRunning ∧ b = TaskStatusFailed)

/-- A status from which the scheduler moves no task. -/
def Terminal (a : String) : Prop := a = TaskStatusSuccess ∨ a = TaskStatusFailed

/-- What holds in every state the scheduler reaches: task keys are unique, and
the tasks in flight have distinct ids and are running in the store, with the
retry count their claim returned. -/
def SchedInv (st : SchedState) : Prop :=
  TaskKeysUnique st.store ∧ (st.inflight.map (fun t => t.ID)).Nodup ∧
  ∀ t ∈ st.inflight, ∃ row, getTask st.store t.ID = some row ∧
    row.Status = TaskStatusRunning ∧ row.RetryCount = t.RetryCount

/-! ## Pages of a run -/

/-- The store after the pages at the given offsets have been processed in
order: each page that the listing request returns is saved item by item, a
request that fails saves nothing. -/
def storeAfterPages (env : Env) (cred : Credentials) (account : Account) :
    List Int → Store → Store
  | [], s => s
  | o :: os, s =>
    match FetchArticles env cred account.BizID o 5 with
    | .ok resp =>
      storeAfterPages env cred account os (saveItems env account.ID resp.AppMsgList s).2
    | .error _ => storeAfterPages env cred account os s

/-- Number of pages of `p` items that hold `t` items. -/
def pagesFor (t p : Nat) : Nat := (t + p - 1) / p

/-! ## internal/wechat/mpclient.go -/

/-- `wechat.askResponse`, the fields the client reads. -/
structure askResponse where
  Status : Int
  AuthURL : String
deriving DecidableEq, Repr

/-- `wechat.LoginStatus`. -/
structure LoginStatus where
  State : String
  RedirectURL : String
  Expired : Bool
deriving DecidableEq, Repr

/-- Name and value of an `http.Cookie`. -/
structure Cookie where
  Name : String
  Value : String
deriving DecidableEq, Repr

/-- What the client uses of `net/url`: `query raw` is `none` when
`url.Parse(raw)` fails, and else the function `u.Query().Get`. -/
structure URLLib where
  query : String → Option (String → String)

/-- The world outside the process, as the login client observes it. The
number `k` tells the calls of one tick apart: it is the position of the session
in the batch.
* `askDo k uuid`: send the status request and read the body;
* `decodeAsk body`: `json.Unmarshal` into `askResponse`;
* `redirectDo k url`: build and send the GET for the redirect URL and drain
  the body; the result is the URL of the last request, when the response
  names one;
* `jarCookies k`: the cookies the jar holds for `https://mp.weixin.qq.com`
  after that exchange;
* `lib`: the URL library. -/
structure AuthEnv where
  askDo : Nat → String → Except String HttpResponse
  decodeAsk : String → Except String askResponse
  redirectDo : Nat → String → Except String (Option String)
  jarCookies : Nat → List Cookie
  lib : URLLib

/-- The `state` of `AskStatus`: it starts as "waiting" and the switch on the
status code replaces it for the codes 0 to 3. -/
def stateOfCode (code : Int) : String :=
  if code = 0 then "waiting"
  else if code = 1 then "scanned"
  else if code = 2 then "authorized"
  else if code = 3 then "expired"
  else "waiting"

/-- `MPClient.AskStatus`. -/
def AskStatus (env : AuthEnv) (k : Nat) (uuid : String) : Except String LoginStatus :=
  match env.askDo k uuid with
  | .error e => .error e
  | .ok resp =>
    if resp.StatusCode ≠ 200 then
      .error ("status ask error " ++ toString resp.StatusCode ++ ": " ++ resp.Body)
    else
      match env.decodeAsk resp.Body with
      | .error e => .error e
      | .ok decoded =>
        .ok { State := stateOfCode decoded.Status, RedirectURL := decoded.AuthURL,
              Expired := decoded.Status == 3 }

/-- `isTokenRune`. -/
def isTokenRune (r : Char) : Bool :=
  ('0' ≤ r && r ≤ '9') || ('a' ≤ r && r ≤ 'z') || ('A' ≤ r && r ≤ 'Z')

/-- The text after the first occurrence of `sep`, `none` when `sep` does not
occur. -/
def afterFirst (sep : List Char) : List Char → Option (List Char)
  | [] => none
  | c :: cs =>
    if sep.isPrefixOf (c :: cs) then some ((c :: cs).drop sep.length) else afterFirst sep cs

/-- The text before the first occurrence of `sep`, all of it when `sep` does
not occur. -/
def beforeFirst (sep : List Char) : List Char → List Char
  | [] => []
  | c :: cs => if sep.isPrefixOf (c :: cs) then [] else c :: beforeFirst sep cs

/-- `parseToken`: the `token` query parameter if it is not empty; else, when
"token=" occurs in the text, the longest run of token runes at the start of
`strings.Split(raw, "token=")[1]`. -/
def parseToken (lib : URLLib) (raw : String) : String :=
  match lib.query raw with
  | none => ""
  | some get =>
    if get "token" ≠ "" then get "token"
    else
      match afterFirst "token=".data raw.data with
      | some rest => String.mk ((beforeFirst "token=".data rest).takeWhile isTokenRune)
      | none => ""

/-- The loop of `serializeCookies` from index `i`. -/
def serializeFrom : Nat → List Cookie → String
  | _, [] => ""
  | i, ck :: rest =>
    (if i > 0 then "; " else "") ++ ck.Name ++ "=" ++ ck.Value ++ serializeFrom (i + 1) rest

/-- `MPClient.serializeCookies("https://mp.weixin.qq.com")`, given the cookies
the jar holds for that URL. -/
def serializeCookies (cookies : List Cookie) : String := serializeFrom 0 cookies

/-- The token of `FinalizeLogin`: the one located in the redirect URL as
issued, and when that is empty and the response names the URL it reached, the
one located in that URL. -/
def locateToken (lib : URLLib) (redirectURL : String) (reached : Option String) : String :=
  let token := parseToken lib redirectURL
  if token = "" then
    match reached with
    | some u => parseToken lib u
    | none => token
  else token

/-- `MPClient.FinalizeLogin`: the serialized cookies and the token. -/
def FinalizeLogin (env : AuthEnv) (k : Nat) (redirectURL : String) :
    Except String (String × String) :=
  if redirectURL = "" then .error "redirect url empty"
  else
    match env.redirectDo k redirectURL with
    | .error e => .error e
    | .ok reached =>
      let token := locateToken env.lib redirectURL reached
      if token = "" then .error "token not found"
      else .ok (serializeCookies (env.jarCookies k), token)

/-! ## internal/wechat/manager.go -/

/-- The session row with primary key `id`. -/
def getSession (s : Store) (id : Nat) : Option WechatSession :=
  s.sessions.find? (fun w => w.ID = id)

/-- Primary keys of the session table are unique. -/
def SessionKeysUnique (s : Store) : Prop := (s.sessions.map (fun w => w.ID)).Nodup

instance (s : Store) : Decidable (SessionKeysUnique s) := by
  unfold SessionKeysUnique; infer_instance

/-- Columns written for the state "waiting": `status`, `last_ping`. -/
def waitingColumns (now : Time) (w : WechatSession) : WechatSession :=
  { w with Status := SessionStatusPending, LastPing := some now }

/-- Columns written for the state "scanned": `status`, `last_ping`. -/
def scannedColumns (now : Time) (w : WechatSession) : WechatSession :=
  { w with Status := SessionStatusScanning, LastPing := some now }

/-- Columns written for the state "authorized" after a successful finalize:
`status`, `cookie`, `token`, `last_ping`, `expires_at`. -/
def activeColumns (cookies token : String) (now expiry : Time) (w : WechatSession) :
    WechatSession :=
  { w with Status := SessionStatusActive, Cookie := cookies, Token := token,
           LastPing := some now, ExpiresAt := some expiry }

/-- Columns written for the state "expired": `status`. -/
def expiredColumns (w : WechatSession) : WechatSession :=
  { w with Status := SessionStatusExpired }

/-- Twelve hours, in seconds. -/
def twelveHours : Time := 12 * 3600

/-- `db.Model(session).Updates(...)`: the rows whose key is the key of the
session get the new column values; with a zero key the ORM has no condition
to update by and refuses. -/
def dbUpdateSession (session : WechatSession) (f : WechatSession → WechatSession) (s : Store) :
    Option String × Store :=
  if session.ID = 0 then (some "WHERE conditions required", s)
  else
    (none, { s with sessions := s.sessions.map (fun w => if w.ID = session.ID then f w else w) })

/-- `Manager.updateSession` for the session at position `k` of the batch, with
`now` the clock reading it takes. -/
def updateSession (env : AuthEnv) (k : Nat) (now : Time) (session : WechatSession) (s : Store) :
    Option String × Store :=
  match AskStatus env k session.UUID with
  | .error e => (some e, s)
  | .ok status =>
    if status.State = "waiting" then dbUpdateSession session (waitingColumns now) s
    else if status.State = "scanned" then dbUpdateSession session (scannedColumns now) s
    else if status.State = "authorized" then
      match FinalizeLogin env k status.RedirectURL with
      | .error e => (some ("finalize login: " ++ e), s)
      | .ok (cookies, token) =>
        dbUpdateSession session (activeColumns cookies token now (now + twelveHours)) s
    else if status.State = "expired" then dbUpdateSession session expiredColumns s
    else (none, s)

/-- The loop of `pollSessions` over the loaded sessions, from position `k`; the
error of `updateSession` is logged and dropped. -/
def pollBatch (env : AuthEnv) (clock : Nat → Time) :
    Nat → List WechatSession → Store → Store
  | _, [], s => s
  | k, session :: rest, s =>
    pollBatch env clock (k + 1) rest (updateSession env k (clock k) session s).2

/-- `Manager.pollSessions`: load at most 20 sessions that are pending or
scanning, in table order, and update each one. -/
def pollSessions (env : AuthEnv) (clock : Nat → Time) (s : Store) : Option String × Store :=
  let sessions := (s.sessions.filter (fun w =>
    w.Status = SessionStatusPending ∨ w.Status = SessionStatusScanning)).take 20
  (none, pollBatch env clock 0 sessions s)

/-- One tick of the session poller: the environment it meets and its clock. -/
structure Tick where
  env : AuthEnv
  clock : Nat → Time

/-- A sequence of poll ticks. -/
def pollTicks : List Tick → Store → Store
  | [], s => s
  | t :: ts, s => pollTicks ts (pollSessions t.env t.clock s).2

/-- The status changes one poll may make to a session: from pending or scanning
to any of the four statuses. -/
def SessionMove (a b : String) : Prop :=
  (a = SessionStatusPending ∨ a = SessionStatusScanning) ∧
  (b = SessionStatusPending ∨ b = SessionStatusScanning ∨ b = SessionStatusActive ∨
    b = SessionStatusExpired)

/-- The column sets a poll at time `now` may write to a session row. -/
def PollWrite (now : Time) (f : WechatSession → WechatSession) : Prop :=
  f = waitingColumns now ∨ f = scannedColumns now ∨
  (∃ c t, t ≠ "" ∧ f = activeColumns c t now (now + twelveHours)) ∨ f = expiredColumns

/-! ## One tick, session by session -/

/-- The sessions `pollSessions` loads: at most 20 that are pending or scanning,
in table order. -/
def loadBatch (s : Store) : List WechatSession :=
  (s.sessions.filter (fun w =>
    w.Status = SessionStatusPending ∨ w.Status = SessionStatusScanning)).take 20

/-- The calls of `updateSession` the loop of `pollSessions` makes from position
`k`: for each one, in order, the key of the session and the error returned,
which the loop logs. -/
def pollReports (env : AuthEnv) (clock : Nat → Time) :
    Nat → List WechatSession → Store → List (Nat × Option String)
  | _, [], _ => []
  | k, session :: rest, s =>
    (session.ID, (updateSession env k (clock k) session s).1) ::
      pollReports env clock (k + 1) rest (updateSession env k (clock k) session s).2

/-! ## The words of the claims on `parseToken` -/

/-- The text `sep` occurs in the text `l`. -/
def Occurs (sep l : List Char) : Prop := ∃ pre post, l = pre ++ sep ++ post

/-- The first occurrence of `sep` in `l` has `pre` before it and `post` after
it. -/
def FirstSplit (sep l pre post : List Char) : Prop :=
  l = pre ++ sep ++ post ∧ ∀ pre1 post1, l = pre1 ++ sep ++ post1 → pre.length ≤ pre1.length

/-- The text `mid` is `l` cut at the first occurrence of `sep`, if any. -/
def CutAtNext (sep l mid : List Char) : Prop :=
  (∃ tail, FirstSplit sep l mid tail) ∨ (mid = l ∧ ¬ Occurs sep l)

/-- The text `r` is the longest run of characters with property `p` that `l`
starts with. -/
def LongestRun (p : Char → Bool) (l r : List Char) : Prop :=
  r <+: l ∧ (∀ c ∈ r, p c = true) ∧
  ∀ r1, r1 <+: l → (∀ c ∈ r1, p c = true) → r1.length ≤ r.length

/-- The ASCII letters and digits. -/
def asciiAlnum : List Char :=
  "0123456789abcdefghijklmnopqrstuvwxyzABCDEFGHIJKLMNOPQRSTUVWXYZ".data

/-! ## Sample data -/

/-- A running task that has failed twice before. -/
def sampleRunning : Task :=
  { ID := 7, AccountID := 1, Status := TaskStatusRunning, RetryCount := 2,
    ErrorMsg := "", StartedAt := some 100, FinishedAt := none }

/-- A pending task that has not run yet. -/
def samplePending : Task :=
  { ID := 9, AccountID := 1, Status := TaskStatusPending, RetryCount := 0,
    ErrorMsg := "", StartedAt := none, FinishedAt := none }

/-- A store with one running and one pending task, and no account. -/
def sampleStore : Store :=
  { tasks := [samplePending, sampleRunning], taskLogs := [], accounts := [],
    sessions := [], articles := [] }

/-- An account with a resolved external id and no login session. -/
def sampleAccount : Account :=
  { ID := 1, Name := "daily", WechatID := "wx_daily", BizID := "MzA5", Alias := "",
    Status := "active", SessionID := none, LastTaskID := some 9 }

/-- The sample store with the account of its tasks. -/
def sampleStoreWithAccount : Store := { sampleStore with accounts := [sampleAccount] }

/-- A network on which every request fails. -/
def offlineEnv : Env :=
  { listDo := fun _ _ _ _ => .error "dial tcp: timeout"
    decodeAppmsg := fun _ => .error "unexpected end of JSON input"
    contentDo := fun _ => .error "dial tcp: timeout"
    jsContent := fun _ => .error "no document"
    ctxErr := fun _ => none }

/-- A cycle on the offline network. -/
def offlineCycle : Cycle :=
  { env := offlineEnv, fuel := 0, claimAt := 200, finish := 210, failAt := 220 }

/-- Three failing cycles of the pending sample task, as scheduler steps. -/
def sampleEvents : List Event :=
  [.claim 200, .run offlineEnv 0 210 220 9, .claim 300, .run offlineEnv 0 310 320 9,
   .claim 400, .run offlineEnv 0 410 420 9]

/-- A queue of three pending tasks and one finished task. -/
def sampleQueue : Store :=
  { tasks :=
      [{ samplePending with ID := 5 }, { samplePending with ID := 3 },
       { samplePending with ID := 2, Status := TaskStatusSuccess },
       { samplePending with ID := 4 }],
    taskLogs := [], accounts := [sampleAccount], sessions := [], articles := [] }

/-- A listed item. -/
def sampleItem : ArticleItem :=
  { Aid := "2247483650_1", AppMsgID := "2247483650", Title := "Morning", Author := "ed",
    Digest := "news", Cover := "", Link := "https://mp.weixin.qq.com/s/abc",
    CreateTime := 1700000000 }

/-- An article with the external id of the sample item, owned by account 2. -/
def sampleForeignArticle : Article :=
  { ID := 1, AccountID := 2, WechatArticleID := "2247483650_1", Title := "Other",
    Summary := "", ContentHTML := "", RawURL := "https://mp.weixin.qq.com/s/xyz",
    PublishedAt := 1600000000 }

/-- A store whose only article belongs to account 2. -/
def sampleArticleStore : Store :=
  { sampleStoreWithAccount with articles := [sampleForeignArticle] }

/-- A listing page that repeats an external id. -/
def samplePage : List ArticleItem :=
  [{ sampleItem with Aid := "2247483651_1", Title := "Noon" }, sampleItem,
   { sampleItem with Aid := "2247483651_1", Title := "Noon again" }]

/-- A configuration with `CRAWLER_CONCURRENCY=0`. -/
def zeroConfig : Config := { CrawlerConcurrent := 0, TaskPollInterval := 5 }

/-- An active login session. -/
def sampleSession : WechatSession :=
  { ID := 1, SessionKey := "9f3c", UUID := "u-1", QRCode := "", Cookie := "slave_sid=abc",
    Token := "1357", Status := SessionStatusActive, ExpiresAt := some 50000,
    LastPing := some 6800 }

/-- The sample account bound to the active session. -/
def sampleBoundAccount : Account := { sampleAccount with SessionID := some 1 }

/-- The item of the sample page with the given external id. -/
def itemWithAid (aid : String) : ArticleItem := { sampleItem with Aid := aid }

/-- A listing page of five items with distinct external ids. -/
def pageOfFive : List ArticleItem :=
  [itemWithAid "a1", itemWithAid "a2", itemWithAid "a3", itemWithAid "a4", itemWithAid "a5"]

/-- A store in which two items of the page of five are stored already. -/
def storeWithTwo : Store :=
  { tasks := [samplePending], taskLogs := [], accounts := [sampleBoundAccount],
    sessions := [sampleSession],
    articles :=
      [{ sampleForeignArticle with ID := 1, AccountID := 1, WechatArticleID := "a2" },
       { sampleForeignArticle with ID := 2, AccountID := 1, WechatArticleID := "a4" }] }

/-- A provider with one page of five items, on which every article page answers
HTTP 500. -/
def onePageEnv : Env :=
  { listDo := fun _ _ _ _ => .ok { StatusCode := 200, Body := "page" }
    decodeAppmsg := fun _ =>
      .ok { BaseResp := { Ret := 0, ErrMsg := "ok" }, AppMsgList := pageOfFive, TotalCount := 5 }
    contentDo := fun _ => .ok { StatusCode := 500, Body := "Internal Server Error" }
    jsContent := fun _ => .error "no document"
    ctxErr := fun _ => none }

/-- The one-page provider reporting ten items in total, with a context that is
done when the loop looks at it after the first page. -/
def cancelledEnv : Env :=
  { onePageEnv with
    decodeAppmsg := fun _ =>
      .ok { BaseResp := { Ret := 0, ErrMsg := "ok" }, AppMsgList := pageOfFive, TotalCount := 10 }
    ctxErr := fun _ => some "context deadline exceeded" }

/-- A provider with no article: the first page is empty and the total is 0. -/
def emptyTotalEnv : Env :=
  { onePageEnv with
    decodeAppmsg := fun _ =>
      .ok { BaseResp := { Ret := 0, ErrMsg := "ok" }, AppMsgList := [], TotalCount := 0 } }

/-- A provider that reports a total of 7 and answers every request with three
items. -/
def shortPageEnv : Env :=
  { onePageEnv with
    decodeAppmsg := fun _ =>
      .ok { BaseResp := { Ret := 0, ErrMsg := "ok" },
            AppMsgList := [itemWithAid "a1", itemWithAid "a2", itemWithAid "a3"],
            TotalCount := 7 } }

/-- A provider with 12 articles that serves every page in full: the body of the
answer to the request at offset `o` is `o` letters long, and decodes to the
`min 5 (12 - o)` items that follow the offset. -/
def fullPageEnv : Env :=
  { onePageEnv with
    listDo := fun _ _ o _ => .ok { StatusCode := 200, Body := String.mk (List.replicate o.toNat 'x') }
    decodeAppmsg := fun body =>
      .ok { BaseResp := { Ret := 0, ErrMsg := "ok" },
            AppMsgList := List.replicate (min 5 (12 - body.length)) sampleItem,
            TotalCount := 12 } }

/-- A provider whose first page holds five items of ten and whose answer to the
second request carries result code 200013. -/
def secondPageFailsEnv : Env :=
  { onePageEnv with
    listDo := fun _ _ o _ =>
      .ok { StatusCode := 200, Body := if o = 0 then "first" else "second" }
    decodeAppmsg := fun body =>
      if body = "first" then
        .ok { BaseResp := { Ret := 0, ErrMsg := "ok" }, AppMsgList := pageOfFive,
              TotalCount := 10 }
      else
        .ok { BaseResp := { Ret := 200013, ErrMsg := "freq control" }, AppMsgList := [],
              TotalCount := 0 } }

/-- A session waiting for the scan. -/
def samplePendingSession : WechatSession :=
  { ID := 3, SessionKey := "51ab", UUID := "u-3", QRCode := "data:image/png;base64,AA==",
    Cookie := "", Token := "", Status := SessionStatusPending, ExpiresAt := none,
    LastPing := none }

/-- A session whose code has been scanned. -/
def sampleScanningSession : WechatSession :=
  { samplePendingSession with ID := 4, SessionKey := "77c0", UUID := "u-4",
                              Status := SessionStatusScanning, LastPing := some 6900 }

/-- A store with an active, a pending and a scanning session. -/
def sessionStore : Store :=
  { sampleStoreWithAccount with
    sessions := [sampleSession, samplePendingSession, sampleScanningSession] }

/-- The redirect URL of scenario B. -/
def sampleRedirect : String := "https://mp.weixin.qq.com/cgi-bin/home?t=home/index&token=abc123"

/-- A URL library that answers for the sample redirect URL, whose query holds
`token=abc123`, and finds no parameter in any other text. -/
def sampleLib : URLLib :=
  { query := fun raw =>
      some (fun key => if raw = sampleRedirect ∧ key = "token" then "abc123" else "") }

/-- A provider that answers every status request with the given code and
redirect URL, completes every redirect, and has left the given cookies in the
jar. -/
def replyEnv (code : Int) (redirect : String) (cookies : List Cookie) : AuthEnv :=
  { askDo := fun _ _ => .ok { StatusCode := 200, Body := "status" }
    decodeAsk := fun _ => .ok { Status := code, AuthURL := redirect }
    redirectDo := fun _ u => .ok (some u)
    jarCookies := fun _ => cookies
    lib := sampleLib }

/-- A tick in which the provider reports code 2 with the sample redirect URL
and the jar holds one cookie. -/
def authorizedTick : Tick :=
  { env := replyEnv 2 sampleRedirect [{ Name := "slave_sid", Value := "Zm9v" }]
    clock := fun k => 7000 + k }

/-- A tick in which the provider reports code 0. -/
def waitingTick : Tick := { env := replyEnv 0 "" [], clock := fun k => 7100 + k }

/-- A URL whose only query parameter is `access_token`. -/
def accessTokenURL : String := "https://mp.weixin.qq.com/cgi-bin/home?access_token=abc123"

/-- A URL whose query key is written with an escape: `%74` is the letter t. -/
def escapedKeyURL : String := "https://mp.weixin.qq.com/cgi-bin/home?%74oken=abc123"

/-- A URL without query. -/
def plainURL : String := "https://mp.weixin.qq.com/cgi-bin/loginpage"

/-- A URL in which the text "token=" occurs twice, with the one query
parameter `xtoken`. -/
def twoMarksURL : String := "https://mp.weixin.qq.com/cgi-bin/home?xtoken=AbC12token=zz"

/-- The query parameters, decoded, of the URLs above. -/
def knownQueries : List (String × List (String × String)) :=
  [(sampleRedirect, [("t", "home/index"), ("token", "abc123")]),
   (accessTokenURL, [("access_token", "abc123")]),
   (escapedKeyURL, [("token", "abc123")]),
   (plainURL, []),
   (twoMarksURL, [("xtoken", "AbC12token=zz")])]

/-- A URL library that parses the URLs above, with the parameters `net/url`
finds in them, and no other text. -/
def tableLib : URLLib :=
  { query := fun raw =>
      match knownQueries.lookup raw with
      | some params => some (fun key => (params.lookup key).getD "")
      | none => none }

/-- A provider that completes the redirect of the plain URL at the sample
redirect URL, with one cookie in the jar. -/
def redirectEnv : AuthEnv :=
  { replyEnv 2 plainURL [{ Name := "slave_sid", Value := "Zm9v" }] with
    redirectDo := fun _ u => .ok (some (if u = plainURL then sampleRedirect else u))
    lib := tableLib }

/-- A provider on which the status request of the session at position 0 fails
and every other one reports code 1. -/
def firstFailsEnv : AuthEnv :=
  { replyEnv 1 "" [] with
    askDo := fun k _ =>
      if k = 0 then .error "dial tcp: timeout" else .ok { StatusCode := 200, Body := "status" } }

/-! ## Lemmas on the store -/

/-- The two levels `executeTask` logs with are stored as they are. -/
@[simp]
theorem storedLevel_info : storedLevel "info" = "info" := by decide

@[simp]
theorem storedLevel_error : storedLevel "error" = "error" := by decide

theorem wrapInt64_of_range (x : Int) (hlo : -(2 ^ 63) ≤ x) (hhi : x ≤ maxInt64) :
    wrapInt64 x = x := by
  unfold wrapInt64
  unfold maxInt64 at hhi
  omega

theorem status_ne :
    TaskStatusPending ≠ TaskStatusRunning ∧ TaskStatusPending ≠ TaskStatusSuccess ∧
    TaskStatusPending ≠ TaskStatusFailed ∧ TaskStatusRunning ≠ TaskStatusSuccess ∧
    TaskStatusRunning ≠ TaskStatusFailed ∧ TaskStatusSuccess ≠ TaskStatusFailed := by
  decide

theorem updateTasks_ids (id : Nat) (f : Task → Task) (hf : ∀ t, (f t).ID = t.ID)
    (ts : List Task) :
    (updateTasks id f ts).map (fun t => t.ID) = ts.map (fun t => t.ID) := by
  induction ts with
  | nil => rfl
  | cons t ts ih =>
    simp only [updateTasks, List.map_cons] at ih ⊢
    rw [ih]
    by_cases h : t.ID = id <;> simp [h, hf]

theorem find_updateTasks (id : Nat) (f : Task → Task) (hf : ∀ t, (f t).ID = t.ID)
    (ts : List Task) (k : Nat) :
    (updateTasks id f ts).find? (fun t => t.ID = k) =
      if k = id then (ts.find? (fun t => t.ID = k)).map f
      else ts.find? (fun t => t.ID = k) := by
  induction ts with
  | nil => simp [updateTasks]
  | cons t ts ih =>
    simp only [updateTasks, List.map_cons] at ih ⊢
    by_cases hk : k = id
    · subst hk
      simp only [if_true] at ih ⊢
      by_cases ht : t.ID = k
      · simp [ht, hf]
      · simp [ht, List.find?_cons, ih]
    · simp only [hk, if_false] at ih ⊢
      by_cases ht : t.ID = id
      · have hne : ¬ id = k := fun h => hk h.symm
        simp [ht, hf, hne, List.find?_cons, ih]
      · simp [ht, List.find?_cons, ih]

theorem getTask_mem (s : Store) (id : Nat) (j : Task) (h : getTask s id = some j) :
    j ∈ s.tasks ∧ j.ID = id := by
  unfold getTask at h
  exact ⟨List.mem_of_find?_eq_some h, by simpa using List.find?_some h⟩

theorem unique_row (ts : List Task) (hu : (ts.map (fun t => t.ID)).Nodup)
    (a b : Task) (ha : a ∈ ts) (hb : b ∈ ts) (hab : a.ID = b.ID) : a = b := by
  induction ts with
  | nil => cases ha
  | cons t ts ih =>
    simp only [List.map_cons, List.nodup_cons, List.mem_map, not_exists, not_and] at hu
    rcases List.mem_cons.1 ha with rfl | ha1
    · rcases List.mem_cons.1 hb with rfl | hb1
      · rfl
      · exact absurd hab.symm (hu.1 b hb1)
    · rcases List.mem_cons.1 hb with rfl | hb1
      · exact absurd hab (hu.1 a ha1)
      · exact ih hu.2 ha1 hb1

theorem getTask_of_mem (s : Store) (hu : TaskKeysUnique s) (j : Task) (hj : j ∈ s.tasks) :
    getTask s j.ID = some j := by
  unfold getTask
  cases hfind : s.tasks.find? (fun t => t.ID = j.ID) with
  | none =>
    have := List.find?_eq_none.1 hfind j hj
    simp at this
  | some k =>
    have hk := getTask_mem s j.ID k hfind
    rw [unique_row s.tasks hu k j hk.1 hj hk.2]

theorem no_overflow_row (s : Store) (hu : TaskKeysUnique s) (j : Task) (hj : j ∈ s.tasks)
    (hhi : j.RetryCount < maxInt64) :
    s.tasks.any (fun t => t.ID = j.ID ∧ t.RetryCount + 1 > maxInt64) = false := by
  rw [List.any_eq_false]
  intro t ht
  simp only [decide_eq_true_eq, not_and]
  intro hid
  rw [unique_row s.tasks hu t j ht hj hid]
  omega

/-! ## Settle -/

theorem getTask_markSuccess (s : Store) (id : Nat) (finish : Time) (k : Nat) :
    getTask (markSuccess id finish s) k =
      if k = id then (getTask s k).map (successColumns finish) else getTask s k :=
  find_updateTasks _ _ (by intro _; rfl) _ _

theorem handleFailure_ok (s : Store) (id : Nat) (r : Int) (e : String) (now : Time)
    (h : s.tasks.any (fun t => t.ID = id ∧ t.RetryCount + 1 > maxInt64) = false) :
    handleFailure id r e now s =
      (none, { s with tasks := updateTasks id (failureColumns (nextStatusOf r) e now) s.tasks }) := by
  simp only [handleFailure]
  rw [h]
  rfl

theorem handleFailure_overflow (s : Store) (id : Nat) (r : Int) (e : String) (now : Time)
    (h : s.tasks.any (fun t => t.ID = id ∧ t.RetryCount + 1 > maxInt64) = true) :
    handleFailure id r e now s = (some "bigint out of range", s) := by
  simp only [handleFailure]
  rw [h]
  rfl

theorem getTask_handleFailure (s : Store) (id : Nat) (r : Int) (e : String) (now : Time)
    (h : s.tasks.any (fun t => t.ID = id ∧ t.RetryCount + 1 > maxInt64) = false) (k : Nat) :
    getTask (handleFailure id r e now s).2 k =
      if k = id then (getTask s k).map (failureColumns (nextStatusOf r) e now)
      else getTask s k := by
  rw [handleFailure_ok s id r e now h]
  exact find_updateTasks _ _ (by intro _; rfl) _ _

/-- C1: for a task row `j` whose retry count `r` is a Go int below the largest
one, `markSuccess` turns the row into `j` with status success, the finish time
and an empty error message, the retry count still `r`; `handleFailure` called
with `r` and the error text `e` reports no error and turns the row into `j`
with status failed when `r + 1 ≥ 3` and pending otherwise, retry count
`r + 1`, error message `e` and finish time `now`. Every other task row and
every other table is as before. -/
theorem settle_writes_outcome (s : Store) (j : Task) (r : Int) (finish now : Time) (e : String)
    (hu : TaskKeysUnique s) (hj : j ∈ s.tasks) (hr : j.RetryCount = r)
    (hlo : -(2 ^ 63) ≤ r) (hhi : r < maxInt64) :
    (getTask (markSuccess j.ID finish s) j.ID =
        some { j with Status := TaskStatusSuccess, FinishedAt := some finish, ErrorMsg := "" }
      ∧ (∀ k, k ≠ j.ID → getTask (markSuccess j.ID finish s) k = getTask s k)
      ∧ SameOtherTables s (markSuccess j.ID finish s))
    ∧ ((handleFailure j.ID r e now s).1 = none
      ∧ getTask (handleFailure j.ID r e now s).2 j.ID =
        some { j with
          Status := if r + 1 ≥ TaskMaxRetries then TaskStatusFailed else TaskStatusPending,
          RetryCount := r + 1, ErrorMsg := e, FinishedAt := some now }
      ∧ (∀ k, k ≠ j.ID → getTask (handleFailure j.ID r e now s).2 k = getTask s k)
      ∧ SameOtherTables s (handleFailure j.ID r e now s).2) := by
  have hget := getTask_of_mem s hu j hj
  have hwrap : wrapInt64 (r + 1) = r + 1 :=
    wrapInt64_of_range (r + 1) (by omega) (by omega)
  have hany := no_overflow_row s hu j hj (by omega)
  refine ⟨⟨?_, ?_, ?_⟩, ?_, ?_, ?_, ?_⟩
  · rw [getTask_markSuccess, if_pos rfl, hget]
    rfl
  · intro k hk
    rw [getTask_markSuccess, if_neg hk]
  · exact ⟨rfl, rfl, rfl, rfl⟩
  · rw [handleFailure_ok s j.ID r e now hany]
  · rw [getTask_handleFailure s j.ID r e now hany, if_pos rfl, hget]
    subst hr
    simp only [nextStatusOf, hwrap]
    rfl
  · intro k hk
    rw [getTask_handleFailure s j.ID r e now hany, if_neg hk]
  · rw [handleFailure_ok s j.ID r e now hany]
    exact ⟨rfl, rfl, rfl, rfl⟩

theorem settle_writes_outcome_witness :
    getTask (markSuccess 7 150 sampleStore) 7 =
        some { sampleRunning with Status := TaskStatusSuccess, FinishedAt := some 150 }
    ∧ getTask (handleFailure 7 2 "boom" 160 sampleStore).2 7 =
        some { sampleRunning with Status := TaskStatusFailed, RetryCount := 3,
                                  ErrorMsg := "boom", FinishedAt := some 160 } :=
  have h := settle_writes_outcome sampleStore sampleRunning 2 150 160 "boom"
    (by decide) (by decide) rfl (by decide) (by decide)
  ⟨h.1.1, h.2.2.1⟩

/-! ## Claim -/

theorem firstByID_none (l : List Task) : firstByID l = none ↔ l = [] := by
  cases l with
  | nil => simp [firstByID]
  | cons t ts =>
    simp only [firstByID]
    cases firstByID ts with
    | none => simp
    | some m => by_cases h : t.ID ≤ m.ID <;> simp [h]

theorem firstByID_some (l : List Task) (m : Task) (h : firstByID l = some m) :
    m ∈ l ∧ ∀ x ∈ l, m.ID ≤ x.ID := by
  induction l generalizing m with
  | nil => simp [firstByID] at h
  | cons t ts ih =>
    simp only [firstByID] at h
    cases hts : firstByID ts with
    | none =>
      rw [hts] at h
      have hnil := (firstByID_none ts).1 hts
      subst hnil
      simp only [Option.some.injEq] at h
      subst h
      simp
    | some m1 =>
      rw [hts] at h
      have ih1 := ih m1 hts
      by_cases hle : t.ID ≤ m1.ID
      · simp only [hle, if_true, Option.some.injEq] at h
        subst h
        refine ⟨List.mem_cons_self _ _, ?_⟩
        intro x hx
        rcases List.mem_cons.1 hx with rfl | hx1
        · exact le_refl _
        · exact le_trans hle (ih1.2 x hx1)
      · simp only [hle, if_false, Option.some.injEq] at h
        subst h
        refine ⟨List.mem_cons_of_mem _ ih1.1, ?_⟩
        intro x hx
        rcases List.mem_cons.1 hx with rfl | hx1
        · omega
        · exact ih1.2 x hx1

/-- The pending rows of the task table. -/
theorem mem_pending (s : Store) (t : Task) :
    t ∈ s.tasks.filter (fun t => t.Status = TaskStatusPending) ↔
      t ∈ s.tasks ∧ t.Status = TaskStatusPending := by
  simp [List.mem_filter]

theorem claimNextTask_none (now : Time) (s : Store)
    (h : firstByID (s.tasks.filter (fun t => t.Status = TaskStatusPending)) = none) :
    claimNextTask now s = (.error ErrRecordNotFound, s) := by
  simp only [claimNextTask]
  rw [h]

theorem claimNextTask_some (now : Time) (s : Store) (j : Task)
    (h : firstByID (s.tasks.filter (fun t => t.Status = TaskStatusPending)) = some j) :
    claimNextTask now s =
      (.ok { j with Status := TaskStatusRunning, StartedAt := some now },
       { s with tasks := updateTasks j.ID (claimColumns now) s.tasks }) := by
  simp only [claimNextTask]
  rw [h]

/-- What a claim returns: an error and the same store, or a pending row of
least id with the store in which that row is updated. -/
theorem claimNextTask_cases (now : Time) (s : Store) :
    ((∀ p ∈ s.tasks, p.Status ≠ TaskStatusPending) ∧
        claimNextTask now s = (.error ErrRecordNotFound, s))
    ∨ ∃ j, j ∈ s.tasks ∧ j.Status = TaskStatusPending ∧
        (∀ p ∈ s.tasks, p.Status = TaskStatusPending → j.ID ≤ p.ID) ∧
        claimNextTask now s =
          (.ok { j with Status := TaskStatusRunning, StartedAt := some now },
           { s with tasks := updateTasks j.ID (claimColumns now) s.tasks }) := by
  cases h : firstByID (s.tasks.filter (fun t => t.Status = TaskStatusPending)) with
  | none =>
    left
    refine ⟨?_, claimNextTask_none now s h⟩
    intro p hp hpend
    have hnil := (firstByID_none _).1 h
    have : p ∈ s.tasks.filter (fun t => t.Status = TaskStatusPending) :=
      (mem_pending s p).2 ⟨hp, hpend⟩
    rw [hnil] at this
    cases this
  | some j =>
    right
    have hj := firstByID_some _ j h
    have hmem := (mem_pending s j).1 hj.1
    exact ⟨j, hmem.1, hmem.2,
      fun p hp hpend => hj.2 p ((mem_pending s p).2 ⟨hp, hpend⟩),
      claimNextTask_some now s j h⟩

theorem getTask_claimed (s : Store) (id : Nat) (now : Time) (k : Nat) :
    getTask { s with tasks := updateTasks id (claimColumns now) s.tasks } k =
      if k = id then (getTask s k).map (claimColumns now) else getTask s k :=
  find_updateTasks _ _ (by intro _; rfl) _ _

/-- C4: in a store with unique task keys, when no task is pending
`claimNextTask` returns record-not-found and the store as it was; when some
task is pending it returns the pending row `j` of least id (as the caller sees
it: running, started at the claim time), and afterwards the row of `j` is `j`
with status running, `started_at` the claim time and an empty error message,
so its retry count is unchanged, every other task row is unchanged, no row is
added or removed and the other tables are unchanged. -/
theorem claimNextTask_spec (s : Store) (now : Time) (hu : TaskKeysUnique s) :
    ((∀ p ∈ s.tasks, p.Status ≠ TaskStatusPending) →
        claimNextTask now s = (.error ErrRecordNotFound, s))
    ∧ ((∃ p ∈ s.tasks, p.Status = TaskStatusPending) →
        ∃ j ∈ s.tasks, j.Status = TaskStatusPending ∧
          (∀ p ∈ s.tasks, p.Status = TaskStatusPending → j.ID ≤ p.ID) ∧
          (claimNextTask now s).1 =
            .ok { j with Status := TaskStatusRunning, StartedAt := some now } ∧
          getTask (claimNextTask now s).2 j.ID =
            some { j with Status := TaskStatusRunning, StartedAt := some now, ErrorMsg := "" } ∧
          (∀ k, k ≠ j.ID → getTask (claimNextTask now s).2 k = getTask s k) ∧
          (claimNextTask now s).2.tasks.map (fun t => t.ID) = s.tasks.map (fun t => t.ID) ∧
          SameOtherTables s (claimNextTask now s).2) := by
  constructor
  · intro hnone
    rcases claimNextTask_cases now s with h | ⟨j, hj, hpend, _, _⟩
    · exact h.2
    · exact absurd hpend (hnone j hj)
  · rintro ⟨p, hp, hpend⟩
    rcases claimNextTask_cases now s with h | ⟨j, hj, hjpend, hmin, heq⟩
    · exact absurd hpend (h.1 p hp)
    · refine ⟨j, hj, hjpend, hmin, ?_, ?_, ?_, ?_, ?_⟩
      · rw [heq]
      · rw [heq]
        simp only
        rw [getTask_claimed, if_pos rfl, getTask_of_mem s hu j hj]
        rfl
      · intro k hk
        rw [heq]
        simp only
        rw [getTask_claimed, if_neg hk]
      · rw [heq]
        exact updateTasks_ids _ _ (by intro _; rfl) _
      · rw [heq]
        exact ⟨rfl, rfl, rfl, rfl⟩

theorem claimNextTask_spec_witness :
    TaskKeysUnique sampleStore ∧
    ∃ j ∈ sampleStore.tasks, j.Status = TaskStatusPending ∧
      (∀ p ∈ sampleStore.tasks, p.Status = TaskStatusPending → j.ID ≤ p.ID) ∧
      (claimNextTask 200 sampleStore).1 =
        .ok { j with Status := TaskStatusRunning, StartedAt := some 200 } ∧
      getTask (claimNextTask 200 sampleStore).2 j.ID =
        some { j with Status := TaskStatusRunning, StartedAt := some 200, ErrorMsg := "" } ∧
      (∀ k, k ≠ j.ID → getTask (claimNextTask 200 sampleStore).2 k = getTask sampleStore k) ∧
      (claimNextTask 200 sampleStore).2.tasks.map (fun t => t.ID) =
        sampleStore.tasks.map (fun t => t.ID) ∧
      SameOtherTables sampleStore (claimNextTask 200 sampleStore).2 :=
  ⟨by decide, (claimNextTask_spec sampleStore 200 (by decide)).2
    ⟨samplePending, by decide, by decide⟩⟩

/-! ## The executor writes articles only -/

theorem SameButArticles.refl (s : Store) : SameButArticles s s := ⟨rfl, rfl, rfl, rfl⟩

theorem SameButArticles.trans {s s1 s2 : Store} (h1 : SameButArticles s s1)
    (h2 : SameButArticles s1 s2) : SameButArticles s s2 :=
  ⟨h2.1.trans h1.1, h2.2.1.trans h1.2.1, h2.2.2.1.trans h1.2.2.1, h2.2.2.2.trans h1.2.2.2⟩

theorem saveArticle_err (env : Env) (accountID : Nat) (item : ArticleItem) (s : Store) :
    (saveArticle env accountID item s).1 = none := by
  unfold saveArticle
  split <;> rfl

theorem saveArticle_frame (env : Env) (accountID : Nat) (item : ArticleItem) (s : Store) :
    SameButArticles s (saveArticle env accountID item s).2 := by
  unfold saveArticle
  split <;> exact ⟨rfl, rfl, rfl, rfl⟩

theorem saveItems_err (env : Env) (accountID : Nat) (items : List ArticleItem) (s : Store) :
    (saveItems env accountID items s).1 = none := by
  induction items generalizing s with
  | nil => rfl
  | cons item rest ih =>
    have h1 := saveArticle_err env accountID item s
    rw [saveItems]
    split
    · next e s1 heq => rw [heq] at h1; cases h1
    · next s1 heq => exact ih s1

theorem saveItems_frame (env : Env) (accountID : Nat) (items : List ArticleItem) (s : Store) :
    SameButArticles s (saveItems env accountID items s).2 := by
  induction items generalizing s with
  | nil => exact SameButArticles.refl s
  | cons item rest ih =>
    have h1 := saveArticle_frame env accountID item s
    rw [saveItems]
    split
    · next e s1 heq => rw [heq] at h1; exact h1
    · next s1 heq =>
      rw [heq] at h1
      exact h1.trans (ih s1)

theorem pageLoop_frame (env : Env) (cred : Credentials) (account : Account) (fuel : Nat)
    (offset : Int) (s : Store) (r : ExecResult)
    (h : pageLoop env cred account fuel offset s = some r) : SameButArticles s r.store := by
  induction fuel generalizing offset s r with
  | zero => simp [pageLoop] at h
  | succ n ih =>
    rw [pageLoop] at h
    split at h
    · cases h; exact SameButArticles.refl s
    · split at h
      · cases h; exact SameButArticles.refl s
      · have hf := saveItems_frame env account.ID (by assumption : appmsgResponse).AppMsgList s
        split at h
        · next e s1 heq =>
          rw [heq] at hf
          cases h; exact hf
        · next s1 heq =>
          rw [heq] at hf
          simp only at h
          split at h
          · cases h; exact hf
          · split at h
            · cases h; exact hf
            · cases hrec : pageLoop env cred account n _ s1 with
              | none => rw [hrec] at h; cases h
              | some r1 =>
                rw [hrec] at h
                simp only [Option.map_some', Option.some.injEq] at h
                subst h
                exact hf.trans (ih _ s1 r1 hrec)

theorem Execute_frame (env : Env) (fuel : Nat) (task : Task) (s : Store) (r : ExecResult)
    (h : Execute env fuel task s = some r) : SameButArticles s r.store := by
  unfold Execute at h
  split at h
  · cases h; exact SameButArticles.refl s
  · split at h
    · cases h; exact SameButArticles.refl s
    · split at h
      · cases h; exact SameButArticles.refl s
      · split at h
        · cases h; exact SameButArticles.refl s
        · exact pageLoop_frame _ _ _ _ _ _ _ h

/-! ## Preconditions of Execute -/

/-- Without a login session `Execute` stops before the paging loop. -/
theorem Execute_without_session (env : Env) (fuel : Nat) (task : Task) (s : Store)
    (a : Account) (hload : loadAccount s task.AccountID = some (a, none)) :
    ∃ e, Execute env fuel task s = some { err := some e, store := s, offsets := [] } := by
  unfold Execute
  rw [hload]
  by_cases hb : a.BizID = ""
  · exact ⟨"account missing biz_id", by simp [hb]⟩
  · exact ⟨"account session invalid", by simp [hb]⟩

/-- C7: when the account of the job has an empty `biz_id`, or no login session,
or a session whose status is not active, `Execute` returns an error with the
store as it was and without any listing request, whatever the environment and
the fuel; the error is "account missing biz_id" when `biz_id` is empty and
"account session invalid" otherwise. -/
theorem Execute_fails_fast (env : Env) (fuel : Nat) (task : Task) (s : Store) (a : Account)
    (sess : Option WechatSession) (hload : loadAccount s task.AccountID = some (a, sess))
    (hbad : a.BizID = "" ∨ sess = none ∨ ∃ w, sess = some w ∧ w.Status ≠ SessionStatusActive) :
    ∃ e, Execute env fuel task s = some { err := some e, store := s, offsets := [] } ∧
      (a.BizID = "" → e = "account missing biz_id") ∧
      (a.BizID ≠ "" → e = "account session invalid") := by
  unfold Execute
  rw [hload]
  by_cases hb : a.BizID = ""
  · exact ⟨"account missing biz_id", by simp [hb], fun _ => rfl, fun h => absurd hb h⟩
  · refine ⟨"account session invalid", ?_, fun h => absurd h hb, fun _ => rfl⟩
    rcases hbad with h | h | ⟨w, hw, hst⟩
    · exact absurd h hb
    · subst h; simp [hb]
    · subst hw; simp [hb, hst]

theorem Execute_fails_fast_witness :
    ∃ e, Execute offlineEnv 0 samplePending sampleStoreWithAccount =
        some { err := some e, store := sampleStoreWithAccount, offsets := [] } ∧
      (sampleAccount.BizID = "" → e = "account missing biz_id") ∧
      (sampleAccount.BizID ≠ "" → e = "account session invalid") :=
  Execute_fails_fast offlineEnv 0 samplePending sampleStoreWithAccount sampleAccount none
    (by decide) (Or.inr (Or.inl rfl))

/-! ## executeTask -/

theorem handleFailure_tasks_congr (s s2 : Store) (h : s.tasks = s2.tasks) (id : Nat) (r : Int)
    (e : String) (now : Time) :
    (handleFailure id r e now s).2.tasks = (handleFailure id r e now s2).2.tasks ∧
    (handleFailure id r e now s).1 = (handleFailure id r e now s2).1 := by
  simp only [handleFailure, h]
  split <;> simp [h]

theorem handleFailure_frame (s : Store) (id : Nat) (r : Int) (e : String) (now : Time) :
    SameOtherTables s (handleFailure id r e now s).2 := by
  simp only [handleFailure]
  split <;> exact ⟨rfl, rfl, rfl, rfl⟩

/-- The result of `executeTask` in terms of the result of `Execute`. -/
theorem executeTask_eq (env : Env) (fuel : Nat) (finish now : Time) (task : Task) (s : Store)
    (r : ExecResult)
    (h : Execute env fuel task (logTask task.ID "info" "任务开始执行" s) = some r) :
    executeTask env fuel finish now task s =
      match r.err with
      | none =>
        some (none, logTask task.ID "info" "任务执行成功" (markSuccess task.ID finish r.store))
      | some e =>
        some (some e,
          (handleFailure task.ID task.RetryCount e now (logTask task.ID "error" e r.store)).2) := by
  simp only [executeTask]
  rw [h]

theorem executeTask_some (env : Env) (fuel : Nat) (finish now : Time) (task : Task) (s : Store)
    (out : Option String × Store) (h : executeTask env fuel finish now task s = some out) :
    ∃ r, Execute env fuel task (logTask task.ID "info" "任务开始执行" s) = some r := by
  cases hr : Execute env fuel task (logTask task.ID "info" "任务开始执行" s) with
  | none => simp [executeTask, hr] at h
  | some r => exact ⟨r, rfl⟩

/-- On the task table `executeTask` is `markSuccess` or `handleFailure`. -/
theorem executeTask_tasks (env : Env) (fuel : Nat) (finish now : Time) (task : Task) (s : Store)
    (out : Option String × Store) (h : executeTask env fuel finish now task s = some out) :
    (out.1 = none ∧ out.2.tasks = (markSuccess task.ID finish s).tasks) ∨
    (∃ e, out.1 = some e ∧
      out.2.tasks = (handleFailure task.ID task.RetryCount e now s).2.tasks) := by
  obtain ⟨r, hr⟩ := executeTask_some env fuel finish now task s out h
  have hfr := Execute_frame env fuel task _ r hr
  rw [executeTask_eq env fuel finish now task s r hr] at h
  cases herr : r.err with
  | none =>
    rw [herr] at h
    simp only [Option.some.injEq] at h
    subst h
    left
    refine ⟨rfl, ?_⟩
    show updateTasks _ _ r.store.tasks = updateTasks _ _ s.tasks
    rw [hfr.1]
    rfl
  | some e =>
    rw [herr] at h
    simp only [Option.some.injEq] at h
    subst h
    right
    refine ⟨e, rfl, ?_⟩
    exact (handleFailure_tasks_congr _ s (by show r.store.tasks = s.tasks; rw [hfr.1]; rfl)
      _ _ _ _).1

/-- A claim in a store with unique keys returns the pending row of least id. -/
theorem claim_lowest (s : Store) (now : Time) (j : Task) (hu : TaskKeysUnique s)
    (hj : j ∈ s.tasks) (hpend : j.Status = TaskStatusPending)
    (hmin : ∀ p ∈ s.tasks, p.Status = TaskStatusPending → j.ID ≤ p.ID) :
    claimNextTask now s =
      (.ok { j with Status := TaskStatusRunning, StartedAt := some now },
       { s with tasks := updateTasks j.ID (claimColumns now) s.tasks }) := by
  rcases claimNextTask_cases now s with h | ⟨k, hk, hkpend, hkmin, heq⟩
  · exact absurd hpend (h.1 j hj)
  · have hid : k.ID = j.ID := le_antisymm (hkmin j hj hpend) (hmin k hk hkpend)
    have : k = j := unique_row s.tasks hu k j hk hj hid
    subst this
    exact heq

/-! ## Scenario A -/

/-- C8: let `j` be a pending task with retry count 0 that a claim selects (the
pending row of least id in a store with unique keys) and whose account has no
login session. Then one claim-execute-settle cycle, in any environment, claims
`j`, fails in `Execute` with some error `e`, and leaves the row of `j` pending
with retry count 1 and error message `e`, the log table holding an entry of
level error for `j` with message `e`, and the article table unchanged. -/
theorem scenario_no_session (c : Cycle) (s : Store) (j : Task) (a : Account)
    (hu : TaskKeysUnique s) (hj : j ∈ s.tasks) (hpend : j.Status = TaskStatusPending)
    (hrc : j.RetryCount = 0)
    (hmin : ∀ p ∈ s.tasks, p.Status = TaskStatusPending → j.ID ≤ p.ID)
    (hacc : loadAccount s j.AccountID = some (a, none)) :
    ∃ e s1, runCycle c s = some (j.ID, some e, s1) ∧
      (∃ j1, getTask s1 j.ID = some j1 ∧ j1.Status = TaskStatusPending ∧
        j1.RetryCount = 1 ∧ j1.ErrorMsg = e) ∧
      (∃ l ∈ s1.taskLogs, l.TaskID = j.ID ∧ l.Level = "error" ∧ l.Message = e) ∧
      s1.articles = s.articles := by
  have hclaim := claim_lowest s c.claimAt j hu hj hpend hmin
  -- the task as claimed and the stores on the way
  generalize hjr : ({ j with Status := TaskStatusRunning, StartedAt := some c.claimAt } : Task)
    = jr at hclaim
  have hjrid : jr.ID = j.ID := by rw [← hjr]
  have hjracc : jr.AccountID = j.AccountID := by rw [← hjr]
  have hjrrc : jr.RetryCount = 0 := by rw [← hjr]; exact hrc
  generalize hs1 : ({ s with tasks := updateTasks j.ID (claimColumns c.claimAt) s.tasks } : Store)
    = s1 at hclaim
  have hs1acc : s1.accounts = s.accounts := by rw [← hs1]
  have hs1ses : s1.sessions = s.sessions := by rw [← hs1]
  have hs1art : s1.articles = s.articles := by rw [← hs1]
  have hs1get : getTask s1 j.ID = some (claimColumns c.claimAt j) := by
    rw [← hs1, getTask_claimed, if_pos rfl, getTask_of_mem s hu j hj]
    rfl
  have hs1u : TaskKeysUnique s1 := by
    unfold TaskKeysUnique
    rw [← hs1]
    show (List.map (fun t => t.ID) (updateTasks j.ID (claimColumns c.claimAt) s.tasks)).Nodup
    rw [updateTasks_ids _ _ (by intro _; rfl)]
    exact hu
  -- Execute fails before the first request
  have hload : loadAccount (logTask jr.ID "info" "任务开始执行" s1) jr.AccountID = some (a, none) := by
    rw [← hacc, hjracc]
    simp only [loadAccount, logTask, hs1acc, hs1ses]
  obtain ⟨e, hexec⟩ := Execute_without_session c.env c.fuel jr _ a hload
  have hrun := executeTask_eq c.env c.fuel c.finish c.failAt jr s1 _ hexec
  simp only at hrun
  -- the failure is settled without overflow
  generalize hs3 : logTask jr.ID "error" e (logTask jr.ID "info" "任务开始执行" s1) = s3 at hrun
  have hs3tasks : s3.tasks = s1.tasks := by rw [← hs3]; rfl
  have hs3get : getTask s3 j.ID = some (claimColumns c.claimAt j) := by
    rw [← hs1get]; unfold getTask; rw [hs3tasks]
  have hs3u : TaskKeysUnique s3 := by unfold TaskKeysUnique; rw [hs3tasks]; exact hs1u
  have hany := no_overflow_row s3 hs3u (claimColumns c.claimAt j)
    (getTask_mem s3 j.ID _ hs3get).1 (by
      show j.RetryCount < maxInt64
      rw [hrc]; decide)
  have hcid : (claimColumns c.claimAt j).ID = j.ID := rfl
  rw [hcid, ← hjrid] at hany
  refine ⟨e, (handleFailure jr.ID jr.RetryCount e c.failAt s3).2, ?_, ?_, ?_, ?_⟩
  · simp only [runCycle, hclaim, hrun, hjrid]
  · refine ⟨failureColumns (nextStatusOf jr.RetryCount) e c.failAt (claimColumns c.claimAt j),
      ?_, ?_, ?_, rfl⟩
    · rw [getTask_handleFailure s3 jr.ID jr.RetryCount e c.failAt hany, hjrid, if_pos rfl, hs3get]
      rfl
    · show nextStatusOf jr.RetryCount = TaskStatusPending
      rw [hjrrc]; decide
    · show j.RetryCount + 1 = 1
      rw [hrc]; rfl
  · refine ⟨{ ID := nextLogID (logTask jr.ID "info" "任务开始执行" s1), TaskID := jr.ID,
              Level := "error", Message := e }, ?_, hjrid, rfl, rfl⟩
    rw [(handleFailure_frame s3 jr.ID jr.RetryCount e c.failAt).1, ← hs3]
    simp [logTask]
  · rw [(handleFailure_frame s3 jr.ID jr.RetryCount e c.failAt).2.2.2, ← hs3]
    exact hs1art

theorem scenario_no_session_witness :
    ∃ e s1, runCycle offlineCycle sampleStoreWithAccount = some (samplePending.ID, some e, s1) ∧
      (∃ j1, getTask s1 samplePending.ID = some j1 ∧ j1.Status = TaskStatusPending ∧
        j1.RetryCount = 1 ∧ j1.ErrorMsg = e) ∧
      (∃ l ∈ s1.taskLogs, l.TaskID = samplePending.ID ∧ l.Level = "error" ∧ l.Message = e) ∧
      s1.articles = sampleStoreWithAccount.articles :=
  scenario_no_session offlineCycle sampleStoreWithAccount samplePending sampleAccount
    (by decide) (by decide) (by decide) (by decide) (by decide) (by decide)

/-! ## Consecutive failures -/

theorem nextStatusOf_of_range (r : Int) (hlo : -(2 ^ 63) ≤ r) (hhi : r < maxInt64) :
    nextStatusOf r = if r + 1 ≥ TaskMaxRetries then TaskStatusFailed else TaskStatusPending := by
  unfold nextStatusOf
  rw [wrapInt64_of_range (r + 1) (by omega) (by omega)]

theorem handleFailure_ids (s : Store) (id : Nat) (r : Int) (e : String) (now : Time) :
    (handleFailure id r e now s).2.tasks.map (fun t => t.ID) = s.tasks.map (fun t => t.ID) := by
  simp only [handleFailure]
  split
  · rfl
  · exact updateTasks_ids _ _ (by intro _; rfl) _

theorem markSuccess_ids (s : Store) (id : Nat) (finish : Time) :
    (markSuccess id finish s).tasks.map (fun t => t.ID) = s.tasks.map (fun t => t.ID) :=
  updateTasks_ids _ _ (by intro _; rfl) _

/-- A cycle that fails: it claimed a pending row, and the row afterwards is the
claimed row with the columns of the failure. -/
theorem runCycle_fail (c : Cycle) (s : Store) (i : Nat) (e : String) (s1 : Store)
    (hu : TaskKeysUnique s) (h : runCycle c s = some (i, some e, s1)) :
    ∃ j, j ∈ s.tasks ∧ j.ID = i ∧ j.Status = TaskStatusPending ∧ TaskKeysUnique s1 ∧
      (j.RetryCount < maxInt64 →
        getTask s1 i = some (failureColumns (nextStatusOf j.RetryCount) e c.failAt
          (claimColumns c.claimAt j))) := by
  rcases claimNextTask_cases c.claimAt s with hc | ⟨j, hj, hpend, _, hc⟩
  · simp [runCycle, hc.2] at h
  · simp only [runCycle, hc] at h
    generalize hjr : ({ j with Status := TaskStatusRunning, StartedAt := some c.claimAt } : Task)
      = jr at h
    have hjrid : jr.ID = j.ID := by rw [← hjr]
    have hjrrc : jr.RetryCount = j.RetryCount := by rw [← hjr]
    generalize hs0 :
      ({ s with tasks := updateTasks j.ID (claimColumns c.claimAt) s.tasks } : Store) = s0 at h
    have hs0ids : s0.tasks.map (fun t => t.ID) = s.tasks.map (fun t => t.ID) := by
      rw [← hs0]
      exact updateTasks_ids _ _ (by intro _; rfl) _
    have hs0u : TaskKeysUnique s0 := by unfold TaskKeysUnique; rw [hs0ids]; exact hu
    have hs0get : getTask s0 j.ID = some (claimColumns c.claimAt j) := by
      rw [← hs0, getTask_claimed, if_pos rfl, getTask_of_mem s hu j hj]
      rfl
    cases hx : executeTask c.env c.fuel c.finish c.failAt jr s0 with
    | none => simp [hx] at h
    | some out =>
      rw [hx] at h
      simp only [Option.some.injEq, Prod.mk.injEq] at h
      obtain ⟨hid, herr, hstore⟩ := h
      rcases executeTask_tasks _ _ _ _ _ _ _ hx with ⟨hnone, _⟩ | ⟨e1, he1, htasks⟩
      · rw [hnone] at herr; cases herr
      · rw [he1] at herr
        cases herr
        rw [hstore] at htasks
        subst hid
        refine ⟨j, hj, rfl, hpend, ?_, ?_⟩
        · unfold TaskKeysUnique
          rw [htasks, handleFailure_ids]
          exact hs0u
        · intro hsmall
          have hany := no_overflow_row s0 hs0u (claimColumns c.claimAt j)
            (getTask_mem s0 j.ID _ hs0get).1 hsmall
          have hcid : (claimColumns c.claimAt j).ID = j.ID := rfl
          rw [hcid, ← hjrid] at hany
          have hget := getTask_handleFailure s0 jr.ID jr.RetryCount e c.failAt hany j.ID
          unfold getTask at hget ⊢
          rw [htasks, hget, if_pos hjrid.symm]
          unfold getTask at hs0get
          rw [hs0get, hjrrc]
          rfl

/-- Retry count and status after consecutive failures of the task `i`, from a
retry count `k` below the ceiling. -/
theorem failCycles_retry (cs : List Cycle) :
    ∀ (s s1 : Store) (i : Nat) (j : Task) (k : Nat), TaskKeysUnique s → getTask s i = some j →
      j.RetryCount = k → k < 3 → cs ≠ [] → failCycles i cs s = some s1 →
      ∃ j1, getTask s1 i = some j1 ∧ j1.RetryCount = ((k + cs.length : Nat) : Int) ∧
        k + cs.length ≤ 3 ∧
        j1.Status = if k + cs.length ≥ 3 then TaskStatusFailed else TaskStatusPending := by
  induction cs with
  | nil => intro s s1 i j k _ _ _ _ hne; exact absurd rfl hne
  | cons c cs ih =>
    intro s s1 i j k hu hget hrc hk _ hrun
    rw [failCycles] at hrun
    split at hrun
    · next tid e s2 hcyc =>
      by_cases htid : tid = i
      · subst htid
        rw [if_pos rfl] at hrun
        obtain ⟨j0, hj0, hj0id, _, hu2, hrow⟩ := runCycle_fail c s tid e s2 hu hcyc
        have hjmem := getTask_mem s tid j hget
        have hjj : j0 = j := unique_row s.tasks hu j0 j hj0 hjmem.1 (hj0id.trans hjmem.2.symm)
        subst hjj
        have hsmall : j0.RetryCount < maxInt64 := by rw [hrc]; unfold maxInt64; omega
        have hrow2 := hrow hsmall
        have hst : nextStatusOf j0.RetryCount =
            if k + 1 ≥ 3 then TaskStatusFailed else TaskStatusPending := by
          rw [nextStatusOf_of_range j0.RetryCount (by rw [hrc]; omega) hsmall, hrc]
          unfold TaskMaxRetries
          by_cases h3 : k + 1 ≥ 3
          · rw [if_pos h3, if_pos (by omega)]
          · rw [if_neg h3, if_neg (by omega)]
        cases cs with
        | nil =>
          simp only [failCycles, Option.some.injEq] at hrun
          subst hrun
          refine ⟨_, hrow2, ?_, ?_, ?_⟩
          · show j0.RetryCount + 1 = _
            rw [hrc]; simp
          · simp only [List.length_singleton]; omega
          · show nextStatusOf j0.RetryCount = _
            rw [hst]; rfl
        | cons c2 cs2 =>
          -- the next cycle claims the same row, so it was requeued
          have hrun2 := hrun
          rw [failCycles] at hrun2
          split at hrun2
          · next tid2 e2 s3 hcyc2 =>
            by_cases htid2 : tid2 = tid
            · subst htid2
              obtain ⟨j2, hj2, hj2id, hj2pend, _, _⟩ := runCycle_fail c2 s2 tid2 e2 s3 hu2 hcyc2
              have hmem2 := getTask_mem s2 tid2 _ hrow2
              have hj2eq := unique_row s2.tasks hu2 j2 _ hj2 hmem2.1 (hj2id.trans hmem2.2.symm)
              have hk1 : k + 1 < 3 := by
                by_contra hge
                have hfailed : j2.Status = TaskStatusFailed := by
                  rw [hj2eq]
                  show nextStatusOf j0.RetryCount = _
                  rw [hst, if_pos (by omega)]
                rw [hj2pend] at hfailed
                exact status_ne.2.2.1 hfailed
              obtain ⟨j1, hg1, hrc1, hle1, hst1⟩ := ih s2 s1 tid2 _ (k + 1) hu2 hrow2
                (by show j0.RetryCount + 1 = _; rw [hrc]; simp) hk1 (by simp) hrun
              refine ⟨j1, hg1, ?_, ?_, ?_⟩
              · rw [hrc1]; simp only [List.length_cons]; congr 1; omega
              · simp only [List.length_cons] at hle1 ⊢; omega
              · rw [hst1]; simp only [List.length_cons]
                by_cases h3 : k + 1 + (cs2.length + 1) ≥ 3
                · rw [if_pos h3, if_pos (by omega)]
                · rw [if_neg h3, if_neg (by omega)]
            · rw [if_neg htid2] at hrun2; cases hrun2
          · cases hrun2
      · rw [if_neg htid] at hrun; cases hrun
    · cases hrun

/-- C2: let `j` be a task with retry count 0 in a store with unique keys, and
let `N ≥ 1` consecutive claim-execute-settle cycles all claim `j` (so `j` was
pending at each claim) and all fail, in any environments. Then the retry count
of `j` is `N`, `N` is at most 3, the status of `j` is failed if and only if its
retry count is at least `TaskMaxRetries`, and it is pending otherwise. -/
theorem retry_count_after_failures (cs : List Cycle) (s s1 : Store) (j : Task)
    (hu : TaskKeysUnique s) (hj : j ∈ s.tasks) (hrc : j.RetryCount = 0)
    (hN : 1 ≤ cs.length) (hrun : failCycles j.ID cs s = some s1) :
    ∃ j1, getTask s1 j.ID = some j1 ∧ j1.RetryCount = cs.length ∧ cs.length ≤ 3 ∧
      (j1.Status = TaskStatusFailed ↔ j1.RetryCount ≥ TaskMaxRetries) ∧
      (j1.Status ≠ TaskStatusFailed → j1.Status = TaskStatusPending) := by
  have hne : cs ≠ [] := by
    intro h; rw [h] at hN; simp at hN
  obtain ⟨j1, hget, hrc1, hle, hst⟩ := failCycles_retry cs s s1 j.ID j 0 hu
    (getTask_of_mem s hu j hj) (by rw [hrc]; rfl) (by omega) hne hrun
  simp only [Nat.zero_add] at hrc1 hle hst
  refine ⟨j1, hget, hrc1, hle, ?_, ?_⟩
  · rw [hrc1, hst]
    unfold TaskMaxRetries
    by_cases h3 : cs.length ≥ 3
    · rw [if_pos h3]
      exact ⟨fun _ => by omega, fun _ => rfl⟩
    · rw [if_neg h3]
      exact ⟨fun h => absurd h status_ne.2.2.1, fun h => by omega⟩
  · rw [hst]
    by_cases h3 : cs.length ≥ 3
    · rw [if_pos h3]; intro h; exact absurd rfl h
    · rw [if_neg h3]; intro _; rfl

theorem retry_count_after_failures_witness :
    ∃ s1, failCycles samplePending.ID [offlineCycle, offlineCycle, offlineCycle]
        sampleStoreWithAccount = some s1 ∧
      ∃ j1, getTask s1 samplePending.ID = some j1 ∧ j1.RetryCount = 3 ∧
        (j1.Status = TaskStatusFailed ↔ j1.RetryCount ≥ TaskMaxRetries) := by
  have hsome : (failCycles samplePending.ID [offlineCycle, offlineCycle, offlineCycle]
      sampleStoreWithAccount).isSome = true := by decide
  obtain ⟨s1, h⟩ := Option.isSome_iff_exists.1 hsome
  obtain ⟨j1, hget, hrc, _, hiff, _⟩ := retry_count_after_failures
    [offlineCycle, offlineCycle, offlineCycle] sampleStoreWithAccount s1 samplePending
    (by decide) (by decide) (by decide) (by decide) h
  exact ⟨s1, h, j1, hget, hrc, hiff⟩

/-! ## The transition system -/

theorem getTask_congr (s s2 : Store) (h : s.tasks = s2.tasks) (k : Nat) :
    getTask s k = getTask s2 k := by
  unfold getTask; rw [h]

theorem unique_congr (s s2 : Store)
    (h : s2.tasks.map (fun t => t.ID) = s.tasks.map (fun t => t.ID)) (hu : TaskKeysUnique s) :
    TaskKeysUnique s2 := by
  unfold TaskKeysUnique; rw [h]; exact hu

/-- A claim step: the store and the in-flight list afterwards. -/
theorem step_claim (now : Time) (st st1 : SchedState) (h : step (.claim now) st = some st1) :
    ∃ j, j ∈ st.store.tasks ∧ j.Status = TaskStatusPending ∧
      st1.store = { st.store with
        tasks := updateTasks j.ID (claimColumns now) st.store.tasks } ∧
      st1.inflight = st.inflight ++
        [{ j with Status := TaskStatusRunning, StartedAt := some now }] := by
  rcases claimNextTask_cases now st.store with hc | ⟨j, hj, hpend, _, hc⟩
  · simp [step, hc.2] at h
  · simp only [step, hc, Option.some.injEq] at h
    subst h
    exact ⟨j, hj, hpend, rfl, rfl⟩

/-- A run step: the task was in flight, and the task table afterwards is the
one `markSuccess` or `handleFailure` gives. -/
theorem step_run (env : Env) (fuel : Nat) (finish now : Time) (id : Nat) (st st1 : SchedState)
    (h : step (.run env fuel finish now id) st = some st1) :
    ∃ t, t ∈ st.inflight ∧ t.ID = id ∧
      st1.inflight = st.inflight.filter (fun t => t.ID ≠ id) ∧
      (st1.store.tasks = (markSuccess id finish st.store).tasks ∨
        ∃ e, st1.store.tasks = (handleFailure id t.RetryCount e now st.store).2.tasks) := by
  simp only [step] at h
  cases hf : st.inflight.find? (fun t => t.ID = id) with
  | none => simp [hf] at h
  | some t =>
    have htid : t.ID = id := by simpa using List.find?_some hf
    have htmem := List.mem_of_find?_eq_some hf
    rw [hf] at h
    simp only at h
    cases hx : executeTask env fuel finish now t st.store with
    | none => simp [hx] at h
    | some out =>
      rw [hx] at h
      simp only [Option.some.injEq] at h
      subst h
      refine ⟨t, htmem, htid, rfl, ?_⟩
      rcases executeTask_tasks _ _ _ _ _ _ _ hx with ⟨_, h1⟩ | ⟨e, _, h1⟩
      · left; rw [← htid]; exact h1
      · right; exact ⟨e, by rw [← htid]; exact h1⟩

/-- The next status of a failure is failed or pending. -/
theorem nextStatusOf_cases (r : Int) :
    nextStatusOf r = TaskStatusFailed ∨ nextStatusOf r = TaskStatusPending := by
  unfold nextStatusOf
  split
  · exact Or.inl rfl
  · exact Or.inr rfl

/-- The row of a task after `handleFailure`, when the row was running. -/
theorem handleFailure_row (s : Store) (id : Nat) (r : Int) (e : String) (now : Time)
    (row : Task) (hrow : getTask s id = some row) (hrun : row.Status = TaskStatusRunning) :
    ∃ row1, getTask (handleFailure id r e now s).2 id = some row1 ∧
      (row1 = row ∨ (AllowedMove row.Status row1.Status ∧ row.RetryCount ≤ row1.RetryCount)) := by
  cases hany : s.tasks.any (fun t => t.ID = id ∧ t.RetryCount + 1 > maxInt64) with
  | true =>
    rw [handleFailure_overflow s id r e now hany]
    exact ⟨row, hrow, Or.inl rfl⟩
  | false =>
    rw [getTask_handleFailure s id r e now hany, if_pos rfl, hrow]
    refine ⟨_, rfl, Or.inr ⟨?_, ?_⟩⟩
    · show AllowedMove row.Status (nextStatusOf r)
      rcases nextStatusOf_cases r with h | h
      · rw [h]; exact Or.inr (Or.inr (Or.inr ⟨hrun, rfl⟩))
      · rw [h]; exact Or.inr (Or.inr (Or.inl ⟨hrun, rfl⟩))
    · show row.RetryCount ≤ row.RetryCount + 1
      omega

theorem getTask_handleFailure_other (s : Store) (id : Nat) (r : Int) (e : String) (now : Time)
    (k : Nat) (hk : k ≠ id) : getTask (handleFailure id r e now s).2 k = getTask s k := by
  cases hany : s.tasks.any (fun t => t.ID = id ∧ t.RetryCount + 1 > maxInt64) with
  | true => rw [handleFailure_overflow s id r e now hany]
  | false => rw [getTask_handleFailure s id r e now hany, if_neg hk]

/-- One step from a state that satisfies the invariant: every task row is still
there, and it is the same row or has made an allowed move without lowering its
retry count. -/
theorem step_rows (e : Event) (st st1 : SchedState) (hinv : SchedInv st)
    (h : step e st = some st1) (id : Nat) (row : Task) (hrow : getTask st.store id = some row) :
    ∃ row1, getTask st1.store id = some row1 ∧
      (row1 = row ∨ (AllowedMove row.Status row1.Status ∧ row.RetryCount ≤ row1.RetryCount)) := by
  cases e with
  | claim now =>
    obtain ⟨j, hj, hpend, hstore, _⟩ := step_claim now st st1 h
    rw [hstore, getTask_claimed]
    by_cases hid : id = j.ID
    · subst hid
      rw [if_pos rfl, hrow]
      have hjrow : row = j := by
        have := getTask_of_mem st.store hinv.1 j hj
        rw [hrow] at this
        exact Option.some.inj this
      subst hjrow
      exact ⟨_, rfl, Or.inr ⟨Or.inl ⟨hpend, rfl⟩, le_refl _⟩⟩
    · rw [if_neg hid]
      exact ⟨row, hrow, Or.inl rfl⟩
  | run env fuel finish now tid =>
    obtain ⟨t, ht, htid, _, htasks⟩ := step_run env fuel finish now tid st st1 h
    obtain ⟨trow, htrow, htrun, _⟩ := hinv.2.2 t ht
    rw [htid] at htrow
    by_cases hid : id = tid
    · subst hid
      have : trow = row := by rw [hrow] at htrow; exact (Option.some.inj htrow).symm
      subst this
      rcases htasks with h1 | ⟨e1, h1⟩
      · rw [getTask_congr _ _ h1, getTask_markSuccess, if_pos rfl, hrow]
        exact ⟨_, rfl, Or.inr ⟨Or.inr (Or.inl ⟨htrun, rfl⟩), le_refl _⟩⟩
      · rw [getTask_congr _ _ h1]
        exact handleFailure_row st.store id t.RetryCount e1 now trow hrow htrun
    · rcases htasks with h1 | ⟨e1, h1⟩
      · rw [getTask_congr _ _ h1, getTask_markSuccess, if_neg hid]
        exact ⟨row, hrow, Or.inl rfl⟩
      · rw [getTask_congr _ _ h1, getTask_handleFailure_other _ _ _ _ _ _ hid]
        exact ⟨row, hrow, Or.inl rfl⟩

/-- The invariant is kept by every step. -/
theorem step_inv (e : Event) (st st1 : SchedState) (hinv : SchedInv st)
    (h : step e st = some st1) : SchedInv st1 := by
  obtain ⟨hu, hnd, hfl⟩ := hinv
  cases e with
  | claim now =>
    obtain ⟨j, hj, hpend, hstore, hin⟩ := step_claim now st st1 h
    have hjget := getTask_of_mem st.store hu j hj
    have hfresh : ∀ t ∈ st.inflight, t.ID ≠ j.ID := by
      intro t ht hid
      obtain ⟨row, hrow, hrun, _⟩ := hfl t ht
      rw [hid, hjget] at hrow
      have : j = row := Option.some.inj hrow
      subst this
      rw [hpend] at hrun
      exact status_ne.1 hrun
    refine ⟨?_, ?_, ?_⟩
    · apply unique_congr st.store st1.store _ hu
      rw [hstore]
      exact updateTasks_ids _ _ (by intro _; rfl) _
    · rw [hin, List.map_append, List.nodup_append]
      refine ⟨hnd, by simp, ?_⟩
      intro a ha hb
      obtain ⟨t, ht, hta⟩ := List.mem_map.1 ha
      simp only [List.map_cons, List.map_nil, List.mem_singleton] at hb
      exact hfresh t ht (hta.trans hb)
    · intro t ht
      rw [hin] at ht
      rcases List.mem_append.1 ht with ht1 | ht1
      · obtain ⟨row, hrow, hrun, hrc⟩ := hfl t ht1
        refine ⟨row, ?_, hrun, hrc⟩
        rw [hstore, getTask_claimed, if_neg (hfresh t ht1)]
        exact hrow
      · simp only [List.mem_singleton] at ht1
        subst ht1
        refine ⟨claimColumns now j, ?_, rfl, rfl⟩
        rw [hstore, getTask_claimed]
        show (if j.ID = j.ID then _ else _) = _
        rw [if_pos rfl, hjget]
        rfl
  | run env fuel finish now tid =>
    obtain ⟨t, _, _, hin, htasks⟩ := step_run env fuel finish now tid st st1 h
    refine ⟨?_, ?_, ?_⟩
    · apply unique_congr st.store st1.store _ hu
      rcases htasks with h1 | ⟨e1, h1⟩
      · rw [h1]; exact markSuccess_ids _ _ _
      · rw [h1]; exact handleFailure_ids _ _ _ _ _
    · rw [hin]
      exact hnd.sublist (List.Sublist.map _ (List.filter_sublist _))
    · intro t1 ht1
      rw [hin] at ht1
      have hmem := List.mem_filter.1 ht1
      have hne : t1.ID ≠ tid := by simpa using hmem.2
      obtain ⟨row, hrow, hrun, hrc⟩ := hfl t1 hmem.1
      refine ⟨row, ?_, hrun, hrc⟩
      rcases htasks with h1 | ⟨e1, h1⟩
      · rw [getTask_congr _ _ h1, getTask_markSuccess, if_neg hne]
        exact hrow
      · rw [getTask_congr _ _ h1, getTask_handleFailure_other _ _ _ _ _ _ hne]
        exact hrow

/-- The invariant is kept by every run. -/
theorem runEvents_inv (es : List Event) (st st1 : SchedState) (hinv : SchedInv st)
    (h : runEvents es st = some st1) : SchedInv st1 := by
  induction es generalizing st with
  | nil =>
    simp only [runEvents, Option.some.injEq] at h
    subst h; exact hinv
  | cons e es ih =>
    rw [runEvents] at h
    cases hs : step e st with
    | none => rw [hs] at h; cases h
    | some st2 =>
      rw [hs] at h
      exact ih st2 (step_inv e st st2 hinv hs) h

/-- The invariant holds when nothing is in flight and task keys are unique. -/
theorem init_inv (s : Store) (hu : TaskKeysUnique s) :
    SchedInv { store := s, inflight := [] } :=
  ⟨hu, by simp, by intro t ht; cases ht⟩

theorem terminal_not_moved (a b : String) (ha : Terminal a) : ¬ AllowedMove a b := by
  intro hmove
  have hne := status_ne
  rcases ha with ha | ha <;> rcases hmove with h | h | h | h <;>
    (have h1 := h.1; rw [ha] at h1)
  · exact hne.2.1 h1.symm
  · exact hne.2.2.2.1 h1.symm
  · exact hne.2.2.2.1 h1.symm
  · exact hne.2.2.2.1 h1.symm
  · exact hne.2.2.1 h1.symm
  · exact hne.2.2.2.2.1 h1.symm
  · exact hne.2.2.2.2.1 h1.symm
  · exact hne.2.2.2.2.1 h1.symm

/-- A terminal row stays as it is along every run. -/
theorem terminal_stable (es : List Event) (st st1 : SchedState) (hinv : SchedInv st)
    (h : runEvents es st = some st1) (id : Nat) (row : Task)
    (hrow : getTask st.store id = some row) (hterm : Terminal row.Status) :
    getTask st1.store id = some row := by
  induction es generalizing st with
  | nil =>
    simp only [runEvents, Option.some.injEq] at h
    subst h; exact hrow
  | cons e es ih =>
    rw [runEvents] at h
    cases hs : step e st with
    | none => rw [hs] at h; cases h
    | some st2 =>
      rw [hs] at h
      obtain ⟨row1, hrow1, hsame | ⟨hmove, _⟩⟩ := step_rows e st st2 hinv hs id row hrow
      · subst hsame
        exact ih st2 (step_inv e st st2 hinv hs) h hrow1
      · exact absurd hmove (terminal_not_moved _ _ hterm)

/-- A claim never returns a task whose row is terminal. -/
theorem claim_not_terminal (s : Store) (hu : TaskKeysUnique s) (now : Time) (t : Task)
    (h : (claimNextTask now s).1 = .ok t) (row : Task) (hrow : getTask s t.ID = some row) :
    ¬ Terminal row.Status := by
  rcases claimNextTask_cases now s with hc | ⟨j, hj, hpend, _, hc⟩
  · rw [hc.2] at h; cases h
  · rw [hc] at h
    simp only [Except.ok.injEq] at h
    subst h
    have hjget := getTask_of_mem s hu j hj
    have : getTask s j.ID = some row := hrow
    rw [hjget] at this
    have hjr : j = row := Option.some.inj this
    subst hjr
    intro hterm
    have hne := status_ne
    rcases hterm with h1 | h1
    · rw [hpend] at h1; exact hne.2.1 h1
    · rw [hpend] at h1; exact hne.2.2.1 h1

/-- C3: in every state the scheduler reaches from a store with unique task
keys and nothing in flight, by claims and by runs of `executeTask` on claimed
tasks in any environment, one more step keeps every task row and either leaves
the row as it is or moves its status along pending→running, running→success,
running→pending or running→failed without lowering the retry count; and a
row whose status is success or failed stays the same row in every later state,
where no claim returns its task. -/
theorem scheduler_transitions (s0 : Store) (hu : TaskKeysUnique s0) (es : List Event)
    (st : SchedState) (hreach : runEvents es { store := s0, inflight := [] } = some st) :
    (∀ e st1, step e st = some st1 → ∀ id row, getTask st.store id = some row →
      ∃ row1, getTask st1.store id = some row1 ∧
        (row1 = row ∨
          (AllowedMove row.Status row1.Status ∧ row.RetryCount ≤ row1.RetryCount)))
    ∧ (∀ id row, getTask st.store id = some row → Terminal row.Status →
      ∀ es2 st2, runEvents es2 st = some st2 →
        getTask st2.store id = some row ∧
        ∀ now t, (claimNextTask now st2.store).1 = .ok t → t.ID ≠ id) := by
  have hinv := runEvents_inv es _ st (init_inv s0 hu) hreach
  refine ⟨fun e st1 hstep id row hrow => step_rows e st st1 hinv hstep id row hrow, ?_⟩
  intro id row hrow hterm es2 st2 hrun2
  have hstable := terminal_stable es2 st st2 hinv hrun2 id row hrow hterm
  refine ⟨hstable, ?_⟩
  intro now t hclaim hid
  have hinv2 := runEvents_inv es2 st st2 hinv hrun2
  rw [← hid] at hstable
  exact claim_not_terminal st2.store hinv2.1 now t hclaim row hstable hterm

theorem scheduler_transitions_witness :
    ∃ st row, runEvents sampleEvents { store := sampleStoreWithAccount, inflight := [] } = some st ∧
      getTask st.store 9 = some row ∧ row.Status = TaskStatusFailed ∧
      ∀ es2 st2, runEvents es2 st = some st2 →
        getTask st2.store 9 = some row ∧
        ∀ now t, (claimNextTask now st2.store).1 = .ok t → t.ID ≠ 9 := by
  have hrun : ((runEvents sampleEvents { store := sampleStoreWithAccount, inflight := [] }).bind
      (fun st => (getTask st.store 9).bind
        (fun row => if row.Status = TaskStatusFailed then some () else none))) = some () := by
    decide
  obtain ⟨st, hst, h2⟩ := Option.bind_eq_some.1 hrun
  obtain ⟨row, hrow, h3⟩ := Option.bind_eq_some.1 h2
  have hfailed : row.Status = TaskStatusFailed := by
    by_contra hne
    rw [if_neg hne] at h3
    cases h3
  exact ⟨st, row, hst, hrow, hfailed,
    (scheduler_transitions sampleStoreWithAccount (by decide) sampleEvents st hst).2
      9 row hrow (Or.inr hfailed)⟩

/-! ## Exclusive claims -/

/-- Successive claims return tasks with distinct ids, each pending before. -/
theorem claimSeq_spec (times : List Time) :
    ∀ s, TaskKeysUnique s →
      ((claimSeq times s).1.map (fun t => t.ID)).Nodup ∧
      ∀ t ∈ (claimSeq times s).1, ∃ row ∈ s.tasks, row.ID = t.ID ∧
        row.Status = TaskStatusPending := by
  induction times with
  | nil => intro s _; exact ⟨by simp [claimSeq], by intro t ht; simp [claimSeq] at ht⟩
  | cons now rest ih =>
    intro s hu
    rcases claimNextTask_cases now s with hc | ⟨j, hj, hpend, _, hc⟩
    · have : claimSeq (now :: rest) s = claimSeq rest s := by
        rw [claimSeq, hc.2]
      rw [this]
      exact ih s hu
    · generalize hs1 : ({ s with tasks := updateTasks j.ID (claimColumns now) s.tasks } : Store)
        = s1 at hc
      have heq : claimSeq (now :: rest) s =
          ({ j with Status := TaskStatusRunning, StartedAt := some now } :: (claimSeq rest s1).1,
            (claimSeq rest s1).2) := by
        rw [claimSeq, hc]
      have hu1 : TaskKeysUnique s1 := by
        apply unique_congr s s1 _ hu
        rw [← hs1]
        exact updateTasks_ids _ _ (by intro _; rfl) _
      have hget1 : ∀ k, getTask s1 k =
          if k = j.ID then (getTask s k).map (claimColumns now) else getTask s k := by
        intro k; rw [← hs1]; exact getTask_claimed s j.ID now k
      obtain ⟨hnd, hpen⟩ := ih s1 hu1
      have hother : ∀ t ∈ (claimSeq rest s1).1, t.ID ≠ j.ID := by
        intro t ht hid
        obtain ⟨row, hrow, hrid, hrpend⟩ := hpen t ht
        have h1 := getTask_of_mem s1 hu1 row hrow
        rw [hrid, hid, hget1, if_pos rfl, getTask_of_mem s hu j hj] at h1
        have : claimColumns now j = row := Option.some.inj h1
        rw [← this] at hrpend
        exact status_ne.1 hrpend.symm
      rw [heq]
      refine ⟨?_, ?_⟩
      · simp only [List.map_cons, List.nodup_cons]
        refine ⟨?_, hnd⟩
        intro hmem
        obtain ⟨t, ht, hid⟩ := List.mem_map.1 hmem
        exact hother t ht hid
      · intro t ht
        rcases List.mem_cons.1 ht with rfl | ht1
        · exact ⟨j, hj, rfl, hpend⟩
        · obtain ⟨row, hrow, hrid, hrpend⟩ := hpen t ht1
          have h1 := getTask_of_mem s1 hu1 row hrow
          rw [hget1, if_neg (by rw [hrid]; exact hother t ht1)] at h1
          exact ⟨row, (getTask_mem s row.ID row h1).1, hrid, hrpend⟩

/-- C5, the sequential reading: in a store with unique task keys, the tasks
returned by any sequence of `claimNextTask` calls with no settle in between have
pairwise distinct ids; and when claims alternate in any order with runs of
`executeTask` on claimed tasks, the tasks in flight at any moment have pairwise
distinct ids. -/
theorem claims_exclusive (s : Store) (hu : TaskKeysUnique s) :
    (∀ times, ((claimSeq times s).1.map (fun t => t.ID)).Nodup) ∧
    (∀ es st, runEvents es { store := s, inflight := [] } = some st →
      (st.inflight.map (fun t => t.ID)).Nodup) :=
  ⟨fun times => (claimSeq_spec times s hu).1,
   fun es st h => (runEvents_inv es _ st (init_inv s hu) h).2.1⟩

theorem claims_exclusive_witness :
    TaskKeysUnique sampleQueue ∧
    ((claimSeq [10, 20, 30, 40] sampleQueue).1.map (fun t => t.ID)).Nodup ∧
    (claimSeq [10, 20, 30, 40] sampleQueue).1.map (fun t => t.ID) = [3, 4, 5] :=
  ⟨by decide, (claims_exclusive sampleQueue (by decide)).1 [10, 20, 30, 40], by decide⟩

/-! ## One tick -/

theorem updateTasks_of_no_key (id : Nat) (f : Task → Task) (ts : List Task)
    (h : ∀ t ∈ ts, t.ID ≠ id) : updateTasks id f ts = ts := by
  induction ts with
  | nil => rfl
  | cons t ts ih =>
    simp only [updateTasks, List.map_cons] at ih ⊢
    rw [if_neg (h t (List.mem_cons_self _ _)), ih (fun x hx => h x (List.mem_cons_of_mem _ hx))]

/-- A claim takes one row out of the pending rows. -/
theorem pending_after_claim (now : Time) (ts : List Task)
    (hu : (ts.map (fun t => t.ID)).Nodup) (j : Task) (hj : j ∈ ts)
    (hpend : j.Status = TaskStatusPending) :
    ((updateTasks j.ID (claimColumns now) ts).filter
        (fun t => t.Status = TaskStatusPending)).length + 1 =
      (ts.filter (fun t => t.Status = TaskStatusPending)).length := by
  induction ts with
  | nil => cases hj
  | cons t ts ih =>
    have hu0 := hu
    simp only [List.map_cons, List.nodup_cons, List.mem_map, not_exists, not_and] at hu
    by_cases hid : t.ID = j.ID
    · have htj : t = j :=
        unique_row (t :: ts) hu0 t j (List.mem_cons_self _ _) hj hid
      subst htj
      have hrest : updateTasks t.ID (claimColumns now) ts = ts :=
        updateTasks_of_no_key _ _ _ (fun x hx => hu.1 x hx)
      have hhead : updateTasks t.ID (claimColumns now) (t :: ts) =
          claimColumns now t :: updateTasks t.ID (claimColumns now) ts := by
        simp [updateTasks]
      rw [hhead, hrest]
      have h1 : ¬ (claimColumns now t).Status = TaskStatusPending := fun h =>
        status_ne.1 h.symm
      simp [List.filter_cons, h1, hpend]
    · have hjts : j ∈ ts := by
        rcases List.mem_cons.1 hj with h | h
        · exact absurd (h ▸ rfl) hid
        · exact h
      have hhead : updateTasks j.ID (claimColumns now) (t :: ts) =
          t :: updateTasks j.ID (claimColumns now) ts := by
        simp [updateTasks, hid]
      rw [hhead]
      have ih1 := ih hu.2 hjts
      by_cases htp : t.Status = TaskStatusPending
      · simp only [List.filter_cons, htp, decide_True, if_true, List.length_cons]
        omega
      · simp only [List.filter_cons, htp, decide_False, Bool.false_eq_true, if_false]
        exact ih1

/-- The loop of `pollOnce` claims as many tasks as are pending, up to the
number of iterations it is allowed. -/
theorem pollLoop_count (m : Manager) (clock : Nat → Time) (n : Nat) :
    ∀ (i : Nat) (s : Store), TaskKeysUnique s →
      (n = 0 ∨ (i : Int) + n ≤ m.cfg.CrawlerConcurrent) →
      (pollLoop m clock n i s).1.length = min (pendingCount s) n := by
  induction n with
  | zero => intro i s _ _; simp [pollLoop]
  | succ n ih =>
    intro i s hu hb
    have hlt : (i : Int) < m.cfg.CrawlerConcurrent := by
      rcases hb with h | h
      · cases h
      · push_cast at h; omega
    rw [pollLoop, if_pos hlt]
    rcases claimNextTask_cases (clock i) s with hc | ⟨j, hj, hpend, _, hc⟩
    · rw [hc.2]
      have h0 : pendingCount s = 0 := by
        unfold pendingCount
        rw [List.length_eq_zero, List.filter_eq_nil_iff]
        intro t ht
        simpa using hc.1 t ht
      simp [h0]
    · rw [hc]
      simp only [List.length_cons]
      have hu1 : TaskKeysUnique
          { s with tasks := updateTasks j.ID (claimColumns (clock i)) s.tasks } := by
        apply unique_congr s _ _ hu
        exact updateTasks_ids _ _ (by intro _; rfl) _
      rw [ih (i + 1) _ hu1 (by
        rcases hb with h | h
        · cases h
        · right; push_cast at h ⊢; omega)]
      have hcount := pending_after_claim (clock i) s.tasks hu j hj hpend
      unfold pendingCount
      simp only
      omega

/-- One tick claims `min n c` tasks when `n` tasks are pending and the
configured concurrency is `c ≥ 0`, and none when `c` is negative. -/
theorem pollOnce_count (m : Manager) (clock : Nat → Time) (s : Store) (hu : TaskKeysUnique s) :
    (pollOnce m clock s).1.length = min (pendingCount s) m.cfg.CrawlerConcurrent.toNat := by
  unfold pollOnce
  apply pollLoop_count m clock _ 0 s hu
  by_cases h : m.cfg.CrawlerConcurrent.toNat = 0
  · exact Or.inl h
  · right
    have := Int.toNat_of_nonneg (show 0 ≤ m.cfg.CrawlerConcurrent by
      by_contra hneg
      exact h (Int.toNat_eq_zero.2 (by omega)))
    omega

/-- C6, the code at `CRAWLER_CONCURRENCY=0` with one pending task: the manager
is built with capacity 1 for the running channel, yet a tick claims nothing
and leaves the store as it was. -/
theorem pollOnce_ignores_minimum (clock : Nat → Time) :
    (newManagerWithTicker zeroConfig).runningCap = 1 ∧
    pendingCount sampleStoreWithAccount = 1 ∧
    pollOnce (newManagerWithTicker zeroConfig) clock sampleStoreWithAccount =
      ([], sampleStoreWithAccount) :=
  ⟨by decide, by decide, rfl⟩

/-! ## Saving articles -/

theorem find_article_none (s : Store) (aid : String) :
    s.articles.find? (fun a => a.WechatArticleID = aid) = none ↔ aid ∉ articleKeys s := by
  unfold articleKeys
  rw [List.find?_eq_none]
  simp only [decide_eq_true_eq, List.mem_map, not_exists, not_and]

/-- An item whose external id is stored is skipped. -/
theorem saveArticle_present (env : Env) (accountID : Nat) (item : ArticleItem) (s : Store)
    (h : item.Aid ∈ articleKeys s) : saveArticle env accountID item s = (none, s) := by
  unfold saveArticle
  cases hf : s.articles.find? (fun a => a.WechatArticleID = item.Aid) with
  | none => exact absurd h ((find_article_none s item.Aid).1 hf)
  | some a => rfl

/-- An item whose external id is not stored adds one row built from the item. -/
theorem saveArticle_absent (env : Env) (accountID : Nat) (item : ArticleItem) (s : Store)
    (h : item.Aid ∉ articleKeys s) :
    ∃ a : Article, a.AccountID = accountID ∧ a.WechatArticleID = item.Aid ∧
      a.Title = item.Title ∧ a.Summary = item.Digest ∧ a.RawURL = item.Link ∧
      a.PublishedAt = item.CreateTime ∧
      saveArticle env accountID item s = (none, { s with articles := s.articles ++ [a] }) := by
  unfold saveArticle
  rw [(find_article_none s item.Aid).2 h]
  exact ⟨_, rfl, rfl, rfl, rfl, rfl, rfl, rfl⟩

/-- C9, as the code has it: for every account, item and store, `saveArticle`
leaves the store as it was if and only if some article row, of any account,
has the external id of the item; otherwise it appends exactly one row, owned
by the account and carrying the external id of the item. -/
theorem saveArticle_skips_iff_key_stored (env : Env) (accountID : Nat) (item : ArticleItem)
    (s : Store) :
    ((saveArticle env accountID item s).2 = s ↔
      ∃ a ∈ s.articles, a.WechatArticleID = item.Aid) ∧
    ((¬ ∃ a ∈ s.articles, a.WechatArticleID = item.Aid) →
      ∃ a : Article, a.AccountID = accountID ∧ a.WechatArticleID = item.Aid ∧
        (saveArticle env accountID item s).2 = { s with articles := s.articles ++ [a] }) := by
  have hkeys : item.Aid ∈ articleKeys s ↔ ∃ a ∈ s.articles, a.WechatArticleID = item.Aid := by
    unfold articleKeys
    simp only [List.mem_map]
  constructor
  · constructor
    · intro hsame
      by_contra hno
      obtain ⟨a, _, _, _, _, _, _, heq⟩ :=
        saveArticle_absent env accountID item s (fun h => hno (hkeys.1 h))
      rw [heq] at hsame
      have hlen := congrArg (fun x => x.articles.length) hsame
      simp at hlen
    · intro hex
      rw [saveArticle_present env accountID item s (hkeys.2 hex)]
  · intro hno
    obtain ⟨a, hacc, haid, _, _, _, _, heq⟩ :=
      saveArticle_absent env accountID item s (fun h => hno (hkeys.1 h))
    exact ⟨a, hacc, haid, by rw [heq]⟩

/-- C9, the claim as stated fails: the store holds an article with the external
id of the item for account 2 and none for account 1, and `saveArticle` for
account 1 skips the item. -/
theorem saveArticle_skips_foreign_key :
    (saveArticle offlineEnv 1 sampleItem sampleArticleStore).2 = sampleArticleStore ∧
    ¬ ∃ a ∈ sampleArticleStore.articles,
        a.AccountID = 1 ∧ a.WechatArticleID = sampleItem.Aid := by
  constructor
  · decide
  · decide

/-! ## Processing a page twice -/

theorem saveArticle_keys (env : Env) (accountID : Nat) (item : ArticleItem) (s : Store) :
    articleKeys (saveArticle env accountID item s).2 =
      if item.Aid ∈ articleKeys s then articleKeys s else articleKeys s ++ [item.Aid] := by
  by_cases h : item.Aid ∈ articleKeys s
  · rw [if_pos h, saveArticle_present env accountID item s h]
  · rw [if_neg h]
    obtain ⟨a, _, haid, _, _, _, _, heq⟩ := saveArticle_absent env accountID item s h
    rw [heq]
    simp [articleKeys, haid]

theorem saveArticle_keeps_rows (env : Env) (accountID : Nat) (item : ArticleItem) (s : Store) :
    s.articles <+: (saveArticle env accountID item s).2.articles := by
  by_cases h : item.Aid ∈ articleKeys s
  · rw [saveArticle_present env accountID item s h]
  · obtain ⟨a, _, _, _, _, _, _, heq⟩ := saveArticle_absent env accountID item s h
    rw [heq]
    exact List.prefix_append _ _

theorem saveItems_cons (env : Env) (accountID : Nat) (item : ArticleItem)
    (rest : List ArticleItem) (s : Store) :
    saveItems env accountID (item :: rest) s =
      saveItems env accountID rest (saveArticle env accountID item s).2 := by
  have h1 := saveArticle_err env accountID item s
  rw [saveItems]
  split
  · next e s1 heq => rw [heq] at h1; cases h1
  · next s1 heq => rw [heq]

/-- After a page is processed: stored keys are still distinct, old rows are
still the first rows, and every key of the page is stored. -/
theorem saveItems_keys (env : Env) (accountID : Nat) (items : List ArticleItem) :
    ∀ s, (articleKeys s).Nodup →
      (articleKeys (saveItems env accountID items s).2).Nodup ∧
      s.articles <+: (saveItems env accountID items s).2.articles ∧
      (∀ it ∈ items, it.Aid ∈ articleKeys (saveItems env accountID items s).2) := by
  induction items with
  | nil =>
    intro s hnd
    exact ⟨hnd, List.prefix_refl _, by intro it hit; cases hit⟩
  | cons item rest ih =>
    intro s hnd
    rw [saveItems_cons]
    have hk := saveArticle_keys env accountID item s
    have hp := saveArticle_keeps_rows env accountID item s
    have hnd1 : (articleKeys (saveArticle env accountID item s).2).Nodup := by
      rw [hk]
      by_cases h : item.Aid ∈ articleKeys s
      · rw [if_pos h]; exact hnd
      · rw [if_neg h]
        rw [List.nodup_append]
        exact ⟨hnd, by simp, by
          intro a ha hb
          simp only [List.mem_singleton] at hb
          exact h (hb ▸ ha)⟩
    have hin1 : item.Aid ∈ articleKeys (saveArticle env accountID item s).2 := by
      rw [hk]
      by_cases h : item.Aid ∈ articleKeys s
      · rw [if_pos h]; exact h
      · rw [if_neg h]; simp
    obtain ⟨h1, h2, h3⟩ := ih _ hnd1
    refine ⟨h1, hp.trans h2, ?_⟩
    intro it hit
    rcases List.mem_cons.1 hit with rfl | hit1
    · have hsub : (articleKeys (saveArticle env accountID it s).2) <+:
          articleKeys (saveItems env accountID rest (saveArticle env accountID it s).2).2 := by
        unfold articleKeys
        exact List.IsPrefix.map _ h2
      exact hsub.subset hin1
    · exact h3 it hit1

/-- A page whose keys are all stored changes nothing. -/
theorem saveItems_present (env : Env) (accountID : Nat) (items : List ArticleItem) (s : Store)
    (h : ∀ it ∈ items, it.Aid ∈ articleKeys s) :
    saveItems env accountID items s = (none, s) := by
  induction items with
  | nil => rfl
  | cons item rest ih =>
    rw [saveItems_cons, saveArticle_present env accountID item s (h item (List.mem_cons_self _ _))]
    exact ih (fun it hit => h it (List.mem_cons_of_mem _ hit))

/-- C10: for every account, every listing page (repeated external ids allowed)
and every store whose articles have pairwise distinct external ids, processing
the page keeps the rows that were there as they were and leaves the external
ids pairwise distinct, and processing the page again right after, in any
environment, returns no error and leaves the store exactly as the first run
left it: no row is created and none is changed. -/
theorem page_twice_idempotent (env env2 : Env) (accountID : Nat) (items : List ArticleItem)
    (s : Store) (hnd : (articleKeys s).Nodup) :
    saveItems env2 accountID items (saveItems env accountID items s).2 =
      (none, (saveItems env accountID items s).2) ∧
    (articleKeys (saveItems env accountID items s).2).Nodup ∧
    (articleKeys (saveItems env2 accountID items (saveItems env accountID items s).2).2).Nodup ∧
    s.articles <+: (saveItems env accountID items s).2.articles := by
  obtain ⟨h1, h2, h3⟩ := saveItems_keys env accountID items s hnd
  have hsecond := saveItems_present env2 accountID items _ h3
  refine ⟨hsecond, h1, ?_, h2⟩
  rw [hsecond]
  exact h1

theorem page_twice_idempotent_witness :
    (articleKeys sampleArticleStore).Nodup ∧
    (saveItems offlineEnv 1 samplePage sampleArticleStore).2.articles.length = 2 ∧
    saveItems offlineEnv 1 samplePage (saveItems offlineEnv 1 samplePage sampleArticleStore).2 =
      (none, (saveItems offlineEnv 1 samplePage sampleArticleStore).2) ∧
    (articleKeys (saveItems offlineEnv 1 samplePage sampleArticleStore).2).Nodup :=
  have h := page_twice_idempotent offlineEnv offlineEnv 1 samplePage sampleArticleStore
    (by decide)
  ⟨by decide, by decide, h.1, h.2.1⟩

/-! ## New rows of a page -/

theorem keys_after_append (s : Store) (a : Article) :
    articleKeys { s with articles := s.articles ++ [a] } = articleKeys s ++ [a.WechatArticleID] := by
  simp [articleKeys]

/-- The rows a page adds: one for each item whose external id is not stored, in
the order of the page, when the external ids of the page are distinct. -/
theorem saveItems_rows (env : Env) (accountID : Nat) (items : List ArticleItem) :
    ∀ s, (items.map (fun it => it.Aid)).Nodup →
      ∃ rows : List Article,
        (saveItems env accountID items s).2.articles = s.articles ++ rows ∧
        rows.map (fun r => r.WechatArticleID) =
          (items.filter (fun it => decide (it.Aid ∉ articleKeys s))).map (fun it => it.Aid) ∧
        ∀ r ∈ rows, r.AccountID = accountID := by
  induction items with
  | nil => intro s _; exact ⟨[], by simp [saveItems], by simp, by intro r hr; cases hr⟩
  | cons item rest ih =>
    intro s hd
    simp only [List.map_cons, List.nodup_cons, List.mem_map, not_exists, not_and] at hd
    rw [saveItems_cons]
    by_cases hin : item.Aid ∈ articleKeys s
    · rw [saveArticle_present env accountID item s hin]
      obtain ⟨rows, h1, h2, h3⟩ := ih s hd.2
      refine ⟨rows, h1, ?_, h3⟩
      rw [h2, List.filter_cons]
      simp [hin]
    · obtain ⟨a, hacc, haid, _, _, _, _, heq⟩ := saveArticle_absent env accountID item s hin
      rw [heq]
      obtain ⟨rows, h1, h2, h3⟩ := ih { s with articles := s.articles ++ [a] } hd.2
      refine ⟨a :: rows, ?_, ?_, ?_⟩
      · rw [h1]; simp
      · rw [List.map_cons, h2, haid, List.filter_cons]
        simp only [hin, not_false_eq_true, decide_True, if_true, List.map_cons, List.cons.injEq,
          true_and]
        congr 1
        apply List.filter_congr
        intro it hit
        rw [keys_after_append, haid]
        have hne : it.Aid ≠ item.Aid := fun h => hd.1 it hit h
        simp [hne]
      · intro r hr
        rcases List.mem_cons.1 hr with rfl | hr1
        · exact hacc
        · exact h3 r hr1

theorem length_filter_not (items : List ArticleItem) (p : ArticleItem → Bool) :
    (items.filter (fun it => !p it)).length = items.length - (items.filter p).length := by
  induction items with
  | nil => rfl
  | cons it rest ih =>
    have hle := List.length_filter_le p rest
    by_cases h : p it = true
    · simp only [List.filter_cons, h, Bool.not_true, Bool.false_eq_true, if_false, if_true,
        List.length_cons, ih]
      omega
    · simp only [Bool.not_eq_true] at h
      simp only [List.filter_cons, h, Bool.not_false, if_true, Bool.false_eq_true, if_false,
        List.length_cons, ih]
      omega

/-- A run of `Execute` whose first listing returns a page that reaches the
reported total: one request, and the store is the one the page leaves. -/
theorem Execute_single_page (env : Env) (fuel : Nat) (task : Task) (s : Store) (a : Account)
    (sess : WechatSession) (resp : appmsgResponse)
    (hload : loadAccount s task.AccountID = some (a, some sess)) (hbiz : a.BizID ≠ "")
    (hact : sess.Status = SessionStatusActive)
    (hpage : FetchArticles env { Cookie := sess.Cookie, Token := sess.Token } a.BizID 0 5 =
      .ok resp)
    (htotal : resp.TotalCount ≤ resp.AppMsgList.length) :
    Execute env (fuel + 1) task s =
      some { err := none, store := (saveItems env a.ID resp.AppMsgList s).2, offsets := [0] } := by
  unfold Execute
  rw [hload]
  simp only [hbiz, if_false, hact, ne_eq, not_true_eq_false]
  rw [pageLoop, hpage]
  simp only
  by_cases hempty : resp.AppMsgList.length = 0
  · rw [if_pos hempty]
    have : resp.AppMsgList = [] := List.length_eq_zero.1 hempty
    rw [this]
    rfl
  · rw [if_neg hempty]
    have herr := saveItems_err env a.ID resp.AppMsgList s
    generalize hout : saveItems env a.ID resp.AppMsgList s = out at herr
    obtain ⟨e, s1⟩ := out
    simp only at herr
    subst herr
    simp only
    rw [if_pos (by simpa using htotal)]

/-- C11: let a listing page hold `n` items with pairwise distinct external ids,
`k` of which are stored as articles. Processing the page appends exactly
`n - k` rows to the article table and touches no row that was there: one row
per item not yet stored, in page order, owned by the account of the job. When
the page is the first answer of the provider and reaches the reported total,
one `Execute` call does just that with one listing request and no error. -/
theorem page_creates_missing (env : Env) (accountID : Nat) (items : List ArticleItem)
    (s : Store) (hd : (items.map (fun it => it.Aid)).Nodup) :
    (∃ rows : List Article,
      (saveItems env accountID items s).2.articles = s.articles ++ rows ∧
      rows.length =
        items.length - (items.filter (fun it => decide (it.Aid ∈ articleKeys s))).length ∧
      rows.map (fun r => r.WechatArticleID) =
        (items.filter (fun it => decide (it.Aid ∉ articleKeys s))).map (fun it => it.Aid) ∧
      ∀ r ∈ rows, r.AccountID = accountID) ∧
    (∀ (fuel : Nat) (task : Task) (a : Account) (sess : WechatSession) (resp : appmsgResponse),
      loadAccount s task.AccountID = some (a, some sess) → a.ID = accountID → a.BizID ≠ "" →
      sess.Status = SessionStatusActive →
      FetchArticles env { Cookie := sess.Cookie, Token := sess.Token } a.BizID 0 5 = .ok resp →
      resp.AppMsgList = items → resp.TotalCount ≤ items.length →
      Execute env (fuel + 1) task s =
        some { err := none, store := (saveItems env accountID items s).2, offsets := [0] }) := by
  constructor
  · obtain ⟨rows, h1, h2, h3⟩ := saveItems_rows env accountID items s hd
    refine ⟨rows, h1, ?_, h2, h3⟩
    have hlen := congrArg List.length h2
    rw [List.length_map, List.length_map] at hlen
    rw [hlen, ← length_filter_not]
    congr 1
    apply List.filter_congr
    intro it _
    simp
  · intro fuel task a sess resp hload hid hbiz hact hpage hitems htotal
    have := Execute_single_page env fuel task s a sess resp hload hbiz hact hpage
      (by rw [hitems]; exact htotal)
    rw [hitems, hid] at this
    exact this

theorem page_creates_missing_witness :
    (pageOfFive.map (fun it => it.Aid)).Nodup ∧
    (pageOfFive.filter (fun it => decide (it.Aid ∈ articleKeys storeWithTwo))).length = 2 ∧
    (∃ rows : List Article,
      (saveItems onePageEnv 1 pageOfFive storeWithTwo).2.articles =
        storeWithTwo.articles ++ rows ∧ rows.length = 5 - 2) ∧
    Execute onePageEnv 1 samplePending storeWithTwo =
      some { err := none, store := (saveItems onePageEnv 1 pageOfFive storeWithTwo).2,
             offsets := [0] } := by
  have h := page_creates_missing onePageEnv 1 pageOfFive storeWithTwo (by decide)
  obtain ⟨rows, h1, h2, _, _⟩ := h.1
  refine ⟨by decide, by decide, ⟨rows, h1, ?_⟩, ?_⟩
  · rw [h2]; decide
  · exact h.2 0 samplePending sampleBoundAccount sampleSession
      { BaseResp := { Ret := 0, ErrMsg := "ok" }, AppMsgList := pageOfFive, TotalCount := 5 }
      (by decide) rfl (by decide) rfl rfl rfl (by decide)

/-! ## Failures of the body fetch -/

/-- The three ways `fetchContent` fails. -/
theorem fetchContent_failures (env : Env) (link : String) :
    (∀ e, env.contentDo link = .error e → fetchContent env link = .error e) ∧
    (∀ resp, env.contentDo link = .ok resp → resp.StatusCode ≠ 200 →
      fetchContent env link =
        .error ("fetch content " ++ toString resp.StatusCode ++ ": " ++ resp.Body)) ∧
    (∀ resp e, env.contentDo link = .ok resp → resp.StatusCode = 200 →
      env.jsContent resp.Body = .error e → fetchContent env link = .error e) := by
  refine ⟨?_, ?_, ?_⟩
  · intro e h; simp [fetchContent, h]
  · intro resp h hne; simp [fetchContent, h, hne]
  · intro resp e h h200 hjs; simp [fetchContent, h, h200, hjs]

/-- The row `saveArticle` inserts when the body fetch fails. -/
theorem saveArticle_no_body (env : Env) (accountID : Nat) (item : ArticleItem) (s : Store)
    (e : String) (hnew : item.Aid ∉ articleKeys s) (hfail : fetchContent env item.Link = .error e) :
    saveArticle env accountID item s =
      (none, { s with articles := s.articles ++
        [{ ID := nextArticleID s, AccountID := accountID, WechatArticleID := item.Aid,
           Title := item.Title, Summary := item.Digest, ContentHTML := "",
           RawURL := item.Link, PublishedAt := item.CreateTime }] }) := by
  unfold saveArticle
  rw [(find_article_none s item.Aid).2 hnew, hfail]

/-- Why the paging loop fails when it fails: a listing request of the run
failed, or the context was done between two pages. -/
theorem pageLoop_err_cases (env : Env) (cred : Credentials) (account : Account) (fuel : Nat) :
    ∀ (offset : Int) (s : Store) (r : ExecResult),
      pageLoop env cred account fuel offset s = some r →
      r.err = none ∨
      (∃ o e, o ∈ r.offsets ∧ FetchArticles env cred account.BizID o 5 = .error e ∧
        r.err = some ("fetch articles: " ++ e)) ∨
      (∃ o e, env.ctxErr o = some e ∧ r.err = some e) := by
  induction fuel with
  | zero => intro offset s r h; simp [pageLoop] at h
  | succ n ih =>
    intro offset s r h
    rw [pageLoop] at h
    split at h
    · next e hfetch =>
      cases h
      exact Or.inr (Or.inl ⟨offset, e, by simp, hfetch, rfl⟩)
    · next resp hfetch =>
      split at h
      · cases h; exact Or.inl rfl
      · have herr := saveItems_err env account.ID resp.AppMsgList s
        split at h
        · next e s1 heq => rw [heq] at herr; cases herr
        · next s1 heq =>
          simp only at h
          split at h
          · cases h; exact Or.inl rfl
          · split at h
            · next e hctx =>
              cases h
              exact Or.inr (Or.inr ⟨_, e, hctx, rfl⟩)
            · cases hrec : pageLoop env cred account n _ s1 with
              | none => rw [hrec] at h; cases h
              | some r1 =>
                rw [hrec] at h
                simp only [Option.map_some', Option.some.injEq] at h
                subst h
                rcases ih _ s1 r1 hrec with h1 | ⟨o, e, ho, hf, he⟩ | h3
                · exact Or.inl h1
                · exact Or.inr (Or.inl ⟨o, e, List.mem_cons_of_mem _ ho, hf, he⟩)
                · exact Or.inr (Or.inr h3)

/-- C12, the claim as stated fails: the only listing request of the run
succeeds, every body fetch answers HTTP 500 and the articles are created with
an empty body, yet `Execute` returns an error, because the context is done
when the loop looks at it after the first page. -/
theorem job_fails_without_listing_failure :
    (∃ resp, FetchArticles cancelledEnv
        { Cookie := sampleSession.Cookie, Token := sampleSession.Token }
        sampleBoundAccount.BizID 0 5 = .ok resp) ∧
    (∀ it ∈ pageOfFive, ∃ e, fetchContent cancelledEnv it.Link = .error e) ∧
    (Execute cancelledEnv 3 samplePending storeWithTwo).map (fun r => (r.err, r.offsets)) =
      some (some "context deadline exceeded", [0]) ∧
    (Execute cancelledEnv 3 samplePending storeWithTwo).map
        (fun r => r.store.articles.map (fun a => (a.WechatArticleID, a.ContentHTML))) =
      some [("a2", ""), ("a4", ""), ("a1", ""), ("a3", ""), ("a5", "")] := by
  refine ⟨⟨_, rfl⟩, ?_, by decide, by decide⟩
  intro it _
  exact ⟨_, rfl⟩

/-! ## Pagination -/

/-- One turn of the paging loop, with the store the page leaves written out. -/
theorem pageLoop_succ (env : Env) (cred : Credentials) (account : Account) (n : Nat)
    (offset : Int) (s : Store) :
    pageLoop env cred account (n + 1) offset s =
      match FetchArticles env cred account.BizID offset 5 with
      | .error e => some { err := some ("fetch articles: " ++ e), store := s, offsets := [offset] }
      | .ok resp =>
        if resp.AppMsgList.length = 0 then some { err := none, store := s, offsets := [offset] }
        else if offset + resp.AppMsgList.length ≥ resp.TotalCount then
          some { err := none, store := (saveItems env account.ID resp.AppMsgList s).2,
                 offsets := [offset] }
        else
          match env.ctxErr (offset + resp.AppMsgList.length) with
          | some e =>
            some { err := some e, store := (saveItems env account.ID resp.AppMsgList s).2,
                   offsets := [offset] }
          | none =>
            (pageLoop env cred account n (offset + resp.AppMsgList.length)
              (saveItems env account.ID resp.AppMsgList s).2).map
              (fun r => { r with offsets := offset :: r.offsets }) := by
  rw [pageLoop]
  cases hf : FetchArticles env cred account.BizID offset 5 with
  | error e => rfl
  | ok resp =>
    simp only
    by_cases hempty : resp.AppMsgList.length = 0
    · rw [if_pos hempty, if_pos hempty]
    · rw [if_neg hempty, if_neg hempty]
      have herr := saveItems_err env account.ID resp.AppMsgList s
      generalize saveItems env account.ID resp.AppMsgList s = out at herr
      obtain ⟨e, s1⟩ := out
      simp only at herr
      subst herr
      rfl

/-- With a valid account and an active session `Execute` is the paging loop
started at offset 0 with the credentials of the session. -/
theorem Execute_eq_pageLoop (env : Env) (fuel : Nat) (task : Task) (s : Store) (a : Account)
    (sess : WechatSession) (hload : loadAccount s task.AccountID = some (a, some sess))
    (hbiz : a.BizID ≠ "") (hact : sess.Status = SessionStatusActive) :
    Execute env fuel task s =
      pageLoop env { Cookie := sess.Cookie, Token := sess.Token } a fuel 0 s := by
  unfold Execute
  rw [hload]
  simp only [hbiz, if_false, hact, ne_eq, not_true_eq_false]

/-- The offsets of a run: the first is the offset the loop starts at, and each
next one is the previous one plus the number of items of the page there. -/
theorem pageLoop_chain (env : Env) (cred : Credentials) (account : Account) (fuel : Nat) :
    ∀ (offset : Int) (s : Store) (r : ExecResult),
      pageLoop env cred account fuel offset s = some r →
      r.offsets.head? = some offset ∧
      List.Chain' (fun o o1 => ∃ resp, FetchArticles env cred account.BizID o 5 = .ok resp ∧
        o1 = o + resp.AppMsgList.length) r.offsets := by
  induction fuel with
  | zero => intro offset s r h; simp [pageLoop] at h
  | succ n ih =>
    intro offset s r h
    rw [pageLoop_succ] at h
    split at h
    · cases h; exact ⟨rfl, by simp⟩
    · next resp hfetch =>
      split at h
      · cases h; exact ⟨rfl, by simp⟩
      · split at h
        · cases h; exact ⟨rfl, by simp⟩
        · split at h
          · cases h; exact ⟨rfl, by simp⟩
          · cases hrec : pageLoop env cred account n (offset + resp.AppMsgList.length)
                (saveItems env account.ID resp.AppMsgList s).2 with
            | none => rw [hrec] at h; cases h
            | some r1 =>
              rw [hrec] at h
              simp only [Option.map_some', Option.some.injEq] at h
              subst h
              obtain ⟨hhead, hchain⟩ := ih _ _ r1 hrec
              refine ⟨rfl, ?_⟩
              simp only
              cases hoffs : r1.offsets with
              | nil => simp
              | cons o1 rest =>
                rw [hoffs] at hhead hchain
                simp only [List.head?_cons, Option.some.injEq] at hhead
                rw [List.chain'_cons]
                exact ⟨⟨resp, hfetch, hhead⟩, hchain⟩

theorem pagesFor_pos (t q : Nat) (ht : 1 ≤ t) (hq : 1 ≤ q) : 1 ≤ pagesFor t q := by
  unfold pagesFor
  exact (Nat.one_le_div_iff (by omega)).2 (by omega)

theorem pagesFor_step (t t1 q : Nat) (hq : 1 ≤ q) (h : t1 + q ≤ t) :
    pagesFor t1 q + 1 ≤ pagesFor t q := by
  unfold pagesFor
  rw [← Nat.add_div_right _ (by omega : 0 < q)]
  exact Nat.div_le_div_right (by omega)

theorem pagesFor_one (t : Nat) : pagesFor t 1 = t := by
  unfold pagesFor
  simp

/-- Termination and the bound on the number of listing requests, for a
provider that reports one total `T` and whose non-empty pages hold at least
`q` items or reach the total. -/
theorem pageLoop_bound (env : Env) (cred : Credentials) (account : Account) (T : Int) (q : Nat)
    (hq : 1 ≤ q)
    (hconst : ∀ o resp, FetchArticles env cred account.BizID o 5 = .ok resp →
      resp.TotalCount = T)
    (hmin : ∀ o resp, FetchArticles env cred account.BizID o 5 = .ok resp →
      resp.AppMsgList.length ≠ 0 → min (q : Int) (T - o) ≤ resp.AppMsgList.length)
    (fuel : Nat) :
    ∀ (offset : Int) (s : Store), max 1 (pagesFor (T - offset).toNat q) ≤ fuel →
      ∃ r, pageLoop env cred account fuel offset s = some r ∧ 1 ≤ r.offsets.length ∧
        r.offsets.length ≤ max 1 (pagesFor (T - offset).toNat q) := by
  induction fuel with
  | zero => intro offset s h; omega
  | succ n ih =>
    intro offset s hfuel
    rw [pageLoop_succ]
    cases hf : FetchArticles env cred account.BizID offset 5 with
    | error e => exact ⟨_, rfl, by simp, by simp⟩
    | ok resp =>
      simp only
      by_cases hempty : resp.AppMsgList.length = 0
      · rw [if_pos hempty]; exact ⟨_, rfl, by simp, by simp⟩
      · rw [if_neg hempty]
        by_cases hstop : offset + resp.AppMsgList.length ≥ resp.TotalCount
        · rw [if_pos hstop]; exact ⟨_, rfl, by simp, by simp⟩
        · rw [if_neg hstop]
          cases hctx : env.ctxErr (offset + resp.AppMsgList.length) with
          | some e => exact ⟨_, rfl, by simp, by simp⟩
          | none =>
            simp only
            have hT := hconst offset resp hf
            have hL := hmin offset resp hf hempty
            rw [hT] at hstop
            have hlt : offset + (resp.AppMsgList.length : Int) < T := by omega
            have hqL : (q : Int) ≤ resp.AppMsgList.length := by
              rcases min_le_iff.1 hL with h | h
              · exact h
              · omega
            have hstep := pagesFor_step (T - offset).toNat
              (T - (offset + resp.AppMsgList.length)).toNat q hq (by omega)
            have hpos := pagesFor_pos (T - (offset + resp.AppMsgList.length)).toNat q
              (by omega) hq
            obtain ⟨r1, hr1, hlo, hhi⟩ := ih (offset + resp.AppMsgList.length)
              (saveItems env account.ID resp.AppMsgList s).2 (by omega)
            rw [hr1]
            refine ⟨_, rfl, by simp, ?_⟩
            simp only [List.length_cons]
            omega

/-- The number of listing requests when every page below the total is served
in full and nothing fails. -/
theorem pageLoop_exact (env : Env) (cred : Credentials) (account : Account) (T : Int)
    (hfull : ∀ o : Int, 0 ≤ o → o < T →
      ∃ resp, FetchArticles env cred account.BizID o 5 = .ok resp ∧ resp.TotalCount = T ∧
        (resp.AppMsgList.length : Int) = min 5 (T - o))
    (hctx : ∀ o, env.ctxErr o = none) (fuel : Nat) :
    ∀ (offset : Int) (s : Store), 0 ≤ offset → offset < T →
      pagesFor (T - offset).toNat 5 ≤ fuel →
      ∃ r, pageLoop env cred account fuel offset s = some r ∧ r.err = none ∧
        r.offsets.length = pagesFor (T - offset).toNat 5 := by
  induction fuel with
  | zero =>
    intro offset s h0 hlt hfuel
    have := pagesFor_pos (T - offset).toNat 5 (by omega) (by omega)
    omega
  | succ n ih =>
    intro offset s h0 hlt hfuel
    obtain ⟨resp, hf, hT, hL⟩ := hfull offset h0 hlt
    rw [pageLoop_succ, hf]
    simp only
    have hne : ¬ resp.AppMsgList.length = 0 := by
      intro h; rw [h] at hL
      have : (0 : Int) < min 5 (T - offset) := lt_min (by omega) (by omega)
      simp only [Nat.cast_zero] at hL
      omega
    rw [if_neg hne]
    by_cases hstop : offset + resp.AppMsgList.length ≥ resp.TotalCount
    · rw [if_pos hstop]
      refine ⟨_, rfl, rfl, ?_⟩
      rw [hT] at hstop
      have h5 : T - offset ≤ 5 := by
        rcases le_total (5 : Int) (T - offset) with h | h
        · rw [min_eq_left h] at hL; omega
        · exact h
      simp only [List.length_singleton]
      unfold pagesFor
      omega
    · rw [if_neg hstop, hctx]
      simp only
      rw [hT] at hstop
      have hL5 : (resp.AppMsgList.length : Int) = 5 := by
        rcases le_total (5 : Int) (T - offset) with h | h
        · rw [min_eq_left h] at hL; exact hL
        · rw [min_eq_right h] at hL; omega
      have hpages : pagesFor (T - offset).toNat 5 =
          pagesFor (T - (offset + resp.AppMsgList.length)).toNat 5 + 1 := by
        unfold pagesFor
        omega
      obtain ⟨r1, hr1, herr, hlen⟩ := ih (offset + resp.AppMsgList.length)
        (saveItems env account.ID resp.AppMsgList s).2 (by omega) (by omega) (by omega)
      rw [hr1]
      refine ⟨_, rfl, herr, ?_⟩
      simp only [Option.map_some', List.length_cons]
      omega

/-- C13, as the code has it. For a job whose account and session pass the
checks of `Execute`, the run is the paging loop from offset 0, and each next
offset is the previous one plus the number of items of the page there. When the
provider reports the same total `T` on every page, `Execute` returns as soon as
it is given fuel for `max 1 T` requests, and it issues at least one and at most
`max 1 T` listing requests; at most `max 1 ⌈T/5⌉` when every non-empty page
holds at least 5 items or reaches the total; and exactly `⌈T/5⌉`, without
error, when `T ≥ 1`, every page below the total is served in full and the
context is never done. -/
theorem pagination_terminates (env : Env) (task : Task) (s : Store) (a : Account)
    (sess : WechatSession) (T : Int)
    (hload : loadAccount s task.AccountID = some (a, some sess)) (hbiz : a.BizID ≠ "")
    (hact : sess.Status = SessionStatusActive)
    (hconst : ∀ o resp,
      FetchArticles env { Cookie := sess.Cookie, Token := sess.Token } a.BizID o 5 = .ok resp →
      resp.TotalCount = T) :
    (∀ fuel r, Execute env fuel task s = some r →
      r.offsets.head? = some 0 ∧
      List.Chain' (fun o o1 => ∃ resp,
        FetchArticles env { Cookie := sess.Cookie, Token := sess.Token } a.BizID o 5 = .ok resp ∧
        o1 = o + resp.AppMsgList.length) r.offsets) ∧
    (∀ fuel, max 1 T.toNat ≤ fuel →
      ∃ r, Execute env fuel task s = some r ∧ 1 ≤ r.offsets.length ∧
        r.offsets.length ≤ max 1 T.toNat) ∧
    ((∀ o resp,
        FetchArticles env { Cookie := sess.Cookie, Token := sess.Token } a.BizID o 5 = .ok resp →
        resp.AppMsgList.length ≠ 0 → min 5 (T - o) ≤ resp.AppMsgList.length) →
      ∀ fuel, max 1 (pagesFor T.toNat 5) ≤ fuel →
        ∃ r, Execute env fuel task s = some r ∧ 1 ≤ r.offsets.length ∧
          r.offsets.length ≤ max 1 (pagesFor T.toNat 5)) ∧
    (1 ≤ T →
      (∀ o : Int, 0 ≤ o → o < T → ∃ resp,
        FetchArticles env { Cookie := sess.Cookie, Token := sess.Token } a.BizID o 5 = .ok resp ∧
        (resp.AppMsgList.length : Int) = min 5 (T - o)) →
      (∀ o, env.ctxErr o = none) →
      ∀ fuel, pagesFor T.toNat 5 ≤ fuel →
        ∃ r, Execute env fuel task s = some r ∧ r.err = none ∧
          r.offsets.length = pagesFor T.toNat 5) := by
  have hexec := fun fuel => Execute_eq_pageLoop env fuel task s a sess hload hbiz hact
  refine ⟨?_, ?_, ?_, ?_⟩
  · intro fuel r hr
    rw [hexec] at hr
    exact pageLoop_chain env _ a fuel 0 s r hr
  · intro fuel hfuel
    rw [hexec]
    have h := pageLoop_bound env { Cookie := sess.Cookie, Token := sess.Token } a T 1
      (le_refl 1) hconst (by
        intro o resp _ hne
        have : (1 : Int) ≤ resp.AppMsgList.length := by omega
        exact le_trans (min_le_left _ _) (by simpa using this)) fuel 0 s
    simp only [sub_zero, pagesFor_one] at h
    exact h hfuel
  · intro hmin fuel hfuel
    rw [hexec]
    have h := pageLoop_bound env { Cookie := sess.Cookie, Token := sess.Token } a T 5
      (by omega) hconst (by
        intro o resp hf hne
        simpa using hmin o resp hf hne) fuel 0 s
    simp only [sub_zero] at h
    exact h hfuel
  · intro hT hfull hctx fuel hfuel
    rw [hexec]
    have h := pageLoop_exact env { Cookie := sess.Cookie, Token := sess.Token } a T
      (by
        intro o h0 hlt
        obtain ⟨resp, hf, hL⟩ := hfull o h0 hlt
        exact ⟨resp, hf, hconst o resp hf, hL⟩) hctx fuel 0 s (le_refl 0) (by omega)
    simp only [sub_zero] at h
    exact h hfuel

/-- C13, the claim as stated fails: with a total of 0 and an empty first page
`Execute` issues one listing request, not `⌈0/5⌉ = 0`; and with a total of 7
served three items at a time it issues three requests, at offsets 0, 3 and 6,
not `⌈7/5⌉ = 2`, though no page is empty. -/
theorem requests_exceed_page_count :
    (Execute emptyTotalEnv 4 samplePending storeWithTwo).map (fun r => (r.err, r.offsets)) =
      some (none, [0]) ∧
    pagesFor 0 5 = 0 ∧
    (Execute shortPageEnv 4 samplePending storeWithTwo).map (fun r => (r.err, r.offsets)) =
      some (none, [0, 3, 6]) ∧
    pagesFor 7 5 = 2 := by
  refine ⟨by decide, by decide, by decide, by decide⟩

theorem fullPageEnv_fetch (cred : Credentials) (biz : String) (o : Int) :
    FetchArticles fullPageEnv cred biz o 5 =
      .ok { BaseResp := { Ret := 0, ErrMsg := "ok" },
            AppMsgList := List.replicate (min 5 (12 - o.toNat)) sampleItem,
            TotalCount := 12 } := by
  have h1 : fullPageEnv.listDo cred biz o 5 =
      .ok { StatusCode := 200, Body := String.mk (List.replicate o.toNat 'x') } := rfl
  have h2 : ∀ body, fullPageEnv.decodeAppmsg body =
      .ok { BaseResp := { Ret := 0, ErrMsg := "ok" },
            AppMsgList := List.replicate (min 5 (12 - body.length)) sampleItem,
            TotalCount := 12 } := fun _ => rfl
  unfold FetchArticles
  rw [h1]
  simp only [ne_eq, not_true_eq_false, if_false]
  rw [h2]
  simp only [ne_eq, not_true_eq_false, if_false, String.length, List.length_replicate]

theorem pagination_terminates_witness :
    ∃ r, Execute fullPageEnv 3 samplePending storeWithTwo = some r ∧ r.err = none ∧
      r.offsets.length = 3 := by
  have h := (pagination_terminates fullPageEnv samplePending storeWithTwo sampleBoundAccount
    sampleSession 12 (by decide) (by decide) (by decide) (by
      intro o resp hf
      rw [fullPageEnv_fetch] at hf
      cases hf
      rfl)).2.2.2 (by omega) (by
      intro o h0 hlt
      refine ⟨_, fullPageEnv_fetch _ _ o, ?_⟩
      simp only [List.length_replicate]
      omega) (fun _ => rfl) 3 (by decide)
  exact h

/-! ## A listing request that fails -/

/-- The four ways `FetchArticles` fails, with the error each one gives. -/
theorem FetchArticles_failures (env : Env) (cred : Credentials) (fakeid : String)
    (offset count : Int) :
    (∀ e, env.listDo cred fakeid offset count = .error e →
      FetchArticles env cred fakeid offset count = .error e) ∧
    (∀ resp, env.listDo cred fakeid offset count = .ok resp → resp.StatusCode ≠ 200 →
      FetchArticles env cred fakeid offset count =
        .error ("appmsg status " ++ toString resp.StatusCode ++ ": " ++ resp.Body)) ∧
    (∀ resp e, env.listDo cred fakeid offset count = .ok resp → resp.StatusCode = 200 →
      env.decodeAppmsg resp.Body = .error e →
      FetchArticles env cred fakeid offset count = .error e) ∧
    (∀ resp parsed, env.listDo cred fakeid offset count = .ok resp → resp.StatusCode = 200 →
      env.decodeAppmsg resp.Body = .ok parsed → parsed.BaseResp.Ret ≠ 0 →
      FetchArticles env cred fakeid offset count =
        .error ("appmsg ret " ++ toString parsed.BaseResp.Ret ++ " err " ++
          parsed.BaseResp.ErrMsg)) := by
  refine ⟨?_, ?_, ?_, ?_⟩
  · intro e h; simp [FetchArticles, h]
  · intro resp h hne; simp [FetchArticles, h, hne]
  · intro resp e h h200 hd; simp [FetchArticles, h, h200, hd]
  · intro resp parsed h h200 hd hret; simp [FetchArticles, h, h200, hd, hret]

/-- Every error of `FetchArticles` is one of the four. -/
theorem FetchArticles_error_cases (env : Env) (cred : Credentials) (fakeid : String)
    (offset count : Int) (e : String)
    (h : FetchArticles env cred fakeid offset count = .error e) :
    env.listDo cred fakeid offset count = .error e ∨
    (∃ resp, env.listDo cred fakeid offset count = .ok resp ∧
      ((resp.StatusCode ≠ 200 ∧
          e = "appmsg status " ++ toString resp.StatusCode ++ ": " ++ resp.Body) ∨
       (resp.StatusCode = 200 ∧ env.decodeAppmsg resp.Body = .error e) ∨
       (resp.StatusCode = 200 ∧ ∃ parsed, env.decodeAppmsg resp.Body = .ok parsed ∧
          parsed.BaseResp.Ret ≠ 0 ∧
          e = "appmsg ret " ++ toString parsed.BaseResp.Ret ++ " err " ++
            parsed.BaseResp.ErrMsg))) := by
  have hall := FetchArticles_failures env cred fakeid offset count
  cases hdo : env.listDo cred fakeid offset count with
  | error e0 =>
    rw [hall.1 e0 hdo] at h
    cases h
    exact Or.inl rfl
  | ok resp =>
    right
    refine ⟨resp, rfl, ?_⟩
    by_cases h200 : resp.StatusCode = 200
    · cases hdec : env.decodeAppmsg resp.Body with
      | error e1 =>
        rw [hall.2.2.1 resp e1 hdo h200 hdec] at h
        cases h
        exact Or.inr (Or.inl ⟨h200, rfl⟩)
      | ok parsed =>
        by_cases hret : parsed.BaseResp.Ret = 0
        · simp [FetchArticles, hdo, h200, hdec, hret] at h
        · rw [hall.2.2.2 resp parsed hdo h200 hdec hret] at h
          cases h
          exact Or.inr (Or.inr ⟨h200, parsed, rfl, hret, rfl⟩)
    · rw [hall.2.1 resp hdo h200] at h
      cases h
      exact Or.inl ⟨h200, rfl⟩

theorem saveItems_keeps_rows (env : Env) (accountID : Nat) (items : List ArticleItem) :
    ∀ s, s.articles <+: (saveItems env accountID items s).2.articles := by
  induction items with
  | nil => intro s; exact List.prefix_refl _
  | cons item rest ih =>
    intro s
    rw [saveItems_cons]
    exact (saveArticle_keeps_rows env accountID item s).trans (ih _)

/-- A run in which a listing request fails: the request is the last one of the
run, every request before it succeeded, the error of the run carries its
error, and the store is the one the pages before it left. -/
theorem pageLoop_failure (env : Env) (cred : Credentials) (account : Account) (fuel : Nat) :
    ∀ (offset : Int) (s : Store) (r : ExecResult) (k : Nat) (o : Int) (e : String),
      pageLoop env cred account fuel offset s = some r → r.offsets[k]? = some o →
      FetchArticles env cred account.BizID o 5 = .error e →
      k + 1 = r.offsets.length ∧ r.err = some ("fetch articles: " ++ e) ∧
      r.store = storeAfterPages env cred account (r.offsets.take k) s ∧
      s.articles <+: r.store.articles ∧
      ∀ o1 ∈ r.offsets.take k, ∃ resp, FetchArticles env cred account.BizID o1 5 = .ok resp := by
  induction fuel with
  | zero => intro offset s r k o e h; simp [pageLoop] at h
  | succ n ih =>
    intro offset s r k o e hrun hk hfail
    rw [pageLoop_succ] at hrun
    have single : ∀ (er : Option String) (st : Store),
        some ({ err := er, store := st, offsets := [offset] } : ExecResult) = some r →
        k = 0 ∧ o = offset := by
      intro er st h
      cases h
      cases k with
      | zero => simp only [List.getElem?_cons_zero, Option.some.injEq] at hk; exact ⟨rfl, hk.symm⟩
      | succ k1 => simp at hk
    split at hrun
    · next e0 hf =>
      obtain ⟨hk0, ho⟩ := single _ _ hrun
      subst hk0 ho
      cases hrun
      rw [hf] at hfail
      cases hfail
      exact ⟨rfl, rfl, rfl, List.prefix_refl _, by intro o1 h1; simp at h1⟩
    · next resp hf =>
      have hcontra : o = offset → False := by
        intro h; rw [h, hf] at hfail; cases hfail
      split at hrun
      · exact absurd (single _ _ hrun).2 hcontra
      · split at hrun
        · exact absurd (single _ _ hrun).2 hcontra
        · split at hrun
          · exact absurd (single _ _ hrun).2 hcontra
          · cases hrec : pageLoop env cred account n (offset + resp.AppMsgList.length)
                (saveItems env account.ID resp.AppMsgList s).2 with
            | none => rw [hrec] at hrun; cases hrun
            | some r1 =>
              rw [hrec] at hrun
              simp only [Option.map_some', Option.some.injEq] at hrun
              subst hrun
              cases k with
              | zero =>
                simp only [List.getElem?_cons_zero, Option.some.injEq] at hk
                exact absurd hk.symm hcontra
              | succ k1 =>
                simp only [List.getElem?_cons_succ] at hk
                obtain ⟨h1, h2, h3, h4, h5⟩ := ih _ _ r1 k1 o e hrec hk hfail
                refine ⟨by simp only [List.length_cons]; omega, h2, ?_, ?_, ?_⟩
                · simp only [List.take_succ_cons, storeAfterPages, hf]
                  exact h3
                · exact (saveItems_keeps_rows env account.ID resp.AppMsgList s).trans h4
                · intro o1 ho1
                  simp only [List.take_succ_cons, List.mem_cons] at ho1
                  rcases ho1 with rfl | ho1
                  · exact ⟨resp, hf⟩
                  · exact h5 o1 ho1

/-- C14: `FetchArticles` fails on a transport error, on a status other than
200, on a payload that does not decode and on a result code other than 0, whose
message is part of the error. In a run of `Execute` that passes the account
checks, when the request number `k + 1` fails with error `e`, that request is
the last one of the run, the requests before it succeeded, `Execute` returns
"fetch articles: " followed by `e`, the store is the one the first `k` pages
left, and every article that was stored before the run is still there. -/
theorem listing_failure_stops_run (env : Env) (fuel : Nat) (task : Task) (s : Store)
    (a : Account) (sess : WechatSession) (r : ExecResult) (k : Nat) (o : Int) (e : String)
    (hload : loadAccount s task.AccountID = some (a, some sess)) (hbiz : a.BizID ≠ "")
    (hact : sess.Status = SessionStatusActive)
    (hrun : Execute env fuel task s = some r) (hk : r.offsets[k]? = some o)
    (hfail : FetchArticles env { Cookie := sess.Cookie, Token := sess.Token } a.BizID o 5 =
      .error e) :
    (env.listDo { Cookie := sess.Cookie, Token := sess.Token } a.BizID o 5 = .error e ∨
      (∃ resp, env.listDo { Cookie := sess.Cookie, Token := sess.Token } a.BizID o 5 = .ok resp ∧
        ((resp.StatusCode ≠ 200 ∧
            e = "appmsg status " ++ toString resp.StatusCode ++ ": " ++ resp.Body) ∨
         (resp.StatusCode = 200 ∧ env.decodeAppmsg resp.Body = .error e) ∨
         (resp.StatusCode = 200 ∧ ∃ parsed, env.decodeAppmsg resp.Body = .ok parsed ∧
            parsed.BaseResp.Ret ≠ 0 ∧
            e = "appmsg ret " ++ toString parsed.BaseResp.Ret ++ " err " ++
              parsed.BaseResp.ErrMsg)))) ∧
    k + 1 = r.offsets.length ∧ r.err = some ("fetch articles: " ++ e) ∧
    r.store = storeAfterPages env { Cookie := sess.Cookie, Token := sess.Token } a
      (r.offsets.take k) s ∧
    s.articles <+: r.store.articles ∧
    ∀ o1 ∈ r.offsets.take k, ∃ resp,
      FetchArticles env { Cookie := sess.Cookie, Token := sess.Token } a.BizID o1 5 = .ok resp := by
  rw [Execute_eq_pageLoop env fuel task s a sess hload hbiz hact] at hrun
  exact ⟨FetchArticles_error_cases env _ a.BizID o 5 e hfail,
    pageLoop_failure env _ a fuel 0 s r k o e hrun hk hfail⟩

theorem listing_failure_stops_run_witness :
    ∃ r, Execute secondPageFailsEnv 3 samplePending storeWithTwo = some r ∧
      r.offsets = [0, 5] ∧
      r.err = some ("fetch articles: " ++ "appmsg ret 200013 err freq control") ∧
      storeWithTwo.articles <+: r.store.articles := by
  have hsome : (Execute secondPageFailsEnv 3 samplePending storeWithTwo).bind
      (fun r => if r.offsets = [0, 5] then some () else none) = some () := by decide
  obtain ⟨r, hr, h2⟩ := Option.bind_eq_some.1 hsome
  have hoffs : r.offsets = [0, 5] := by
    by_contra hne
    rw [if_neg hne] at h2
    cases h2
  have h := listing_failure_stops_run secondPageFailsEnv 3 samplePending storeWithTwo
    sampleBoundAccount sampleSession r 1 5 "appmsg ret 200013 err freq control"
    (by decide) (by decide) (by decide) hr (by rw [hoffs]; rfl) rfl
  exact ⟨r, hr, hoffs, h.2.2.1, h.2.2.2.2.1⟩

/-! ## Log entries of an execution -/

/-- C15: when `Execute` returns for a claimed task, `executeTask` returns too,
and the log table afterwards is the log table before followed by exactly two
entries of the task: an info entry written at the start, then an info entry
if `Execute` returned no error, or an error entry whose message is the error
`Execute` returned. No entry that was there is changed or removed. -/
theorem executeTask_logs (env : Env) (fuel : Nat) (finish now : Time) (task : Task) (s : Store)
    (r : ExecResult)
    (hexec : Execute env fuel task (logTask task.ID "info" "任务开始执行" s) = some r) :
    ∃ (out : Option String × Store) (l1 l2 : TaskLog),
      executeTask env fuel finish now task s = some out ∧ out.1 = r.err ∧
      out.2.taskLogs = s.taskLogs ++ [l1, l2] ∧
      l1.TaskID = task.ID ∧ l1.Level = "info" ∧ l1.Message = "任务开始执行" ∧
      l2.TaskID = task.ID ∧
      ((r.err = none ∧ l2.Level = "info" ∧ l2.Message = "任务执行成功") ∨
        (∃ e, r.err = some e ∧ l2.Level = "error" ∧ l2.Message = e)) := by
  have hfr := (Execute_frame env fuel task _ r hexec).2.1
  have hlogs : r.store.taskLogs = s.taskLogs ++
      [{ ID := nextLogID s, TaskID := task.ID, Level := "info", Message := "任务开始执行" }] := by
    rw [hfr]; rfl
  rw [executeTask_eq env fuel finish now task s r hexec]
  cases herr : r.err with
  | none =>
    refine ⟨_, { ID := nextLogID s, TaskID := task.ID, Level := "info",
                 Message := "任务开始执行" },
      { ID := nextLogID (markSuccess task.ID finish r.store), TaskID := task.ID,
        Level := "info", Message := "任务执行成功" }, rfl, rfl, ?_, rfl, rfl, rfl, rfl,
      Or.inl ⟨rfl, rfl, rfl⟩⟩
    show (markSuccess task.ID finish r.store).taskLogs ++ _ = _
    show r.store.taskLogs ++ _ = _
    rw [hlogs]
    simp
  | some e =>
    refine ⟨_, { ID := nextLogID s, TaskID := task.ID, Level := "info",
                 Message := "任务开始执行" },
      { ID := nextLogID r.store, TaskID := task.ID, Level := "error", Message := e },
      rfl, rfl, ?_, rfl, rfl, rfl, rfl, Or.inr ⟨e, rfl, rfl, rfl⟩⟩
    simp only
    rw [(handleFailure_frame _ task.ID task.RetryCount e now).1]
    show r.store.taskLogs ++ _ = _
    rw [hlogs]
    simp

theorem executeTask_logs_witness :
    ∃ (out : Option String × Store) (l1 l2 : TaskLog),
      executeTask offlineEnv 0 210 220 samplePending sampleStoreWithAccount = some out ∧
      out.2.taskLogs = sampleStoreWithAccount.taskLogs ++ [l1, l2] ∧
      l1.Level = "info" ∧ l2.Level = "error" ∧ l2.Message = "account session invalid" := by
  obtain ⟨out, l1, l2, h1, _, h3, _, h5, _, _, h8⟩ :=
    executeTask_logs offlineEnv 0 210 220 samplePending sampleStoreWithAccount
      { err := some "account session invalid",
        store := logTask samplePending.ID "info" "任务开始执行" sampleStoreWithAccount,
        offsets := [] } (by decide)
  refine ⟨out, l1, l2, h1, h3, h5, ?_⟩
  rcases h8 with ⟨hnone, _, _⟩ | ⟨e, he, hl, hm⟩
  · cases hnone
  · cases he
    exact ⟨hl, hm⟩

/-! ## One poll of a session -/

theorem find_updateSessions (id : Nat) (f : WechatSession → WechatSession)
    (hf : ∀ w, (f w).ID = w.ID) (ws : List WechatSession) (k : Nat) :
    (ws.map (fun w => if w.ID = id then f w else w)).find? (fun w => w.ID = k) =
      if k = id then (ws.find? (fun w => w.ID = k)).map f
      else ws.find? (fun w => w.ID = k) := by
  induction ws with
  | nil => simp
  | cons w ws ih =>
    simp only [List.map_cons]
    by_cases hk : k = id
    · subst hk
      simp only [if_true] at ih ⊢
      by_cases hw : w.ID = k
      · simp [hw, hf]
      · simp [hw, List.find?_cons, ih]
    · simp only [hk, if_false] at ih ⊢
      by_cases hw : w.ID = id
      · have hne : ¬ id = k := fun h => hk h.symm
        simp [hw, hf, hne, List.find?_cons, ih]
      · simp [hw, List.find?_cons, ih]

theorem updateSessions_ids (id : Nat) (f : WechatSession → WechatSession)
    (hf : ∀ w, (f w).ID = w.ID) (ws : List WechatSession) :
    (ws.map (fun w => if w.ID = id then f w else w)).map (fun w => w.ID) =
      ws.map (fun w => w.ID) := by
  induction ws with
  | nil => rfl
  | cons w ws ih =>
    simp only [List.map_cons]
    rw [ih]
    by_cases h : w.ID = id <;> simp [h, hf]

/-- A row update through the ORM with a non-zero key. -/
theorem dbUpdateSession_ok (session : WechatSession) (f : WechatSession → WechatSession)
    (s : Store) (hid : session.ID ≠ 0) :
    dbUpdateSession session f s =
      (none, { s with
        sessions := s.sessions.map (fun w => if w.ID = session.ID then f w else w) }) := by
  simp [dbUpdateSession, hid]

theorem getSession_dbUpdate (session : WechatSession) (f : WechatSession → WechatSession)
    (hf : ∀ w, (f w).ID = w.ID) (s : Store) (hid : session.ID ≠ 0) (k : Nat) :
    getSession (dbUpdateSession session f s).2 k =
      if k = session.ID then (getSession s k).map f else getSession s k := by
  rw [dbUpdateSession_ok session f s hid]
  exact find_updateSessions session.ID f hf s.sessions k

/-- The answer of `AskStatus` to a status request that completes and decodes. -/
theorem AskStatus_ok (env : AuthEnv) (k : Nat) (uuid : String) (resp : HttpResponse)
    (d : askResponse) (hdo : env.askDo k uuid = .ok resp) (h200 : resp.StatusCode = 200)
    (hdec : env.decodeAsk resp.Body = .ok d) :
    AskStatus env k uuid =
      .ok { State := stateOfCode d.Status, RedirectURL := d.AuthURL,
            Expired := d.Status == 3 } := by
  simp [AskStatus, hdo, h200, hdec]

/-- What `updateSession` does, by the state `AskStatus` returns. -/
theorem updateSession_state (env : AuthEnv) (k : Nat) (now : Time) (session : WechatSession)
    (s : Store) (st : LoginStatus) (hask : AskStatus env k session.UUID = .ok st) :
    (st.State = "waiting" →
      updateSession env k now session s = dbUpdateSession session (waitingColumns now) s) ∧
    (st.State = "scanned" →
      updateSession env k now session s = dbUpdateSession session (scannedColumns now) s) ∧
    (st.State = "authorized" → ∀ c t, FinalizeLogin env k st.RedirectURL = .ok (c, t) →
      updateSession env k now session s =
        dbUpdateSession session (activeColumns c t now (now + twelveHours)) s) ∧
    (st.State = "authorized" → ∀ e, FinalizeLogin env k st.RedirectURL = .error e →
      updateSession env k now session s = (some ("finalize login: " ++ e), s)) ∧
    (st.State = "expired" →
      updateSession env k now session s = dbUpdateSession session expiredColumns s) := by
  refine ⟨?_, ?_, ?_, ?_, ?_⟩
  · intro h; simp [updateSession, hask, h]
  · intro h; simp [updateSession, hask, h]
  · intro h c t hfin; simp [updateSession, hask, h, hfin]
  · intro h e hfin; simp [updateSession, hask, h, hfin]
  · intro h; simp [updateSession, hask, h]

theorem stateOfCode_values :
    stateOfCode 0 = "waiting" ∧ stateOfCode 1 = "scanned" ∧ stateOfCode 2 = "authorized" ∧
    stateOfCode 3 = "expired" := by
  decide

/-- A status code outside 0 to 3 gives the state "waiting". -/
theorem stateOfCode_other (code : Int) (h0 : code ≠ 0) (h1 : code ≠ 1) (h2 : code ≠ 2)
    (h3 : code ≠ 3) : stateOfCode code = "waiting" := by
  simp [stateOfCode, h0, h1, h2, h3]

/-- C16: let `w` be the row of a session with a non-zero key, polled at time
`now`, and let the status request complete with HTTP 200 and decode to status
code `c`. Then, with every other session row and every other table unchanged
and no error reported: for `c = 1` the row becomes `w` with status scanning and
`last_ping = now`; for `c = 2` and a finalize that returns cookies and token,
`w` with status active, those cookies and token, `last_ping = now` and
`expires_at = now + 12h`; for `c = 3`, `w` with status expired and nothing else
changed, so `last_ping` is as before; for `c = 0`, `w` with status pending and
`last_ping = now`, so a pending session stays pending. -/
theorem poll_transition_table (env : AuthEnv) (k : Nat) (now : Time) (w : WechatSession)
    (s : Store) (resp : HttpResponse) (d : askResponse)
    (hrow : getSession s w.ID = some w) (hid : w.ID ≠ 0)
    (hdo : env.askDo k w.UUID = .ok resp) (h200 : resp.StatusCode = 200)
    (hdec : env.decodeAsk resp.Body = .ok d) :
    (d.Status = 1 →
      (updateSession env k now w s).1 = none ∧
      getSession (updateSession env k now w s).2 w.ID =
        some { w with Status := SessionStatusScanning, LastPing := some now }) ∧
    (d.Status = 2 → ∀ c t, FinalizeLogin env k d.AuthURL = .ok (c, t) →
      (updateSession env k now w s).1 = none ∧
      getSession (updateSession env k now w s).2 w.ID =
        some { w with Status := SessionStatusActive, Cookie := c, Token := t,
                      LastPing := some now, ExpiresAt := some (now + 12 * 3600) }) ∧
    (d.Status = 3 →
      (updateSession env k now w s).1 = none ∧
      getSession (updateSession env k now w s).2 w.ID =
        some { w with Status := SessionStatusExpired }) ∧
    (d.Status = 0 →
      (updateSession env k now w s).1 = none ∧
      getSession (updateSession env k now w s).2 w.ID =
        some { w with Status := SessionStatusPending, LastPing := some now }) ∧
    (∀ id, id ≠ w.ID → getSession (updateSession env k now w s).2 id = getSession s id) ∧
    (updateSession env k now w s).2.tasks = s.tasks ∧
    (updateSession env k now w s).2.taskLogs = s.taskLogs ∧
    (updateSession env k now w s).2.accounts = s.accounts ∧
    (updateSession env k now w s).2.articles = s.articles := by
  have hask := AskStatus_ok env k w.UUID resp d hdo h200 hdec
  have hst := updateSession_state env k now w s _ hask
  have hval := stateOfCode_values
  have hupd : ∀ f : WechatSession → WechatSession, (∀ x, (f x).ID = x.ID) →
      (dbUpdateSession w f s).1 = none ∧
      getSession (dbUpdateSession w f s).2 w.ID = some (f w) := by
    intro f hf
    refine ⟨by rw [dbUpdateSession_ok w f s hid], ?_⟩
    rw [getSession_dbUpdate w f hf s hid, if_pos rfl, hrow]
    rfl
  refine ⟨?_, ?_, ?_, ?_, ?_, ?_⟩
  · intro hc
    rw [hst.2.1 (by show stateOfCode d.Status = _; rw [hc]; exact hval.2.1)]
    exact hupd (scannedColumns now) (fun _ => rfl)
  · intro hc c t hfin
    rw [hst.2.2.1 (by show stateOfCode d.Status = _; rw [hc]; exact hval.2.2.1) c t hfin]
    exact hupd (activeColumns c t now (now + twelveHours)) (fun _ => rfl)
  · intro hc
    rw [hst.2.2.2.2 (by show stateOfCode d.Status = _; rw [hc]; exact hval.2.2.2)]
    exact hupd expiredColumns (fun _ => rfl)
  · intro hc
    rw [hst.1 (by show stateOfCode d.Status = _; rw [hc]; exact hval.1)]
    exact hupd (waitingColumns now) (fun _ => rfl)
  · intro id hne
    unfold updateSession
    rw [hask]
    simp only
    split
    · exact (getSession_dbUpdate w _ (by intro _; rfl) s hid id).trans (if_neg hne)
    · split
      · exact (getSession_dbUpdate w _ (by intro _; rfl) s hid id).trans (if_neg hne)
      · split
        · split
          · rfl
          · exact (getSession_dbUpdate w _ (by intro _; rfl) s hid id).trans (if_neg hne)
        · split
          · exact (getSession_dbUpdate w _ (by intro _; rfl) s hid id).trans (if_neg hne)
          · rfl
  · unfold updateSession
    rw [hask]
    simp only [dbUpdateSession, hid, if_false]
    split
    · exact ⟨rfl, rfl, rfl, rfl⟩
    · split
      · exact ⟨rfl, rfl, rfl, rfl⟩
      · split
        · split <;> exact ⟨rfl, rfl, rfl, rfl⟩
        · split <;> exact ⟨rfl, rfl, rfl, rfl⟩

theorem poll_transition_table_witness :
    (updateSession (replyEnv 1 "" []) 0 7000 samplePendingSession sessionStore).1 = none ∧
    getSession (updateSession (replyEnv 1 "" []) 0 7000 samplePendingSession sessionStore).2 3 =
      some { samplePendingSession with Status := SessionStatusScanning,
                                       LastPing := some 7000 } :=
  (poll_transition_table (replyEnv 1 "" []) 0 7000 samplePendingSession sessionStore
    { StatusCode := 200, Body := "status" } { Status := 1, AuthURL := "" }
    (by decide) (by decide) rfl rfl rfl).1 rfl

/-! ## Poll ticks -/

/-- A token that `FinalizeLogin` returns is not empty. -/
theorem FinalizeLogin_token (env : AuthEnv) (k : Nat) (url c t : String)
    (h : FinalizeLogin env k url = .ok (c, t)) :
    t ≠ "" ∧ c = serializeCookies (env.jarCookies k) := by
  unfold FinalizeLogin at h
  by_cases hurl : url = ""
  · rw [if_pos hurl] at h; cases h
  · rw [if_neg hurl] at h
    cases hdo : env.redirectDo k url with
    | error e => rw [hdo] at h; cases h
    | ok reached =>
      rw [hdo] at h
      simp only at h
      by_cases htok : locateToken env.lib url reached = ""
      · rw [if_pos htok] at h; cases h
      · rw [if_neg htok] at h
        simp only [Except.ok.injEq, Prod.mk.injEq] at h
        rw [← h.2]
        exact ⟨htok, h.1.symm⟩

/-- One poll of a session leaves the store as it was, or reports no error and
writes one of the column sets to the rows with the key of the session. -/
theorem updateSession_cases (env : AuthEnv) (k : Nat) (now : Time) (session : WechatSession)
    (s : Store) :
    (updateSession env k now session s).2 = s ∨
    (session.ID ≠ 0 ∧ (updateSession env k now session s).1 = none ∧ ∃ f, PollWrite now f ∧
      (updateSession env k now session s).2 =
        { s with sessions := s.sessions.map (fun w => if w.ID = session.ID then f w else w) }) := by
  by_cases hid : session.ID = 0
  · left
    unfold updateSession
    split
    · rfl
    · simp only [dbUpdateSession, hid, if_true]
      split
      · rfl
      · split
        · rfl
        · split
          · split <;> rfl
          · split <;> rfl
  · have hupd : ∀ f, PollWrite now f →
        updateSession env k now session s = dbUpdateSession session f s →
        (updateSession env k now session s).2 = s ∨
        (session.ID ≠ 0 ∧ (updateSession env k now session s).1 = none ∧
          ∃ f, PollWrite now f ∧ (updateSession env k now session s).2 =
            { s with
              sessions := s.sessions.map (fun w => if w.ID = session.ID then f w else w) }) := by
      intro f hf heq
      right
      refine ⟨hid, ?_, f, hf, ?_⟩ <;> rw [heq, dbUpdateSession_ok session f s hid]
    cases hask : AskStatus env k session.UUID with
    | error e => left; simp [updateSession, hask]
    | ok st =>
      have hst := updateSession_state env k now session s st hask
      by_cases h1 : st.State = "waiting"
      · exact hupd _ (Or.inl rfl) (hst.1 h1)
      · by_cases h2 : st.State = "scanned"
        · exact hupd _ (Or.inr (Or.inl rfl)) (hst.2.1 h2)
        · by_cases h3 : st.State = "authorized"
          · cases hfin : FinalizeLogin env k st.RedirectURL with
            | error e => left; rw [hst.2.2.2.1 h3 e hfin]
            | ok ct =>
              obtain ⟨c, t⟩ := ct
              exact hupd _ (Or.inr (Or.inr (Or.inl
                ⟨c, t, (FinalizeLogin_token env k _ c t hfin).1, rfl⟩)))
                (hst.2.2.1 h3 c t hfin)
          · by_cases h4 : st.State = "expired"
            · exact hupd _ (Or.inr (Or.inr (Or.inr rfl))) (hst.2.2.2.2 h4)
            · left; simp [updateSession, hask, h1, h2, h3, h4]

/-- A poll that reports an error has left the store as it was. -/
theorem updateSession_error (env : AuthEnv) (k : Nat) (now : Time) (session : WechatSession)
    (s : Store) (e : String) (h : (updateSession env k now session s).1 = some e) :
    (updateSession env k now session s).2 = s := by
  rcases updateSession_cases env k now session s with h1 | ⟨_, hnone, _⟩
  · exact h1
  · rw [hnone] at h; cases h

/-- The column sets keep the key of the row. -/
theorem PollWrite.id_eq {now : Time} {f : WechatSession → WechatSession} (h : PollWrite now f)
    (w : WechatSession) : (f w).ID = w.ID := by
  rcases h with h | h | ⟨c, t, _, h⟩ | h <;> subst h <;> rfl

/-- The status a column set writes is one of the four. -/
theorem PollWrite.status {now : Time} {f : WechatSession → WechatSession} (h : PollWrite now f)
    (w : WechatSession) :
    (f w).Status = SessionStatusPending ∨ (f w).Status = SessionStatusScanning ∨
    (f w).Status = SessionStatusActive ∨ (f w).Status = SessionStatusExpired := by
  rcases h with h | h | ⟨c, t, _, h⟩ | h <;> subst h
  · exact Or.inl rfl
  · exact Or.inr (Or.inl rfl)
  · exact Or.inr (Or.inr (Or.inl rfl))
  · exact Or.inr (Or.inr (Or.inr rfl))

/-- A column set that does not make the row active keeps cookie, token and
expiry. -/
theorem PollWrite.credentials {now : Time} {f : WechatSession → WechatSession}
    (h : PollWrite now f) (w : WechatSession) (hna : (f w).Status ≠ SessionStatusActive) :
    (f w).Cookie = w.Cookie ∧ (f w).Token = w.Token ∧ (f w).ExpiresAt = w.ExpiresAt := by
  rcases h with h | h | ⟨c, t, _, h⟩ | h <;> subst h
  · exact ⟨rfl, rfl, rfl⟩
  · exact ⟨rfl, rfl, rfl⟩
  · exact absurd rfl hna
  · exact ⟨rfl, rfl, rfl⟩

theorem updateSession_ids (env : AuthEnv) (k : Nat) (now : Time) (session : WechatSession)
    (s : Store) :
    (updateSession env k now session s).2.sessions.map (fun w => w.ID) =
      s.sessions.map (fun w => w.ID) := by
  rcases updateSession_cases env k now session s with h | ⟨_, _, f, hf, h⟩
  · rw [h]
  · rw [h]
    exact updateSessions_ids session.ID f hf.id_eq s.sessions

/-- The row with key `id` after one poll of a session. -/
theorem updateSession_row (env : AuthEnv) (k : Nat) (now : Time) (session : WechatSession)
    (s : Store) (id : Nat) (w : WechatSession) (hrow : getSession s id = some w) :
    getSession (updateSession env k now session s).2 id = some w ∨
    (session.ID = id ∧ ∃ f, PollWrite now f ∧
      getSession (updateSession env k now session s).2 id = some (f w)) := by
  rcases updateSession_cases env k now session s with h | ⟨_, _, f, hf, h⟩
  · left; rw [h]; exact hrow
  · rw [h]
    have hfind := find_updateSessions session.ID f hf.id_eq s.sessions id
    by_cases hid : id = session.ID
    · right
      refine ⟨hid.symm, f, hf, ?_⟩
      unfold getSession at hrow ⊢
      rw [hfind, if_pos hid, hrow]
      rfl
    · left
      unfold getSession at hrow ⊢
      rw [hfind, if_neg hid, hrow]

theorem unique_session (ws : List WechatSession) (hu : (ws.map (fun w => w.ID)).Nodup)
    (a b : WechatSession) (ha : a ∈ ws) (hb : b ∈ ws) (hab : a.ID = b.ID) : a = b := by
  induction ws with
  | nil => cases ha
  | cons w ws ih =>
    simp only [List.map_cons, List.nodup_cons, List.mem_map, not_exists, not_and] at hu
    rcases List.mem_cons.1 ha with rfl | ha1
    · rcases List.mem_cons.1 hb with rfl | hb1
      · rfl
      · exact absurd hab.symm (hu.1 b hb1)
    · rcases List.mem_cons.1 hb with rfl | hb1
      · exact absurd hab (hu.1 a ha1)
      · exact ih hu.2 ha1 hb1

theorem getSession_mem (s : Store) (id : Nat) (w : WechatSession)
    (h : getSession s id = some w) : w ∈ s.sessions ∧ w.ID = id := by
  unfold getSession at h
  exact ⟨List.mem_of_find?_eq_some h, by simpa using List.find?_some h⟩

theorem pollBatch_ids (env : AuthEnv) (clock : Nat → Time) (batch : List WechatSession) :
    ∀ (k : Nat) (s : Store),
      (pollBatch env clock k batch s).sessions.map (fun w => w.ID) =
        s.sessions.map (fun w => w.ID) := by
  induction batch with
  | nil => intro k s; rfl
  | cons b rest ih =>
    intro k s
    rw [pollBatch, ih, updateSession_ids]

/-- The row with key `id` after the sessions of a batch with distinct keys have
been polled: the same row, or the row with one column set written to it, and
then a session of the batch has that key. -/
theorem pollBatch_row (env : AuthEnv) (clock : Nat → Time) (id : Nat)
    (batch : List WechatSession) :
    ∀ (k : Nat) (s : Store) (w : WechatSession), (batch.map (fun b => b.ID)).Nodup →
      getSession s id = some w →
      getSession (pollBatch env clock k batch s) id = some w ∨
      ((∃ b ∈ batch, b.ID = id) ∧ ∃ now f, PollWrite now f ∧
        getSession (pollBatch env clock k batch s) id = some (f w)) := by
  induction batch with
  | nil => intro k s w _ hrow; exact Or.inl hrow
  | cons b rest ih =>
    intro k s w hnd hrow
    simp only [List.map_cons, List.nodup_cons, List.mem_map, not_exists, not_and] at hnd
    rw [pollBatch]
    rcases updateSession_row env k (clock k) b s id w hrow with h1 | ⟨hb, f, hf, h1⟩
    · rcases ih (k + 1) _ w hnd.2 h1 with h2 | ⟨⟨b1, hb1, hid1⟩, h2⟩
      · exact Or.inl h2
      · exact Or.inr ⟨⟨b1, List.mem_cons_of_mem _ hb1, hid1⟩, h2⟩
    · right
      refine ⟨⟨b, List.mem_cons_self _ _, hb⟩, clock k, f, hf, ?_⟩
      rcases ih (k + 1) _ (f w) hnd.2 h1 with h2 | ⟨⟨b1, hb1, hid1⟩, _⟩
      · exact h2
      · exact absurd (hid1.trans hb.symm) (hnd.1 b1 hb1)

/-- The row with key `id` after one tick, in a store with unique session keys:
the same row, or the row was pending or scanning and one column set has been
written to it. -/
theorem pollSessions_row (env : AuthEnv) (clock : Nat → Time) (s : Store)
    (hu : SessionKeysUnique s) (id : Nat) (w : WechatSession)
    (hrow : getSession s id = some w) :
    getSession (pollSessions env clock s).2 id = some w ∨
    ((w.Status = SessionStatusPending ∨ w.Status = SessionStatusScanning) ∧
      ∃ now f, PollWrite now f ∧ getSession (pollSessions env clock s).2 id = some (f w)) := by
  have hsub : ((s.sessions.filter (fun w =>
      w.Status = SessionStatusPending ∨ w.Status = SessionStatusScanning)).take 20).Sublist
      s.sessions := (List.take_sublist _ _).trans (List.filter_sublist _)
  have hnd : (((s.sessions.filter (fun w =>
      w.Status = SessionStatusPending ∨ w.Status = SessionStatusScanning)).take 20).map
      (fun b => b.ID)).Nodup := List.Nodup.sublist (List.Sublist.map _ hsub) hu
  rcases pollBatch_row env clock id _ 0 s w hnd hrow with h | ⟨⟨b, hb, hbid⟩, h⟩
  · exact Or.inl h
  · right
    refine ⟨?_, h⟩
    have hbfil := List.mem_of_mem_take hb
    have hbst : b.Status = SessionStatusPending ∨ b.Status = SessionStatusScanning := by
      simpa using (List.mem_filter.1 hbfil).2
    have hwmem := getSession_mem s id w hrow
    have hbw : b = w := unique_session s.sessions hu b w (hsub.subset hb) hwmem.1
      (hbid.trans hwmem.2.symm)
    rw [← hbw]
    exact hbst

theorem pollSessions_unique (env : AuthEnv) (clock : Nat → Time) (s : Store)
    (hu : SessionKeysUnique s) : SessionKeysUnique (pollSessions env clock s).2 := by
  unfold SessionKeysUnique
  show ((pollBatch env clock 0 _ s).sessions.map (fun w => w.ID)).Nodup
  rw [pollBatch_ids]
  exact hu

theorem pollTicks_unique (ticks : List Tick) :
    ∀ s, SessionKeysUnique s → SessionKeysUnique (pollTicks ticks s) := by
  induction ticks with
  | nil => intro s hu; exact hu
  | cons t ts ih =>
    intro s hu
    rw [pollTicks]
    exact ih _ (pollSessions_unique t.env t.clock s hu)

/-- A row that is neither pending nor scanning stays the same row along every
sequence of ticks. -/
theorem pollTicks_frozen (ticks : List Tick) :
    ∀ (s : Store) (id : Nat) (w : WechatSession), SessionKeysUnique s →
      getSession s id = some w → w.Status ≠ SessionStatusPending →
      w.Status ≠ SessionStatusScanning → getSession (pollTicks ticks s) id = some w := by
  induction ticks with
  | nil => intro s id w _ hrow _ _; exact hrow
  | cons t ts ih =>
    intro s id w hu hrow hp hsc
    rw [pollTicks]
    rcases pollSessions_row t.env t.clock s hu id w hrow with h | ⟨hst, _⟩
    · exact ih _ id w (pollSessions_unique t.env t.clock s hu) h hp hsc
    · rcases hst with h | h
      · exact absurd h hp
      · exact absurd h hsc

theorem session_status_ne :
    SessionStatusActive ≠ SessionStatusPending ∧ SessionStatusActive ≠ SessionStatusScanning ∧
    SessionStatusExpired ≠ SessionStatusPending ∧
    SessionStatusExpired ≠ SessionStatusScanning := by
  decide

/-- C17, as the code has it: in a store with unique session keys, after any
sequence of poll ticks with any provider responses, one more tick leaves each
session row as it is, or the row was pending or scanning and its status becomes
pending, scanning, active or expired; so the status moves forward in the order
pending < scanning < active, jumps to expired, or goes back to pending; and a
session that is active or expired stays the same row through every sequence of
ticks. -/
theorem session_status_moves (s : Store) (hu : SessionKeysUnique s) (ticks : List Tick) :
    (∀ env clock id w, getSession (pollTicks ticks s) id = some w →
      ∃ w1, getSession (pollSessions env clock (pollTicks ticks s)).2 id = some w1 ∧
        (w1 = w ∨ SessionMove w.Status w1.Status)) ∧
    (∀ id w, getSession s id = some w →
      (w.Status = SessionStatusActive ∨ w.Status = SessionStatusExpired) →
      getSession (pollTicks ticks s) id = some w) := by
  constructor
  · intro env clock id w hrow
    rcases pollSessions_row env clock _ (pollTicks_unique ticks s hu) id w hrow with
      h | ⟨hst, now, f, hf, h⟩
    · exact ⟨w, h, Or.inl rfl⟩
    · exact ⟨f w, h, Or.inr ⟨hst, hf.status w⟩⟩
  · intro id w hrow hst
    have hne := session_status_ne
    rcases hst with h | h
    · exact pollTicks_frozen ticks s id w hu hrow (by rw [h]; exact hne.1) (by rw [h]; exact hne.2.1)
    · exact pollTicks_frozen ticks s id w hu hrow (by rw [h]; exact hne.2.2.1)
        (by rw [h]; exact hne.2.2.2)

theorem session_status_moves_witness :
    SessionKeysUnique sessionStore ∧
    ∃ w1, getSession (pollSessions authorizedTick.env authorizedTick.clock
        (pollTicks [waitingTick] sessionStore)).2 4 = some w1 ∧
      (w1 = waitingColumns 7101 sampleScanningSession ∨
        SessionMove (waitingColumns 7101 sampleScanningSession).Status w1.Status) :=
  ⟨by decide, (session_status_moves sessionStore (by decide) [waitingTick]).1
    authorizedTick.env authorizedTick.clock 4 (waitingColumns 7101 sampleScanningSession)
    (by decide)⟩

/-- C17, the claim as stated fails: a scanning session polled while the
provider reports code 0 is pending afterwards. -/
theorem scanning_back_to_pending :
    (getSession sessionStore 4).map (fun w => w.Status) = some SessionStatusScanning ∧
    (getSession (pollSessions waitingTick.env waitingTick.clock sessionStore).2 4).map
      (fun w => w.Status) = some SessionStatusPending := by
  decide

/-! ## Cookie and token -/

/-- C19: in a store with unique session keys, after any sequence of poll ticks,
one more tick leaves cookie, token and `expires_at` of every session row as
they were unless the row is active afterwards, and changes a row only if it was
pending or scanning; a poll of a session that reports an error (a failed status
request, a failed finalize) leaves the whole store as it was; and a row that
is active stays the same row, cookie and token included, through every
sequence of ticks. -/
theorem credentials_written_once (s : Store) (hu : SessionKeysUnique s) (ticks : List Tick) :
    (∀ env clock id w, getSession (pollTicks ticks s) id = some w →
      ∃ w1, getSession (pollSessions env clock (pollTicks ticks s)).2 id = some w1 ∧
        (w1.Status ≠ SessionStatusActive →
          w1.Cookie = w.Cookie ∧ w1.Token = w.Token ∧ w1.ExpiresAt = w.ExpiresAt) ∧
        (w1 ≠ w → w.Status = SessionStatusPending ∨ w.Status = SessionStatusScanning)) ∧
    (∀ env k now session e,
      (updateSession env k now session (pollTicks ticks s)).1 = some e →
      (updateSession env k now session (pollTicks ticks s)).2 = pollTicks ticks s) ∧
    (∀ id w, getSession s id = some w → w.Status = SessionStatusActive →
      getSession (pollTicks ticks s) id = some w) := by
  refine ⟨?_, ?_, ?_⟩
  · intro env clock id w hrow
    rcases pollSessions_row env clock _ (pollTicks_unique ticks s hu) id w hrow with
      h | ⟨hst, now, f, hf, h⟩
    · exact ⟨w, h, fun _ => ⟨rfl, rfl, rfl⟩, fun hne => absurd rfl hne⟩
    · exact ⟨f w, h, hf.credentials w, fun _ => hst⟩
  · intro env k now session e h
    exact updateSession_error env k now session _ e h
  · intro id w hrow hact
    have hne := session_status_ne
    exact pollTicks_frozen ticks s id w hu hrow (by rw [hact]; exact hne.1)
      (by rw [hact]; exact hne.2.1)

theorem credentials_written_once_witness :
    SessionKeysUnique sessionStore ∧
    getSession (pollTicks [authorizedTick, waitingTick, authorizedTick] sessionStore) 1 =
      some sampleSession :=
  ⟨by decide, (credentials_written_once sessionStore (by decide)
    [authorizedTick, waitingTick, authorizedTick]).2.2 1 sampleSession (by decide) rfl⟩

/-! ## Codes outside the table -/

/-- C18, as the code has it: let `w` be the row of a session with a non-zero
key, polled at time `now`, and let the status request complete with HTTP 200
and decode to a status code outside 0, 1, 2, 3. Then the poll reports no
failure and treats the code as the waiting signal: the row becomes `w` with
status pending and `last_ping = now`, so cookie, token and `expires_at` are
unchanged, and every other session row is unchanged. -/
theorem unknown_code_is_waiting (env : AuthEnv) (k : Nat) (now : Time) (w : WechatSession)
    (s : Store) (resp : HttpResponse) (d : askResponse)
    (hrow : getSession s w.ID = some w) (hid : w.ID ≠ 0)
    (hdo : env.askDo k w.UUID = .ok resp) (h200 : resp.StatusCode = 200)
    (hdec : env.decodeAsk resp.Body = .ok d)
    (h0 : d.Status ≠ 0) (h1 : d.Status ≠ 1) (h2 : d.Status ≠ 2) (h3 : d.Status ≠ 3) :
    (updateSession env k now w s).1 = none ∧
    getSession (updateSession env k now w s).2 w.ID =
      some { w with Status := SessionStatusPending, LastPing := some now } ∧
    (∀ id, id ≠ w.ID → getSession (updateSession env k now w s).2 id = getSession s id) := by
  have hask := AskStatus_ok env k w.UUID resp d hdo h200 hdec
  have hst := (updateSession_state env k now w s _ hask).1
    (stateOfCode_other d.Status h0 h1 h2 h3)
  rw [hst]
  refine ⟨by rw [dbUpdateSession_ok w _ s hid], ?_, ?_⟩
  · rw [getSession_dbUpdate w _ (by intro _; rfl) s hid, if_pos rfl, hrow]
    rfl
  · intro id hne
    rw [getSession_dbUpdate w _ (by intro _; rfl) s hid, if_neg hne]

theorem unknown_code_is_waiting_witness :
    (updateSession (replyEnv 4 "" []) 0 7000 samplePendingSession sessionStore).1 = none ∧
    getSession (updateSession (replyEnv 4 "" []) 0 7000 samplePendingSession sessionStore).2
        samplePendingSession.ID =
      some { samplePendingSession with Status := SessionStatusPending, LastPing := some 7000 } ∧
    (∀ id, id ≠ samplePendingSession.ID →
      getSession (updateSession (replyEnv 4 "" []) 0 7000 samplePendingSession sessionStore).2 id =
        getSession sessionStore id) :=
  unknown_code_is_waiting (replyEnv 4 "" []) 0 7000 samplePendingSession sessionStore
    { StatusCode := 200, Body := "status" } { Status := 4, AuthURL := "" }
    (by decide) (by decide) rfl rfl rfl (by decide) (by decide) (by decide) (by decide)

/-- C18, the claim as stated fails: a scanning session polled while the provider
reports code 4 gets status pending and a new `last_ping`. -/
theorem unknown_code_changes_session :
    getSession sessionStore 4 = some sampleScanningSession ∧
    sampleScanningSession.Status = SessionStatusScanning ∧
    sampleScanningSession.LastPing = some 6900 ∧
    (updateSession (replyEnv 4 "" []) 0 7000 sampleScanningSession sessionStore).1 = none ∧
    getSession (updateSession (replyEnv 4 "" []) 0 7000 sampleScanningSession sessionStore).2 4 =
      some { sampleScanningSession with Status := SessionStatusPending,
                                        LastPing := some 7000 } := by
  decide

/-! ## Scenario B -/

theorem serializeFrom_cons_ne (i : Nat) (ck : Cookie) (rest : List Cookie) :
    serializeFrom i (ck :: rest) ≠ "" := by
  intro h
  have hlen := congrArg String.length h
  simp only [serializeFrom, String.length_append] at hlen
  have h1 : ("=" : String).length = 1 := by decide
  have h0 : ("" : String).length = 0 := by decide
  rw [h1, h0] at hlen
  omega

/-- The serialized cookies are empty exactly when the jar holds no cookie. -/
theorem serializeCookies_empty_iff (cookies : List Cookie) :
    serializeCookies cookies = "" ↔ cookies = [] := by
  cases cookies with
  | nil => exact ⟨fun _ => rfl, fun _ => rfl⟩
  | cons ck rest =>
    exact ⟨fun h => absurd h (serializeFrom_cons_ne 0 ck rest), fun h => by cases h⟩

/-- The token of a text whose query holds a non-empty `token` parameter. -/
theorem parseToken_query (lib : URLLib) (raw : String) (get : String → String)
    (hq : lib.query raw = some get) (htok : get "token" ≠ "") :
    parseToken lib raw = get "token" := by
  simp [parseToken, hq, htok]

/-- `FinalizeLogin` for a redirect URL whose query holds a non-empty token,
when the redirect request completes. -/
theorem FinalizeLogin_query (env : AuthEnv) (k : Nat) (url : String) (get : String → String)
    (reached : Option String) (hurl : url ≠ "") (hq : env.lib.query url = some get)
    (htok : get "token" ≠ "") (hred : env.redirectDo k url = .ok reached) :
    FinalizeLogin env k url = .ok (serializeCookies (env.jarCookies k), get "token") := by
  have hp := parseToken_query env.lib url get hq htok
  have hloc : locateToken env.lib url reached = get "token" := by
    simp [locateToken, hp, htok]
  simp [FinalizeLogin, hurl, hred, hloc, htok]

/-- C20, as the code has it: let `w` be the row of a session with a non-zero
key, polled at time `now`; let the provider report status code 2 with a
non-empty redirect URL whose query holds a non-empty `token` parameter, and let
the redirect request complete. Then finalize succeeds, the poll reports no
error, and the row becomes `w` with status active, the token of the query,
`last_ping = now`, `expires_at = now + 12h` and, as cookie, the cookies the jar
holds for the provider, serialized; that cookie is non-empty if and only if
the jar holds at least one cookie. -/
theorem scenario_authorized (env : AuthEnv) (k : Nat) (now : Time) (w : WechatSession)
    (s : Store) (resp : HttpResponse) (d : askResponse) (get : String → String)
    (reached : Option String)
    (hrow : getSession s w.ID = some w) (hid : w.ID ≠ 0)
    (hdo : env.askDo k w.UUID = .ok resp) (h200 : resp.StatusCode = 200)
    (hdec : env.decodeAsk resp.Body = .ok d) (hcode : d.Status = 2)
    (hurl : d.AuthURL ≠ "") (hq : env.lib.query d.AuthURL = some get)
    (htok : get "token" ≠ "") (hred : env.redirectDo k d.AuthURL = .ok reached) :
    FinalizeLogin env k d.AuthURL =
      .ok (serializeCookies (env.jarCookies k), get "token") ∧
    (updateSession env k now w s).1 = none ∧
    getSession (updateSession env k now w s).2 w.ID =
      some { w with Status := SessionStatusActive,
                    Cookie := serializeCookies (env.jarCookies k), Token := get "token",
                    LastPing := some now, ExpiresAt := some (now + 12 * 3600) } ∧
    (serializeCookies (env.jarCookies k) ≠ "" ↔ env.jarCookies k ≠ []) := by
  have hfin := FinalizeLogin_query env k d.AuthURL get reached hurl hq htok hred
  have hask := AskStatus_ok env k w.UUID resp d hdo h200 hdec
  have hst := (updateSession_state env k now w s _ hask).2.2.1
    (by show stateOfCode d.Status = _; rw [hcode]; exact stateOfCode_values.2.2.1)
    _ _ hfin
  refine ⟨hfin, ?_, ?_, not_congr (serializeCookies_empty_iff _)⟩
  · rw [hst, dbUpdateSession_ok w _ s hid]
  · rw [hst, getSession_dbUpdate w _ (by intro _; rfl) s hid, if_pos rfl, hrow]
    rfl

theorem scenario_authorized_witness :
    (updateSession authorizedTick.env 0 7000 samplePendingSession sessionStore).1 = none ∧
    getSession (updateSession authorizedTick.env 0 7000 samplePendingSession sessionStore).2 3 =
      some { samplePendingSession with
        Status := SessionStatusActive, Cookie := "slave_sid=Zm9v", Token := "abc123",
        LastPing := some 7000, ExpiresAt := some 50200 } := by
  have h := scenario_authorized authorizedTick.env 0 7000 samplePendingSession sessionStore
    { StatusCode := 200, Body := "status" } { Status := 2, AuthURL := sampleRedirect }
    (fun key => if sampleRedirect = sampleRedirect ∧ key = "token" then "abc123" else "")
    (some sampleRedirect) (by decide) (by decide) rfl rfl rfl rfl (by decide) rfl (by decide) rfl
  exact ⟨h.2.1, h.2.2.1⟩

/-- C20, the claim as stated fails: the session is pending, the provider
reports code 2 with a redirect URL that holds `token=abc123`, the redirect
request completes, and the jar holds no cookie for the provider; finalize
succeeds and the session becomes active with an empty cookie. -/
theorem active_with_empty_cookie :
    samplePendingSession.Status = SessionStatusPending ∧
    parseToken sampleLib sampleRedirect = "abc123" ∧
    (updateSession (replyEnv 2 sampleRedirect []) 0 7000 samplePendingSession sessionStore).1 =
      none ∧
    getSession
        (updateSession (replyEnv 2 sampleRedirect []) 0 7000 samplePendingSession sessionStore).2
        3 =
      some { samplePendingSession with
        Status := SessionStatusActive, Cookie := "", Token := "abc123",
        LastPing := some 7000, ExpiresAt := some 50200 } := by
  decide

/-! ## One failing session in a tick -/

/-- The batch a tick loads is the one `pollSessions` loops over. -/
theorem pollSessions_eq (env : AuthEnv) (clock : Nat → Time) (s : Store) :
    pollSessions env clock s = (none, pollBatch env clock 0 (loadBatch s) s) := rfl

/-- What `updateSession` does for a session does not depend on the store: it
reports one error or none and writes one column set, or nothing, to the rows
with the key of the session. -/
theorem updateSession_uniform (env : AuthEnv) (k : Nat) (now : Time) (b : WechatSession) :
    ∃ (err : Option String) (g : WechatSession → WechatSession), (∀ w, (g w).ID = w.ID) ∧
      ∀ s : Store, updateSession env k now b s =
        (err, { s with sessions := s.sessions.map (fun w => if w.ID = b.ID then g w else w) }) := by
  have hkeep : ∀ err : Option String, (∀ s : Store, updateSession env k now b s = (err, s)) →
      ∃ (err : Option String) (g : WechatSession → WechatSession), (∀ w, (g w).ID = w.ID) ∧
        ∀ s : Store, updateSession env k now b s =
          (err, { s with
            sessions := s.sessions.map (fun w => if w.ID = b.ID then g w else w) }) := by
    intro err h
    refine ⟨err, id, fun _ => rfl, fun s => ?_⟩
    rw [h s]
    simp
  have hdb : ∀ f : WechatSession → WechatSession, PollWrite now f →
      (∀ s : Store, updateSession env k now b s = dbUpdateSession b f s) →
      ∃ (err : Option String) (g : WechatSession → WechatSession), (∀ w, (g w).ID = w.ID) ∧
        ∀ s : Store, updateSession env k now b s =
          (err, { s with
            sessions := s.sessions.map (fun w => if w.ID = b.ID then g w else w) }) := by
    intro f hf h
    by_cases hid : b.ID = 0
    · refine hkeep (some "WHERE conditions required") (fun s => ?_)
      rw [h s]
      simp [dbUpdateSession, hid]
    · exact ⟨none, f, hf.id_eq, fun s => by rw [h s, dbUpdateSession_ok b f s hid]⟩
  cases hask : AskStatus env k b.UUID with
  | error e => exact hkeep (some e) (fun s => by simp [updateSession, hask])
  | ok st =>
    have hst := fun s => updateSession_state env k now b s st hask
    by_cases h1 : st.State = "waiting"
    · exact hdb _ (Or.inl rfl) (fun s => (hst s).1 h1)
    · by_cases h2 : st.State = "scanned"
      · exact hdb _ (Or.inr (Or.inl rfl)) (fun s => (hst s).2.1 h2)
      · by_cases h3 : st.State = "authorized"
        · cases hfin : FinalizeLogin env k st.RedirectURL with
          | error e => exact hkeep _ (fun s => (hst s).2.2.2.1 h3 e hfin)
          | ok ct =>
            obtain ⟨c, t⟩ := ct
            exact hdb _ (Or.inr (Or.inr (Or.inl
              ⟨c, t, (FinalizeLogin_token env k _ c t hfin).1, rfl⟩)))
              (fun s => (hst s).2.2.1 h3 c t hfin)
        · by_cases h4 : st.State = "expired"
          · exact hdb _ (Or.inr (Or.inr (Or.inr rfl))) (fun s => (hst s).2.2.2.2 h4)
          · exact hkeep none (fun s => by simp [updateSession, hask, h1, h2, h3, h4])

/-- The error `updateSession` reports for a session is the same in every
store. -/
theorem updateSession_report (env : AuthEnv) (k : Nat) (now : Time) (b : WechatSession)
    (s s' : Store) : (updateSession env k now b s).1 = (updateSession env k now b s').1 := by
  obtain ⟨err, g, _, h⟩ := updateSession_uniform env k now b
  rw [h s, h s']

/-- Polling a session leaves the rows with another key as they are. -/
theorem updateSession_other (env : AuthEnv) (k : Nat) (now : Time) (b : WechatSession)
    (s : Store) (id : Nat) (hne : id ≠ b.ID) :
    getSession (updateSession env k now b s).2 id = getSession s id := by
  obtain ⟨err, g, hg, h⟩ := updateSession_uniform env k now b
  rw [h s]
  have := find_updateSessions b.ID g hg s.sessions id
  simp only [hne, if_false] at this
  exact this

/-- The row of a session after it has been polled depends only on that row
before. -/
theorem updateSession_same (env : AuthEnv) (k : Nat) (now : Time) (b : WechatSession)
    (s s' : Store) (h : getSession s b.ID = getSession s' b.ID) :
    getSession (updateSession env k now b s).2 b.ID =
      getSession (updateSession env k now b s').2 b.ID := by
  obtain ⟨err, g, hg, hu⟩ := updateSession_uniform env k now b
  rw [hu s, hu s']
  have h1 := find_updateSessions b.ID g hg s.sessions b.ID
  have h2 := find_updateSessions b.ID g hg s'.sessions b.ID
  simp only [if_true] at h1 h2
  unfold getSession at h ⊢
  rw [h1, h2, h]

/-- A batch leaves the rows whose key no session of the batch has as they
are. -/
theorem pollBatch_other (env : AuthEnv) (clock : Nat → Time) (id : Nat)
    (batch : List WechatSession) :
    ∀ (k : Nat) (s : Store), (∀ b ∈ batch, b.ID ≠ id) →
      getSession (pollBatch env clock k batch s) id = getSession s id := by
  induction batch with
  | nil => intro k s _; rfl
  | cons b rest ih =>
    intro k s h
    rw [pollBatch, ih (k + 1) _ (fun c hc => h c (List.mem_cons_of_mem _ hc))]
    exact updateSession_other env k (clock k) b s id
      (fun e => h b (List.mem_cons_self _ _) e.symm)

/-- In a batch with distinct keys, the row of the session at position `j` after
the batch is the row after that session alone has been polled. -/
theorem pollBatch_at (env : AuthEnv) (clock : Nat → Time) (batch : List WechatSession) :
    ∀ (k : Nat) (s : Store) (j : Nat) (b : WechatSession),
      (batch.map (fun b => b.ID)).Nodup → batch[j]? = some b →
      getSession (pollBatch env clock k batch s) b.ID =
        getSession (updateSession env (k + j) (clock (k + j)) b s).2 b.ID := by
  induction batch with
  | nil => intro k s j b _ hb; simp at hb
  | cons c rest ih =>
    intro k s j b hnd hb
    simp only [List.map_cons, List.nodup_cons, List.mem_map, not_exists, not_and] at hnd
    rw [pollBatch]
    cases j with
    | zero =>
      simp only [List.getElem?_cons_zero, Option.some.injEq] at hb
      subst hb
      exact pollBatch_other env clock c.ID rest (k + 1) _ (fun d hd => hnd.1 d hd)
    | succ j =>
      simp only [List.getElem?_cons_succ] at hb
      have hmem : b ∈ rest := by
        obtain ⟨hlt, heq⟩ := List.getElem?_eq_some.1 hb
        exact heq ▸ List.getElem_mem hlt
      have hne : b.ID ≠ c.ID := hnd.1 b hmem
      rw [ih (k + 1) _ j b hnd.2 hb]
      have hk : k + 1 + j = k + (j + 1) := by omega
      rw [hk]
      exact updateSession_same env _ _ b _ s (updateSession_other env k (clock k) c s b.ID hne)

/-- The calls a batch makes: one for each session, in order, each with the
outcome polling that session alone has. -/
theorem pollReports_at (env : AuthEnv) (clock : Nat → Time) (batch : List WechatSession) :
    ∀ (k : Nat) (s : Store),
      (pollReports env clock k batch s).map Prod.fst = batch.map (fun b => b.ID) ∧
      ∀ (j : Nat) (b : WechatSession), batch[j]? = some b →
        (pollReports env clock k batch s)[j]? =
          some (b.ID, (updateSession env (k + j) (clock (k + j)) b s).1) := by
  induction batch with
  | nil => intro k s; exact ⟨rfl, fun j b hb => by simp at hb⟩
  | cons c rest ih =>
    intro k s
    refine ⟨?_, ?_⟩
    · rw [pollReports, List.map_cons, (ih (k + 1) _).1]; rfl
    · intro j b hb
      rw [pollReports]
      cases j with
      | zero =>
        simp only [List.getElem?_cons_zero, Option.some.injEq] at hb
        subst hb
        simp
      | succ j =>
        simp only [List.getElem?_cons_succ] at hb ⊢
        rw [(ih (k + 1) _).2 j b hb]
        have hk : k + 1 + j = k + (j + 1) := by omega
        rw [hk, updateSession_report env _ _ b _ s]

/-- The batch a tick loads from a store with unique session keys has distinct
keys, and each of its sessions is the row of the store with its key. -/
theorem loadBatch_rows (s : Store) (hu : SessionKeysUnique s) :
    ((loadBatch s).map (fun b => b.ID)).Nodup ∧
    ∀ b ∈ loadBatch s, getSession s b.ID = some b := by
  have hsub : (loadBatch s).Sublist s.sessions :=
    (List.take_sublist _ _).trans (List.filter_sublist _)
  refine ⟨List.Nodup.sublist (List.Sublist.map _ hsub) hu, fun b hb => ?_⟩
  have hmem : b ∈ s.sessions := hsub.subset hb
  cases hrow : getSession s b.ID with
  | none =>
    unfold getSession at hrow
    have := List.find?_eq_none.1 hrow b hmem
    simp at this
  | some w =>
    have hw := getSession_mem s b.ID w hrow
    rw [unique_session s.sessions hu b w hmem hw.1 hw.2.symm]

/-- C21: in a tick over a store with unique session keys, let advancing the
session at position `j` of the loaded batch fail, on the status request or on
the finalize. Then the row of that session is afterwards exactly the row
before; the tick calls `updateSession` once for each session of the batch, in
order, and the call at position `j` is the one for that session and reports an
error, so that the session is not tried again; every session of the batch has
afterwards the row, and is reported with the outcome, that polling it alone in
the store before the tick gives; and `pollSessions` reports no error. -/
theorem poll_failure_isolated (env : AuthEnv) (clock : Nat → Time) (s : Store)
    (hu : SessionKeysUnique s) (j : Nat) (b : WechatSession)
    (hb : (loadBatch s)[j]? = some b)
    (hfail : (∃ e, AskStatus env j b.UUID = .error e) ∨
      ∃ st e, AskStatus env j b.UUID = .ok st ∧ st.State = "authorized" ∧
        FinalizeLogin env j st.RedirectURL = .error e) :
    getSession (pollSessions env clock s).2 b.ID = some b ∧
    (pollReports env clock 0 (loadBatch s) s).map Prod.fst =
      (loadBatch s).map (fun c => c.ID) ∧
    (∃ e, (pollReports env clock 0 (loadBatch s) s)[j]? = some (b.ID, some e)) ∧
    (∀ (i : Nat) (c : WechatSession), (loadBatch s)[i]? = some c →
      getSession (pollSessions env clock s).2 c.ID =
        getSession (updateSession env i (clock i) c s).2 c.ID ∧
      (pollReports env clock 0 (loadBatch s) s)[i]? =
        some (c.ID, (updateSession env i (clock i) c s).1)) ∧
    (pollSessions env clock s).1 = none := by
  obtain ⟨hnd, hrows⟩ := loadBatch_rows s hu
  have hrep := pollReports_at env clock (loadBatch s) 0 s
  have hall : ∀ (i : Nat) (c : WechatSession), (loadBatch s)[i]? = some c →
      getSession (pollSessions env clock s).2 c.ID =
        getSession (updateSession env i (clock i) c s).2 c.ID ∧
      (pollReports env clock 0 (loadBatch s) s)[i]? =
        some (c.ID, (updateSession env i (clock i) c s).1) := by
    intro i c hc
    have h1 := pollBatch_at env clock (loadBatch s) 0 s i c hnd hc
    have h2 := hrep.2 i c hc
    rw [Nat.zero_add] at h1 h2
    exact ⟨by rw [pollSessions_eq]; exact h1, h2⟩
  have herr : ∃ e, updateSession env j (clock j) b s = (some e, s) := by
    rcases hfail with ⟨e, hask⟩ | ⟨st, e, hask, hst, hfin⟩
    · exact ⟨e, by simp [updateSession, hask]⟩
    · exact ⟨_, (updateSession_state env j (clock j) b s st hask).2.2.2.1 hst e hfin⟩
  obtain ⟨e, he⟩ := herr
  have hmem : b ∈ loadBatch s := by
    obtain ⟨hlt, heq⟩ := List.getElem?_eq_some.1 hb
    exact heq ▸ List.getElem_mem hlt
  refine ⟨?_, hrep.1, ⟨e, ?_⟩, hall, rfl⟩
  · rw [(hall j b hb).1, he]
    exact hrows b hmem
  · rw [(hall j b hb).2, he]

theorem poll_failure_isolated_witness :
    SessionKeysUnique sessionStore ∧
    (loadBatch sessionStore)[0]? = some samplePendingSession ∧
    AskStatus firstFailsEnv 0 samplePendingSession.UUID = .error "dial tcp: timeout" ∧
    getSession (pollSessions firstFailsEnv (fun _ => 7000) sessionStore).2 3 =
      some samplePendingSession ∧
    getSession (pollSessions firstFailsEnv (fun _ => 7000) sessionStore).2 4 =
      getSession (updateSession firstFailsEnv 1 7000 sampleScanningSession sessionStore).2 4 ∧
    getSession (updateSession firstFailsEnv 1 7000 sampleScanningSession sessionStore).2 4 =
      some { sampleScanningSession with LastPing := some 7000 } ∧
    (pollSessions firstFailsEnv (fun _ => 7000) sessionStore).1 = none := by
  have h := poll_failure_isolated firstFailsEnv (fun _ => 7000) sessionStore (by decide) 0
    samplePendingSession (by decide) (Or.inl ⟨_, rfl⟩)
  exact ⟨by decide, by decide, rfl, h.1,
    (h.2.2.2.1 1 sampleScanningSession (by decide)).1, by decide, h.2.2.2.2⟩

/-! ## The text around "token=" -/

/-- When `afterFirst` finds nothing, `sep` does not occur. -/
theorem afterFirst_none (sep : List Char) (hsep : sep ≠ []) :
    ∀ l : List Char, afterFirst sep l = none → ¬ Occurs sep l ∧ beforeFirst sep l = l := by
  intro l
  induction l with
  | nil =>
    intro _
    refine ⟨?_, rfl⟩
    rintro ⟨pre, post, h⟩
    have h1 := congrArg List.length h
    simp only [List.length_nil, List.length_append] at h1
    have : sep.length = 0 := by omega
    exact hsep (List.length_eq_zero.1 this)
  | cons c cs ih =>
    intro h
    unfold afterFirst at h
    by_cases hp : sep.isPrefixOf (c :: cs) = true
    · rw [if_pos hp] at h; cases h
    · rw [if_neg hp] at h
      obtain ⟨hno, hbf⟩ := ih h
      refine ⟨?_, ?_⟩
      · rintro ⟨pre, post, heq⟩
        cases pre with
        | nil =>
          apply hp
          rw [List.isPrefixOf_iff_prefix]
          exact ⟨post, by simpa using heq.symm⟩
        | cons p pre =>
          simp only [List.cons_append, List.cons.injEq] at heq
          exact hno ⟨pre, post, heq.2⟩
      · unfold beforeFirst
        rw [if_neg hp, hbf]

/-- What `afterFirst` finds follows the first occurrence of `sep`, and
`beforeFirst` is the text before that occurrence. -/
theorem afterFirst_some (sep : List Char) :
    ∀ (l post : List Char), afterFirst sep l = some post →
      FirstSplit sep l (beforeFirst sep l) post := by
  intro l
  induction l with
  | nil => intro post h; cases h
  | cons c cs ih =>
    intro post h
    unfold afterFirst at h
    unfold beforeFirst
    by_cases hp : sep.isPrefixOf (c :: cs) = true
    · rw [if_pos hp] at h
      rw [if_pos hp]
      simp only [Option.some.injEq] at h
      refine ⟨?_, fun _ _ _ => Nat.zero_le _⟩
      rw [← h, List.nil_append]
      exact (List.prefix_iff_eq_append.1 (List.isPrefixOf_iff_prefix.1 hp)).symm
    · rw [if_neg hp] at h
      rw [if_neg hp]
      obtain ⟨heq, hmin⟩ := ih post h
      refine ⟨by simp only [List.cons_append]; rw [← heq], ?_⟩
      intro pre1 post1 h1
      cases pre1 with
      | nil =>
        exfalso
        apply hp
        rw [List.isPrefixOf_iff_prefix]
        exact ⟨post1, by simpa using h1.symm⟩
      | cons p pre1 =>
        simp only [List.cons_append, List.cons.injEq] at h1
        simpa using hmin pre1 post1 h1.2

/-- The first occurrence of a text splits a text in one way only. -/
theorem FirstSplit.unique {sep l pre post pre1 post1 : List Char}
    (h : FirstSplit sep l pre post) (h1 : FirstSplit sep l pre1 post1) :
    pre = pre1 ∧ post = post1 := by
  have hlen : pre.length = pre1.length :=
    Nat.le_antisymm (h.2 pre1 post1 h1.1) (h1.2 pre post h.1)
  have heq : pre ++ (sep ++ post) = pre1 ++ (sep ++ post1) := by
    rw [← List.append_assoc, ← List.append_assoc, ← h.1, ← h1.1]
  obtain ⟨hpre, hrest⟩ := List.append_inj heq hlen
  exact ⟨hpre, List.append_cancel_left hrest⟩

/-- A text in which `sep` occurs is split by `afterFirst` and `beforeFirst`. -/
theorem afterFirst_of_occurs (sep : List Char) (hsep : sep ≠ []) (l : List Char)
    (h : Occurs sep l) : ∃ post, afterFirst sep l = some post := by
  cases ha : afterFirst sep l with
  | none => exact absurd h (afterFirst_none sep hsep l ha).1
  | some post => exact ⟨post, rfl⟩

/-- The text cut at the next occurrence of `sep` is `beforeFirst`. -/
theorem cutAtNext_iff (sep : List Char) (hsep : sep ≠ []) (l mid : List Char) :
    CutAtNext sep l mid ↔ mid = beforeFirst sep l := by
  cases ha : afterFirst sep l with
  | none =>
    obtain ⟨hno, hbf⟩ := afterFirst_none sep hsep l ha
    constructor
    · rintro (⟨tail, ht⟩ | ⟨hm, _⟩)
      · exact absurd ⟨mid, tail, ht.1⟩ hno
      · rw [hm, hbf]
    · intro hm
      exact Or.inr ⟨by rw [hm, hbf], hno⟩
  | some post =>
    have hs := afterFirst_some sep l post ha
    constructor
    · rintro (⟨tail, ht⟩ | ⟨_, hno⟩)
      · exact (ht.unique hs).1
      · exact absurd ⟨_, _, hs.1⟩ hno
    · intro hm
      exact Or.inl ⟨post, hm ▸ hs⟩

/-- The run `takeWhile` takes is the longest one. -/
theorem longestRun_takeWhile (p : Char → Bool) :
    ∀ l : List Char, LongestRun p l (l.takeWhile p) := by
  intro l
  refine ⟨List.takeWhile_prefix p, fun c hc => (List.mem_takeWhile_imp hc), ?_⟩
  induction l with
  | nil =>
    intro r1 hr1 _
    simp [List.prefix_nil.1 hr1]
  | cons a l ih =>
    intro r1 hr1 hall
    cases r1 with
    | nil => simp
    | cons b r1 =>
      obtain ⟨hab, hr⟩ := List.cons_prefix_cons.1 hr1
      subst hab
      have hb : p b = true := hall b (List.mem_cons_self _ _)
      rw [List.takeWhile_cons_of_pos hb]
      simp only [List.length_cons, Nat.add_le_add_iff_right]
      exact ih r1 hr (fun c hc => hall c (List.mem_cons_of_mem _ hc))

/-- The runes `isTokenRune` accepts are the ASCII letters and digits. -/
theorem isTokenRune_iff (c : Char) : isTokenRune c = true ↔ c ∈ asciiAlnum := by
  constructor
  · intro h
    have hc : c = Char.ofNat c.toNat := (Char.ofNat_toNat c).symm
    have hr : (48 ≤ c.toNat ∧ c.toNat ≤ 57) ∨ (97 ≤ c.toNat ∧ c.toNat ≤ 122) ∨
        (65 ≤ c.toNat ∧ c.toNat ≤ 90) := by
      simp only [isTokenRune, Bool.or_eq_true, Bool.and_eq_true, decide_eq_true_eq,
        Char.le_def, UInt32.le_def] at h
      rcases h with (h | h) | h
      · exact Or.inl h
      · exact Or.inr (Or.inl h)
      · exact Or.inr (Or.inr h)
    generalize c.toNat = n at hc hr
    subst hc
    rcases hr with ⟨h1, h2⟩ | ⟨h1, h2⟩ | ⟨h1, h2⟩ <;> interval_cases n <;> decide
  · have hall : ∀ d ∈ asciiAlnum, isTokenRune d = true := by decide
    exact hall c

/-- The result of `parseToken` for a text without a non-empty `token`
parameter. -/
theorem parseToken_split (lib : URLLib) (raw : String) (get : String → String)
    (hq : lib.query raw = some get) (hemp : get "token" = "") :
    (∀ post, afterFirst "token=".data raw.data = some post →
      parseToken lib raw =
        String.mk ((beforeFirst "token=".data post).takeWhile isTokenRune)) ∧
    (afterFirst "token=".data raw.data = none → parseToken lib raw = "") := by
  constructor
  · intro post h
    simp [parseToken, hq, hemp, h]
  · intro h
    simp [parseToken, hq, hemp, h]

/-- A text that does not parse as a URL has no token. -/
theorem parseToken_unparsed (lib : URLLib) (raw : String) (hq : lib.query raw = none) :
    parseToken lib raw = "" := by
  simp [parseToken, hq]

/-! ## Finalize and the token -/

/-- The token `FinalizeLogin` looks for is missing exactly when neither URL
holds one. -/
theorem locateToken_empty_iff (lib : URLLib) (url : String) (reached : Option String) :
    locateToken lib url reached = "" ↔
      parseToken lib url = "" ∧ ∀ u, reached = some u → parseToken lib u = "" := by
  unfold locateToken
  by_cases h : parseToken lib url = ""
  · cases reached with
    | none => simp [h]
    | some u => simp [h]
  · simp [h]

/-- The result of `FinalizeLogin` once the redirect request has completed. -/
theorem FinalizeLogin_completed (env : AuthEnv) (k : Nat) (url : String)
    (reached : Option String) (hurl : url ≠ "") (hdo : env.redirectDo k url = .ok reached) :
    FinalizeLogin env k url =
      if locateToken env.lib url reached = "" then .error "token not found"
      else .ok (serializeCookies (env.jarCookies k), locateToken env.lib url reached) := by
  simp [FinalizeLogin, hurl, hdo]

/-- C22: `FinalizeLogin` with the empty redirect URL fails with "redirect url
empty", whatever the provider would answer. For a non-empty redirect URL whose
request completes, it fails if and only if `parseToken` finds no token in the
redirect URL as issued and none in the URL reached, if the response names one,
and the error is then "token not found"; when it succeeds, it returns the
serialized cookies of the jar and a non-empty token: the one of the redirect
URL as issued if that one is not empty, else the one of the URL reached. -/
theorem FinalizeLogin_spec (env : AuthEnv) (k : Nat) (url : String) (reached : Option String)
    (hurl : url ≠ "") (hdo : env.redirectDo k url = .ok reached) :
    (∀ (env1 : AuthEnv) (k1 : Nat), FinalizeLogin env1 k1 "" = .error "redirect url empty") ∧
    ((∃ e, FinalizeLogin env k url = .error e) ↔
      parseToken env.lib url = "" ∧ ∀ u, reached = some u → parseToken env.lib u = "") ∧
    (∀ e, FinalizeLogin env k url = .error e → e = "token not found") ∧
    (∀ c t, FinalizeLogin env k url = .ok (c, t) →
      c = serializeCookies (env.jarCookies k) ∧ t ≠ "" ∧
      (parseToken env.lib url ≠ "" → t = parseToken env.lib url) ∧
      (parseToken env.lib url = "" → ∃ u, reached = some u ∧ t = parseToken env.lib u)) := by
  have hfin := FinalizeLogin_completed env k url reached hurl hdo
  have hiff := locateToken_empty_iff env.lib url reached
  refine ⟨fun _ _ => rfl, ?_, ?_, ?_⟩
  · rw [← hiff]
    constructor
    · rintro ⟨e, he⟩
      by_contra hne
      rw [hfin, if_neg hne] at he
      cases he
    · intro h
      exact ⟨_, by rw [hfin, if_pos h]⟩
  · intro e he
    by_cases h : locateToken env.lib url reached = ""
    · rw [hfin, if_pos h] at he
      cases he; rfl
    · rw [hfin, if_neg h] at he
      cases he
  · intro c t hok
    by_cases h : locateToken env.lib url reached = ""
    · rw [hfin, if_pos h] at hok
      cases hok
    · rw [hfin, if_neg h] at hok
      simp only [Except.ok.injEq, Prod.mk.injEq] at hok
      obtain ⟨hc, ht⟩ := hok
      refine ⟨hc.symm, ht ▸ h, ?_, ?_⟩
      · intro hp
        rw [← ht]
        simp [locateToken, hp]
      · intro hp
        cases reached with
        | none => exact absurd (hiff.2 ⟨hp, fun u hu => by cases hu⟩) h
        | some u =>
          refine ⟨u, rfl, ?_⟩
          rw [← ht]
          simp [locateToken, hp]

theorem FinalizeLogin_spec_witness :
    plainURL ≠ "" ∧
    redirectEnv.redirectDo 0 plainURL = .ok (some sampleRedirect) ∧
    FinalizeLogin redirectEnv 0 "" = .error "redirect url empty" ∧
    FinalizeLogin redirectEnv 0 plainURL = .ok ("slave_sid=Zm9v", "abc123") ∧
    parseToken redirectEnv.lib plainURL = "" ∧
    ∃ u, some sampleRedirect = some u ∧ "abc123" = parseToken redirectEnv.lib u := by
  have h := FinalizeLogin_spec redirectEnv 0 plainURL (some sampleRedirect) (by decide) rfl
  exact ⟨by decide, rfl, h.1 redirectEnv 0, rfl, by decide,
    (h.2.2.2 "slave_sid=Zm9v" "abc123" rfl).2.2.2 (by decide)⟩

/-- The fallback of `parseToken`, for a text that parses and has no non-empty
`token` parameter: the result is the longest run of token runes at the start
of the text after the first "token=", cut at the next one. -/
theorem parseToken_longest (lib : URLLib) (raw : String) (get : String → String)
    (hq : lib.query raw = some get) (hemp : get "token" = "") :
    (∀ pre post mid, FirstSplit "token=".data raw.data pre post →
      CutAtNext "token=".data post mid →
      LongestRun isTokenRune mid (parseToken lib raw).data) ∧
    (Occurs "token=".data raw.data → ∃ pre post mid,
      FirstSplit "token=".data raw.data pre post ∧ CutAtNext "token=".data post mid) := by
  have hsep : "token=".data ≠ [] := by decide
  obtain ⟨hsome, _⟩ := parseToken_split lib raw get hq hemp
  constructor
  · intro pre post mid hsplit hcut
    obtain ⟨post1, ha⟩ := afterFirst_of_occurs _ hsep _ ⟨pre, post, hsplit.1⟩
    have hpost : post = post1 := (hsplit.unique (afterFirst_some _ _ post1 ha)).2
    subst hpost
    rw [(cutAtNext_iff _ hsep post mid).1 hcut, hsome post ha]
    exact longestRun_takeWhile isTokenRune _
  · intro hocc
    obtain ⟨post, ha⟩ := afterFirst_of_occurs _ hsep _ hocc
    exact ⟨_, post, _, afterFirst_some _ _ post ha, (cutAtNext_iff _ hsep post _).2 rfl⟩

/-- C23, as the code has it: `parseToken` returns the `token` query parameter
of a URL when that parameter is not empty. For a URL without a non-empty
`token` parameter it returns the empty string when the text "token=" does not
occur in the URL string; and when it occurs, the result is the longest run of
token runes at the start of the text that follows the first occurrence of
"token=", that text being cut at the next occurrence if any, such a text
exists, and the token runes are the ASCII letters and digits. -/
theorem parseToken_parameter (lib : URLLib) (raw : String) (get : String → String)
    (hq : lib.query raw = some get) :
    (get "token" ≠ "" → parseToken lib raw = get "token") ∧
    (get "token" = "" → ¬ Occurs "token=".data raw.data → parseToken lib raw = "") ∧
    (get "token" = "" → ∀ pre post mid, FirstSplit "token=".data raw.data pre post →
      CutAtNext "token=".data post mid →
      LongestRun isTokenRune mid (parseToken lib raw).data) ∧
    (get "token" = "" → Occurs "token=".data raw.data → ∃ pre post mid,
      FirstSplit "token=".data raw.data pre post ∧ CutAtNext "token=".data post mid) ∧
    (∀ c, isTokenRune c = true ↔ c ∈ asciiAlnum) := by
  refine ⟨fun h => by simp [parseToken, hq, h], fun hemp hno => ?_,
    fun hemp => (parseToken_longest lib raw get hq hemp).1,
    fun hemp => (parseToken_longest lib raw get hq hemp).2, isTokenRune_iff⟩
  apply (parseToken_split lib raw get hq hemp).2
  cases ha : afterFirst "token=".data raw.data with
  | none => rfl
  | some post => exact absurd ⟨_, _, (afterFirst_some _ _ post ha).1⟩ hno

theorem parseToken_parameter_witness :
    (∃ get, tableLib.query sampleRedirect = some get ∧ get "token" = "abc123") ∧
    parseToken tableLib sampleRedirect = "abc123" ∧
    parseToken tableLib plainURL = "" ∧
    (∃ get, tableLib.query twoMarksURL = some get ∧ get "token" = "") ∧
    FirstSplit "token=".data twoMarksURL.data
      "https://mp.weixin.qq.com/cgi-bin/home?x".data "AbC12token=zz".data ∧
    CutAtNext "token=".data "AbC12token=zz".data "AbC12".data ∧
    LongestRun isTokenRune "AbC12".data (parseToken tableLib twoMarksURL).data ∧
    parseToken tableLib twoMarksURL = "AbC12" := by
  have h1 := parseToken_parameter tableLib sampleRedirect
    (fun key => ([("t", "home/index"), ("token", "abc123")].lookup key).getD "") rfl
  have h2 := parseToken_parameter tableLib plainURL
    (fun key => (([] : List (String × String)).lookup key).getD "") rfl
  have h3 := parseToken_parameter tableLib twoMarksURL
    (fun key => ([("xtoken", "AbC12token=zz")].lookup key).getD "") rfl
  have hs : FirstSplit "token=".data twoMarksURL.data
      "https://mp.weixin.qq.com/cgi-bin/home?x".data "AbC12token=zz".data :=
    afterFirst_some "token=".data twoMarksURL.data "AbC12token=zz".data (by decide)
  have hc : CutAtNext "token=".data "AbC12token=zz".data "AbC12".data :=
    (cutAtNext_iff _ (by decide) _ _).2 (by decide)
  exact ⟨⟨_, rfl, by decide⟩, h1.1 (by decide),
    h2.2.1 rfl (afterFirst_none _ (by decide) _ (by decide)).1,
    ⟨_, rfl, by decide⟩, hs, hc, h3.2.2.1 (by decide) _ _ _ hs hc, by decide⟩

/-- C23, the claim as stated fails: this URL has the one query parameter
`access_token` and no parameter `token`, and `parseToken` returns "abc123" for
it, the run of letters and digits after the text "token=". -/
theorem parseToken_access_token :
    (∃ get, tableLib.query accessTokenURL = some get ∧ get "token" = "") ∧
    parseToken tableLib accessTokenURL = "abc123" ∧
    parseToken tableLib accessTokenURL ≠ "" := by
  exact ⟨⟨_, rfl, by decide⟩, by decide, by decide⟩

/-- C24, as the code has it: a text that does not parse as a URL yields the
empty string. For a text that parses and has no non-empty `token` parameter:
if "token=" occurs in it, the result is the longest run of token runes at the
start of the text that follows the first occurrence of "token=", cut at the
next occurrence if any, and such a text exists; every character of the result
is an ASCII letter or digit, those being the token runes; and if "token=" does
not occur in it, the result is the empty string. -/
theorem parseToken_fallback (lib : URLLib) (raw : String) :
    (lib.query raw = none → parseToken lib raw = "") ∧
    ∀ get, lib.query raw = some get → get "token" = "" →
      (∀ pre post mid, FirstSplit "token=".data raw.data pre post →
        CutAtNext "token=".data post mid →
        LongestRun isTokenRune mid (parseToken lib raw).data) ∧
      (Occurs "token=".data raw.data → ∃ pre post mid,
        FirstSplit "token=".data raw.data pre post ∧ CutAtNext "token=".data post mid) ∧
      (∀ c ∈ (parseToken lib raw).data, isTokenRune c = true ∧ c ∈ asciiAlnum) ∧
      (∀ c, isTokenRune c = true ↔ c ∈ asciiAlnum) ∧
      (¬ Occurs "token=".data raw.data → parseToken lib raw = "") := by
  have hsep : "token=".data ≠ [] := by decide
  refine ⟨parseToken_unparsed lib raw, fun get hq hemp => ?_⟩
  obtain ⟨hsome, hnone⟩ := parseToken_split lib raw get hq hemp
  have hrunes : ∀ c ∈ (parseToken lib raw).data, isTokenRune c = true := by
    intro c hc
    cases ha : afterFirst "token=".data raw.data with
    | none => rw [hnone ha] at hc; simp at hc
    | some post =>
      rw [hsome post ha] at hc
      exact List.mem_takeWhile_imp hc
  refine ⟨?_, ?_, fun c hc => ⟨hrunes c hc, (isTokenRune_iff c).1 (hrunes c hc)⟩,
    isTokenRune_iff, ?_⟩
  · intro pre post mid hsplit hcut
    obtain ⟨post1, ha⟩ := afterFirst_of_occurs _ hsep _ ⟨pre, post, hsplit.1⟩
    have hpost : post = post1 := (hsplit.unique (afterFirst_some _ _ post1 ha)).2
    subst hpost
    rw [(cutAtNext_iff _ hsep post mid).1 hcut, hsome post ha]
    exact longestRun_takeWhile isTokenRune _
  · intro hocc
    obtain ⟨post, ha⟩ := afterFirst_of_occurs _ hsep _ hocc
    exact ⟨_, post, _, afterFirst_some _ _ post ha, (cutAtNext_iff _ hsep post _).2 rfl⟩
  · intro hno
    apply hnone
    cases ha : afterFirst "token=".data raw.data with
    | none => rfl
    | some post => exact absurd ⟨_, _, (afterFirst_some _ _ post ha).1⟩ hno

theorem parseToken_fallback_witness :
    tableLib.query "::" = none ∧ parseToken tableLib "::" = "" ∧
    (∃ get, tableLib.query accessTokenURL = some get ∧ get "token" = "") ∧
    FirstSplit "token=".data accessTokenURL.data
      "https://mp.weixin.qq.com/cgi-bin/home?access_".data "abc123".data ∧
    CutAtNext "token=".data "abc123".data "abc123".data ∧
    LongestRun isTokenRune "abc123".data (parseToken tableLib accessTokenURL).data ∧
    parseToken tableLib accessTokenURL = "abc123" := by
  have h := parseToken_fallback tableLib accessTokenURL
  have h0 := (parseToken_fallback tableLib "::").1 rfl
  have hs : FirstSplit "token=".data accessTokenURL.data
      "https://mp.weixin.qq.com/cgi-bin/home?access_".data "abc123".data :=
    afterFirst_some "token=".data accessTokenURL.data "abc123".data (by decide)
  have hc : CutAtNext "token=".data "abc123".data "abc123".data :=
    (cutAtNext_iff _ (by decide) _ _).2 (by decide)
  exact ⟨rfl, h0, ⟨_, rfl, by decide⟩, hs, hc,
    (h.2 _ rfl (by decide)).1 _ _ _ hs hc, by decide⟩

/-- C24, the claim as stated fails: the text "token=" does not occur in this
URL, whose query key is written `%74oken`, and `parseToken` returns "abc123"
for it, the value of the `token` parameter the URL library decodes. -/
theorem parseToken_escaped_key :
    ¬ Occurs "token=".data escapedKeyURL.data ∧
    (∃ get, tableLib.query escapedKeyURL = some get ∧ get "token" = "abc123") ∧
    parseToken tableLib escapedKeyURL = "abc123" ∧
    parseToken tableLib escapedKeyURL ≠ "" := by
  exact ⟨(afterFirst_none _ (by decide) _ (by decide)).1, ⟨_, rfl, by decide⟩,
    by decide, by decide⟩

/-! ## A job whose body fetches fail -/

/-- The one-page provider answers every listing request with its page. -/
theorem onePageEnv_fetch (cred : Credentials) (biz : String) (o : Int) :
    FetchArticles onePageEnv cred biz o 5 =
      .ok { BaseResp := { Ret := 0, ErrMsg := "ok" }, AppMsgList := pageOfFive,
            TotalCount := 5 } := rfl

/-- C12, as the code has it: the body fetch fails on a transport error, on a
status other than 200 and on a parse error; for an item not yet stored whose
body fetch fails `saveArticle` returns no error and appends the row with the
external id, title, summary, source URL and published time of the item and an
empty body; the paging loop of `Execute`, whenever it returns, returns no
error unless a listing request of the run failed or the context was done
between two pages; and for a job whose account and session pass the checks of
`Execute`, when the provider reports the same total `T` on every page,
`Execute` returns as soon as it is given fuel for `max 1 T` requests, whatever
the body fetches do, and returns no error when no listing request of the run
fails and the context is never done. -/
theorem body_fetch_failure_not_fatal (env : Env) :
    (∀ link,
      (∀ e, env.contentDo link = .error e → fetchContent env link = .error e) ∧
      (∀ resp, env.contentDo link = .ok resp → resp.StatusCode ≠ 200 →
        ∃ e, fetchContent env link = .error e) ∧
      (∀ resp e, env.contentDo link = .ok resp → resp.StatusCode = 200 →
        env.jsContent resp.Body = .error e → fetchContent env link = .error e)) ∧
    (∀ (accountID : Nat) (item : ArticleItem) (s : Store) (e : String),
      item.Aid ∉ articleKeys s → fetchContent env item.Link = .error e →
      saveArticle env accountID item s =
        (none, { s with articles := s.articles ++
          [{ ID := nextArticleID s, AccountID := accountID, WechatArticleID := item.Aid,
             Title := item.Title, Summary := item.Digest, ContentHTML := "",
             RawURL := item.Link, PublishedAt := item.CreateTime }] })) ∧
    (∀ (cred : Credentials) (account : Account) (fuel : Nat) (offset : Int) (s : Store)
      (r : ExecResult), pageLoop env cred account fuel offset s = some r →
      (∀ o ∈ r.offsets, ∃ resp, FetchArticles env cred account.BizID o 5 = .ok resp) →
      (∀ o, env.ctxErr o = none) → r.err = none) ∧
    (∀ (task : Task) (s : Store) (a : Account) (sess : WechatSession) (T : Int) (fuel : Nat),
      loadAccount s task.AccountID = some (a, some sess) → a.BizID ≠ "" →
      sess.Status = SessionStatusActive →
      (∀ o resp, FetchArticles env { Cookie := sess.Cookie, Token := sess.Token } a.BizID o 5 =
        .ok resp → resp.TotalCount = T) →
      max 1 T.toNat ≤ fuel →
      ∃ r, Execute env fuel task s = some r ∧
        ((∀ o ∈ r.offsets, ∃ resp,
            FetchArticles env { Cookie := sess.Cookie, Token := sess.Token } a.BizID o 5 =
              .ok resp) →
          (∀ o, env.ctxErr o = none) → r.err = none)) := by
  have hpartial : ∀ (cred : Credentials) (account : Account) (fuel : Nat) (offset : Int)
      (s : Store) (r : ExecResult), pageLoop env cred account fuel offset s = some r →
      (∀ o ∈ r.offsets, ∃ resp, FetchArticles env cred account.BizID o 5 = .ok resp) →
      (∀ o, env.ctxErr o = none) → r.err = none := by
    intro cred account fuel offset s r hrun hlist hctx
    rcases pageLoop_err_cases env cred account fuel offset s r hrun with
      h | ⟨o, e, ho, hf, _⟩ | ⟨o, e, hc, _⟩
    · exact h
    · obtain ⟨resp, hok⟩ := hlist o ho
      rw [hok] at hf; cases hf
    · rw [hctx o] at hc; cases hc
  refine ⟨?_, ?_, hpartial, ?_⟩
  · intro link
    have h := fetchContent_failures env link
    exact ⟨h.1, fun resp hr hne => ⟨_, h.2.1 resp hr hne⟩, h.2.2⟩
  · intro accountID item s e hnew hfail
    exact saveArticle_no_body env accountID item s e hnew hfail
  · intro task s a sess T fuel hload hbiz hact hconst hfuel
    have hmin : ∀ o resp,
        FetchArticles env { Cookie := sess.Cookie, Token := sess.Token } a.BizID o 5 = .ok resp →
        resp.AppMsgList.length ≠ 0 → min ((1 : Nat) : Int) (T - o) ≤ resp.AppMsgList.length := by
      intro o resp _ hne
      have h1 : (1 : Int) ≤ resp.AppMsgList.length := by omega
      exact le_trans (min_le_left _ _) (by simpa using h1)
    have hf : max 1 (pagesFor (T - 0).toNat 1) ≤ fuel := by
      rw [pagesFor_one, Int.sub_zero]; exact hfuel
    obtain ⟨r, hr, _, _⟩ := pageLoop_bound env { Cookie := sess.Cookie, Token := sess.Token } a T 1
      (le_refl 1) hconst hmin fuel 0 s hf
    refine ⟨r, ?_, hpartial _ a fuel 0 s r hr⟩
    rw [Execute_eq_pageLoop env fuel task s a sess hload hbiz hact, hr]

theorem body_fetch_failure_not_fatal_witness :
    (∃ e, fetchContent onePageEnv sampleItem.Link = .error e) ∧
    (saveArticle onePageEnv 1 (itemWithAid "a1") storeWithTwo).2.articles =
      storeWithTwo.articles ++
        [{ ID := 3, AccountID := 1, WechatArticleID := "a1", Title := sampleItem.Title,
           Summary := sampleItem.Digest, ContentHTML := "", RawURL := sampleItem.Link,
           PublishedAt := sampleItem.CreateTime }] ∧
    loadAccount storeWithTwo samplePending.AccountID =
      some (sampleBoundAccount, some sampleSession) ∧
    (∀ it ∈ pageOfFive, ∃ e, fetchContent onePageEnv it.Link = .error e) ∧
    (∃ r, Execute onePageEnv 5 samplePending storeWithTwo = some r ∧ r.err = none) := by
  have h := body_fetch_failure_not_fatal onePageEnv
  refine ⟨(h.1 sampleItem.Link).2.1 { StatusCode := 500, Body := "Internal Server Error" } rfl
    (by decide), ?_, by decide, fun it _ => ⟨_, rfl⟩, ?_⟩
  · have h2 := h.2.1 1 (itemWithAid "a1") storeWithTwo
      "fetch content 500: Internal Server Error" (by decide) rfl
    rw [h2]
    rfl
  · obtain ⟨r, hr, herr⟩ := h.2.2.2 samplePending storeWithTwo sampleBoundAccount sampleSession
      5 5 (by decide) (by decide) (by decide)
      (fun o resp hf => by rw [onePageEnv_fetch] at hf; cases hf; rfl) (by decide)
    exact ⟨r, hr, herr (fun o _ => ⟨_, onePageEnv_fetch _ _ o⟩) (fun _ => rfl)⟩

end Wechat2rss
